import Mathlib

/-!
# KSCrash recording core: buffered file I/O, the dynamic-linker queries, the monitors

A shallow embedding of `KSFileUtils.c` (raw descriptor loops, `KSBufferedWriter`,
`KSBufferedReader`), of `KSDynamicLinker.c` (`ksdl_dladdr`, `ksdl_imageNamed`,
`ksdl_getBinaryImageForHeader`, the crash-info section), of `KSCrashMonitor_Signal.c`,
of `KSCrashMonitor_User.c` and of `KSMachineContext.c`, followed by the properties
established about them.

Conventions of the embedding.

* A byte is a `Fin 256`.  Caller-supplied memory (the writer's and the reader's
  buffer) is a function `Nat → Byte` indexed from the buffer's base address, so
  that a C access past the nominal end of the buffer still has a definite
  meaning (it reads whatever lies there).
* C `int` values are `Int`; every quantity computed below is bounded by a length
  or a capacity handed in by the caller, so no `int` arithmetic overflows when
  the inputs are in range.  `uintptr_t` arithmetic of the dynamic linker wraps
  modulo `2^64` (LP64), `uint32_t` arithmetic modulo `2^32`, and is written so.
* The operating system is explicit state.  What a `write`/`read` call returns is
  chosen by an oracle (the number of bytes the kernel is willing to transfer at
  that call, negative for failure), so short transfers and errors are covered.
* Loops whose termination depends on the operating system take a fuel argument
  and return `none` when it runs out.
* The monitors are state transformers on their globals and the signal state of the
  process; every call they make outwards is appended to a log, and an object passed
  by address is named by an `ObjRef`.
-/

namespace KSCrash

set_option maxRecDepth 8192

/-! ## Part I. Definitions -/

/-- One byte of memory or of a file. -/
abbrev Byte := Fin 256

/-- Caller-supplied memory, indexed from the base address of the buffer. -/
abbrev Mem := Nat → Byte

/-- The `n` bytes of memory starting at index `start`. -/
def readMem (m : Mem) (start n : Nat) : List Byte :=
  (List.range n).map (fun i => m (start + i))

/-- The effect of `memcpy(m + start, data, data.length)`. -/
def writeMem (m : Mem) (start : Nat) (data : List Byte) : Mem :=
  fun i => if i < start then m i else (data[i - start]?).getD (m i)

/-! ### The descriptor being written -/

/-- State of the descriptor a writer is bound to. -/
structure WriteOS where
  /-- Bytes the descriptor has received so far, in order. -/
  delivered : List Byte
  /-- Number of `write` calls issued so far. -/
  calls : Nat

/-- The system call `write(fd, pos, length)`: `pos` is the memory at the source
pointer.  `oracle i n` is what the kernel is willing to take at call number `i`
when asked for `n` bytes; a negative value is a failure (`-1`, nothing
transferred), otherwise `min (oracle i n) n` bytes are appended to the
descriptor and that count is returned. -/
def sysWrite (oracle : Nat → Nat → Int) (os : WriteOS) (pos : List Byte) (length : Nat) :
    Int × WriteOS :=
  let want := oracle os.calls length
  if want < 0 then
    (-1, { os with calls := os.calls + 1 })
  else
    let chunk := pos.take (min want.toNat length)
    ((chunk.length : Int), { delivered := os.delivered ++ chunk, calls := os.calls + 1 })

/-- Embedding of `ksfu_writeBytesToFD(fd, bytes, length)`: the loop retries short writes
until `length` reaches zero and gives up on the first `-1`. -/
def ksfu_writeBytesToFD (oracle : Nat → Nat → Int) :
    Nat → WriteOS → Int → List Byte → Int → Option (Bool × WriteOS)
  | fuel, os, fd, pos, length =>
    if length > 0 then
      match fuel with
      | 0 => none
      | fuel + 1 =>
        let r := sysWrite oracle os pos length.toNat
        let bytesWritten := r.1
        if bytesWritten = -1 then
          some (false, r.2)
        else
          ksfu_writeBytesToFD oracle fuel r.2 fd (pos.drop bytesWritten.toNat)
            (length - bytesWritten)
    else
      some (true, os)

/-- The C struct `KSBufferedWriter`. -/
structure KSBufferedWriter where
  buffer : Mem
  bufferLength : Int
  position : Int
  fd : Int

/-- Embedding of `ksfu_openBufferedWriter`; `fd` is the value `open` returned. -/
def ksfu_openBufferedWriter (writeBuffer : Mem) (writeBufferLength : Int) (fd : Int) :
    Bool × KSBufferedWriter :=
  let writer : KSBufferedWriter :=
    { buffer := writeBuffer, bufferLength := writeBufferLength, position := 0, fd := fd }
  if writer.fd < 0 then (false, writer) else (true, writer)

/-- Embedding of `ksfu_flushBufferedWriter`. -/
def ksfu_flushBufferedWriter (oracle : Nat → Nat → Int) (fuel : Nat)
    (writer : KSBufferedWriter) (os : WriteOS) : Option (Bool × KSBufferedWriter × WriteOS) :=
  if writer.fd > 0 ∧ writer.position > 0 then
    match ksfu_writeBytesToFD oracle fuel os writer.fd
        (readMem writer.buffer 0 writer.position.toNat) writer.position with
    | none => none
    | some (false, os') => some (false, writer, os')
    | some (true, os') => some (true, { writer with position := 0 }, os')
  else
    some (true, writer, os)

/-- Embedding of `ksfu_writeBufferedWriter(writer, data, length)` with
`length = data.length`. -/
def ksfu_writeBufferedWriter (oracle : Nat → Nat → Int) (fuel : Nat)
    (writer : KSBufferedWriter) (os : WriteOS) (data : List Byte) :
    Option (Bool × KSBufferedWriter × WriteOS) :=
  let length : Int := data.length
  let flushed : Option (Bool × KSBufferedWriter × WriteOS) :=
    if length > writer.bufferLength - writer.position then
      ksfu_flushBufferedWriter oracle fuel writer os
    else
      some (true, writer, os)
  match flushed with
  | none => none
  | some (false, writer1, os1) => some (false, writer1, os1)
  | some (true, writer1, os1) =>
    if length > writer1.bufferLength then
      match ksfu_writeBytesToFD oracle fuel os1 writer1.fd data length with
      | none => none
      | some (ok, os2) => some (ok, writer1, os2)
    else
      some (true,
        { writer1 with
          buffer := writeMem writer1.buffer writer1.position.toNat data
          position := writer1.position + length },
        os1)

/-- Embedding of `ksfu_closeBufferedWriter`. -/
def ksfu_closeBufferedWriter (oracle : Nat → Nat → Int) (fuel : Nat)
    (writer : KSBufferedWriter) (os : WriteOS) : Option (KSBufferedWriter × WriteOS) :=
  if writer.fd > 0 then
    match ksfu_flushBufferedWriter oracle fuel writer os with
    | none => none
    | some (_, writer1, os1) => some ({ writer1 with fd := -1 }, os1)
  else
    some (writer, os)

/-- A client that hands the chunks to `ksfu_writeBufferedWriter` one after the other
(whatever each call returns) and reports whether every call returned true. -/
def writeChunks (oracle : Nat → Nat → Int) (fuel : Nat) :
    KSBufferedWriter → WriteOS → List (List Byte) → Option (Bool × KSBufferedWriter × WriteOS)
  | writer, os, [] => some (true, writer, os)
  | writer, os, d :: rest =>
    match ksfu_writeBufferedWriter oracle fuel writer os d with
    | none => none
    | some (ok, writer1, os1) =>
      match writeChunks oracle fuel writer1 os1 rest with
      | none => none
      | some (ok2, writer2, os2) => some (ok && ok2, writer2, os2)

/-- Open a writer, write the chunks, close it. -/
def writeSession (oracle : Nat → Nat → Int) (fuel : Nat) (writeBuffer : Mem)
    (writeBufferLength : Int) (fd : Int) (os : WriteOS) (chunks : List (List Byte)) :
    Option (Bool × KSBufferedWriter × WriteOS) :=
  match writeChunks oracle fuel (ksfu_openBufferedWriter writeBuffer writeBufferLength fd).2
      os chunks with
  | none => none
  | some (ok, writer1, os1) =>
    match ksfu_closeBufferedWriter oracle fuel writer1 os1 with
    | none => none
    | some (writer2, os2) => some (ok, writer2, os2)

/-! ### The descriptor being read -/

/-- State of the descriptor a reader is bound to. -/
structure ReadOS where
  /-- Contents of the file. -/
  file : List Byte
  /-- Current file position. -/
  offset : Nat
  /-- Every `read` call issued so far: the value it returned and the bytes it transferred. -/
  log : List (Int × List Byte)

/-- The system call `read(fd, dst, count)`.  `oracle i n` is what the kernel is willing to
transfer at call number `i` when asked for `n` bytes; a negative value is a failure
(`-1`, nothing transferred, file position unchanged), otherwise the next
`min (oracle i n) n` bytes of the file (fewer at end of file) are transferred and their
count is returned. -/
def sysRead (oracle : Nat → Nat → Int) (os : ReadOS) (count : Nat) :
    Int × List Byte × ReadOS :=
  let want := oracle os.log.length count
  if want < 0 then
    (-1, [], { os with log := os.log ++ [(-1, [])] })
  else
    let chunk := (os.file.drop os.offset).take (min want.toNat count)
    ((chunk.length : Int), chunk,
      { os with offset := os.offset + chunk.length
                log := os.log ++ [((chunk.length : Int), chunk)] })

/-- The loop of `ksfu_readBytesFromFD`; `dst` is what has been stored at `bytes` so far. -/
def readBytesLoop (oracle : Nat → Nat → Int) :
    Nat → ReadOS → List Byte → Int → Option (Bool × List Byte × ReadOS)
  | fuel, os, dst, length =>
    if length > 0 then
      match fuel with
      | 0 => none
      | fuel + 1 =>
        let r := sysRead oracle os length.toNat
        let bytesRead := r.1
        if bytesRead = -1 then
          some (false, dst, r.2.2)
        else if bytesRead = 0 then
          some (false, dst, r.2.2)
        else
          readBytesLoop oracle fuel r.2.2 (dst ++ r.2.1) (length - bytesRead)
    else
      some (true, dst, os)

/-- Embedding of `ksfu_readBytesFromFD(fd, bytes, length)`; the list returned is what the
call stored at `bytes`, from index 0 on. -/
def ksfu_readBytesFromFD (oracle : Nat → Nat → Int) (fuel : Nat) (os : ReadOS) (length : Int) :
    Option (Bool × List Byte × ReadOS) :=
  readBytesLoop oracle fuel os [] length

/-- The C struct `KSBufferedReader`. -/
structure KSBufferedReader where
  buffer : Mem
  bufferLength : Int
  dataStartPos : Int
  dataEndPos : Int
  fd : Int

/-- The effect of `m[i] = b`. -/
def setByte (m : Mem) (i : Nat) (b : Byte) : Mem :=
  fun j => if j = i then b else m j

/-- The effect of `memmove(m + dst, m + src, n)`. -/
def memmove (m : Mem) (dst src n : Nat) : Mem :=
  writeMem m dst (readMem m src n)

/-- Embedding of `isReadBufferEmpty`. -/
def isReadBufferEmpty (reader : KSBufferedReader) : Bool :=
  reader.dataEndPos == reader.dataStartPos

/-- Embedding of `fillReadBuffer`.  The `memmove` moves `dataStartPos` bytes, as the source
does. -/
def fillReadBuffer (oracle : Nat → Nat → Int) (reader : KSBufferedReader) (os : ReadOS) :
    Bool × KSBufferedReader × ReadOS :=
  let reader1 : KSBufferedReader :=
    if reader.dataStartPos > 0 then
      let moved := memmove reader.buffer 0 reader.dataStartPos.toNat reader.dataStartPos.toNat
      let endPos := reader.dataEndPos - reader.dataStartPos
      { reader with
        buffer := setByte moved endPos.toNat 0
        dataEndPos := endPos
        dataStartPos := 0 }
    else
      reader
  let bytesToRead := reader1.bufferLength - reader1.dataEndPos
  if bytesToRead ≤ 0 then
    (true, reader1, os)
  else
    let r := sysRead oracle os bytesToRead.toNat
    let bytesRead := r.1
    if bytesRead < 0 then
      (false, reader1, r.2.2)
    else
      let endPos := reader1.dataEndPos + bytesRead
      (true,
        { reader1 with
          buffer := setByte (writeMem reader1.buffer reader1.dataEndPos.toNat r.2.1) endPos.toNat 0
          dataEndPos := endPos },
        r.2.2)

/-- The loop of `ksfu_readBufferedReader`; `dst` is what has been copied to `dstBuffer`
so far. -/
def readBufferedLoop (oracle : Nat → Nat → Int) :
    Nat → KSBufferedReader → ReadOS → List Byte → Int → Int →
      Option (Int × List Byte × KSBufferedReader × ReadOS)
  | fuel, reader, os, dst, bytesRemaining, bytesConsumed =>
    if bytesRemaining > 0 then
      match fuel with
      | 0 => none
      | fuel + 1 =>
        let bytesInReader := reader.dataEndPos - reader.dataStartPos
        let filled : Bool × KSBufferedReader × ReadOS :=
          if bytesInReader ≤ 0 then fillReadBuffer oracle reader os else (true, reader, os)
        let reader1 := filled.2.1
        let os1 := filled.2.2
        if filled.1 = false then
          some (bytesConsumed, dst, reader1, os1)
        else
          let bytesInReader := reader1.dataEndPos - reader1.dataStartPos
          if bytesInReader ≤ 0 then
            some (bytesConsumed, dst, reader1, os1)
          else
            let bytesToCopy := if bytesInReader ≤ bytesRemaining then bytesInReader
              else bytesRemaining
            let copied := readMem reader1.buffer reader1.dataStartPos.toNat bytesToCopy.toNat
            readBufferedLoop oracle fuel
              { reader1 with dataStartPos := reader1.dataStartPos + bytesToCopy } os1
              (dst ++ copied) (bytesRemaining - bytesToCopy) (bytesConsumed + bytesToCopy)
    else
      some (bytesConsumed, dst, reader, os)

/-- Embedding of `ksfu_readBufferedReader(reader, dstBuffer, byteCount)`: the value returned,
the bytes stored at `dstBuffer`, and the new reader and descriptor states. -/
def ksfu_readBufferedReader (oracle : Nat → Nat → Int) (fuel : Nat)
    (reader : KSBufferedReader) (os : ReadOS) (byteCount : Int) :
    Option (Int × List Byte × KSBufferedReader × ReadOS) :=
  readBufferedLoop oracle fuel reader os [] byteCount 0

/-- The conversion of the `int` argument of `strchr` to `char`. -/
def toChar (ch : Int) : Byte := ⟨(ch % 256).toNat, by omega⟩

/-- The scan of `strchr` over the bytes `m[start + i ..]`, looking at no more than `limit`
bytes: `some (some j)` when the first byte equal to `c` is at offset `j` from `start`
(the terminating NUL counts as part of the string, so `c = 0` finds it), `some none` when
a NUL comes first (the C result `NULL`), and `none` when neither occurs among the `limit`
bytes. -/
def strchrScan (m : Mem) (start : Nat) (c : Byte) : Nat → Nat → Option (Option Nat)
  | 0, _ => none
  | limit + 1, i =>
    if m (start + i) = c then some (some i)
    else if m (start + i) = 0 then some none
    else strchrScan m start c limit (i + 1)

/-- The library call `strchr(m + start, ch)` on a buffer whose allocation ends at index
`size`: the scan is followed up to the end of the allocation, and `none` records that the
C call would run past it. -/
def strchr (m : Mem) (size : Nat) (start : Nat) (ch : Int) : Option (Option Nat) :=
  strchrScan m start (toChar ch) (size - start) 0

/-- The loop of `ksfu_readBufferedReaderUntilChar`; `dst` is what has been copied to
`dstBuffer` so far.  The result is the value returned, the bytes stored at `dstBuffer`,
the value left in `*length`, and the new reader and descriptor states.  An iteration
that leaves `bytesRemaining` at zero falls out of the `while` and returns false. -/
def readUntilCharLoop (oracle : Nat → Nat → Int) (ch : Int) :
    Nat → KSBufferedReader → ReadOS → List Byte → Int → Int →
      Option (Bool × List Byte × Int × KSBufferedReader × ReadOS)
  | fuel, reader, os, dst, bytesRemaining, bytesConsumed =>
    if bytesRemaining > 0 then
      match fuel with
      | 0 => none
      | fuel + 1 =>
        let bytesInReader := reader.dataEndPos - reader.dataStartPos
        let bytesToCopy0 := if bytesInReader ≤ bytesRemaining then bytesInReader
          else bytesRemaining
        match strchr reader.buffer (reader.bufferLength + 1).toNat reader.dataStartPos.toNat ch with
        | none => none
        | some pChar =>
          let isFound := pChar.isSome
          let bytesToCopy :=
            match pChar with
            | some j =>
              let bytesToChar : Int := (j : Int) + 1
              if bytesToChar < bytesToCopy0 then bytesToChar else bytesToCopy0
            | none => bytesToCopy0
          let copied := readMem reader.buffer reader.dataStartPos.toNat bytesToCopy.toNat
          let reader1 := { reader with dataStartPos := reader.dataStartPos + bytesToCopy }
          let dst1 := dst ++ copied
          let bytesConsumed1 := bytesConsumed + bytesToCopy
          let bytesRemaining1 := bytesRemaining - bytesToCopy
          if isFound then
            some (true, dst1, bytesConsumed1, reader1, os)
          else if bytesRemaining1 > 0 then
            let filled := fillReadBuffer oracle reader1 os
            if isReadBufferEmpty filled.2.1 then
              some (false, dst1, bytesConsumed1, filled.2.1, filled.2.2)
            else
              readUntilCharLoop oracle ch fuel filled.2.1 filled.2.2 dst1 bytesRemaining1
                bytesConsumed1
          else
            some (false, dst1, bytesConsumed1, reader1, os)
    else
      some (false, dst, bytesConsumed, reader, os)

/-- Embedding of `ksfu_readBufferedReaderUntilChar(reader, ch, dstBuffer, length)`, `length`
being the value of `*length` on entry. -/
def ksfu_readBufferedReaderUntilChar (oracle : Nat → Nat → Int) (fuel : Nat)
    (reader : KSBufferedReader) (os : ReadOS) (ch : Int) (length : Int) :
    Option (Bool × List Byte × Int × KSBufferedReader × ReadOS) :=
  readUntilCharLoop oracle ch fuel reader os [] length 0

/-- Embedding of `ksfu_openBufferedReader`; `fd` is the value `open` returned and `os` the
state of the file behind it. -/
def ksfu_openBufferedReader (oracle : Nat → Nat → Int) (readBuffer : Mem)
    (readBufferLength : Int) (fd : Int) (os : ReadOS) : Bool × KSBufferedReader × ReadOS :=
  let readBuffer1 := setByte (setByte readBuffer 0 0) (readBufferLength - 1).toNat 0
  let reader : KSBufferedReader :=
    { buffer := readBuffer1, bufferLength := readBufferLength - 1,
      dataStartPos := 0, dataEndPos := 0, fd := fd }
  if reader.fd < 0 then
    (false, reader, os)
  else
    let filled := fillReadBuffer oracle reader os
    (true, filled.2.1, filled.2.2)

/-- The states a reader and its descriptor can be in.  `ReaderReachable oracle file p reader os`
holds after a successful `ksfu_openBufferedReader` on a buffer of at least one byte over a
file with contents `file`, followed by any sequence of `ksfu_readBufferedReader` and
`ksfu_readBufferedReaderUntilChar` calls that reported `p` bytes in total (the values
returned by the former, the values left in `*length` by the latter). -/
inductive ReaderReachable (oracle : Nat → Nat → Int) (file : List Byte) :
    Nat → KSBufferedReader → ReadOS → Prop
  | opened (readBuffer : Mem) (readBufferLength : Int) (fd : Int)
      (h1 : 1 ≤ readBufferLength) (hfd : 0 ≤ fd) :
      ReaderReachable oracle file 0
        (ksfu_openBufferedReader oracle readBuffer readBufferLength fd ⟨file, 0, []⟩).2.1
        (ksfu_openBufferedReader oracle readBuffer readBufferLength fd ⟨file, 0, []⟩).2.2
  | afterRead (p : Nat) (reader : KSBufferedReader) (os : ReadOS) (fuel : Nat)
      (byteCount : Int) (res : Int × List Byte × KSBufferedReader × ReadOS)
      (h : ReaderReachable oracle file p reader os)
      (hrun : ksfu_readBufferedReader oracle fuel reader os byteCount = some res) :
      ReaderReachable oracle file (p + res.1.toNat) res.2.2.1 res.2.2.2
  | afterReadUntilChar (p : Nat) (reader : KSBufferedReader) (os : ReadOS) (fuel : Nat)
      (ch : Int) (length : Int) (res : Bool × List Byte × Int × KSBufferedReader × ReadOS)
      (h : ReaderReachable oracle file p reader os)
      (hrun : ksfu_readBufferedReaderUntilChar oracle fuel reader os ch length = some res) :
      ReaderReachable oracle file (p + res.2.2.1.toNat) res.2.2.2.1 res.2.2.2.2

/-- The bytes of the file the reader has not handed out yet: the buffered window followed
by the part of the file not yet read. -/
def unread (reader : KSBufferedReader) (os : ReadOS) : List Byte :=
  readMem reader.buffer reader.dataStartPos.toNat
      (reader.dataEndPos - reader.dataStartPos).toNat ++
    os.file.drop os.offset

/-- The number of bytes of the file the reader has handed out. -/
def consumed (reader : KSBufferedReader) (os : ReadOS) : Nat :=
  os.offset - (reader.dataEndPos - reader.dataStartPos).toNat

/-- The ASCII bytes of a string literal. -/
def bytesOf (s : String) : List Byte :=
  s.toList.map (fun c => toChar (c.toNat : Int))

/-- What ties a reader to its descriptor: the window `[dataStartPos, dataEndPos)` lies in
the buffer, is followed by a NUL, and holds the bytes of the file just before the file
position. -/
structure ReaderInv (r : KSBufferedReader) (os : ReadOS) : Prop where
  start_nonneg : 0 ≤ r.dataStartPos
  start_le_end : r.dataStartPos ≤ r.dataEndPos
  end_le_cap : r.dataEndPos ≤ r.bufferLength
  terminated : r.buffer r.dataEndPos.toNat = 0
  window_le : (r.dataEndPos - r.dataStartPos).toNat ≤ os.offset
  offset_le : os.offset ≤ os.file.length
  window_eq : readMem r.buffer r.dataStartPos.toNat (r.dataEndPos - r.dataStartPos).toNat =
    (os.file.drop (consumed r os)).take (r.dataEndPos - r.dataStartPos).toNat

/-! ### Fixtures for the concrete evaluations -/

/-- A kernel that transfers at most three bytes per call and never fails. -/
def threeAtATime : Nat → Nat → Int := fun _ _ => 3

/-- A kernel whose every call fails. -/
def alwaysFailing : Nat → Nat → Int := fun _ _ => -1

/-- The file used in the examples, `"abc\ndef"`. -/
def sampleFile : List Byte := bytesOf "abc\ndef"

/-- A reader opened on `sampleFile` with a five-byte buffer (four usable bytes). -/
def sampleReader : KSBufferedReader :=
  (ksfu_openBufferedReader threeAtATime (fun _ => 7) 5 3 ⟨sampleFile, 0, []⟩).2.1

/-- The descriptor state that goes with `sampleReader`. -/
def sampleReaderOS : ReadOS :=
  (ksfu_openBufferedReader threeAtATime (fun _ => 7) 5 3 ⟨sampleFile, 0, []⟩).2.2

/-- A reader opened on `sampleFile` with a nine-byte buffer, by a kernel that hands over
the whole file at once. -/
def wideReader : KSBufferedReader :=
  (ksfu_openBufferedReader (fun _ _ => 8) (fun _ => 7) 9 3 ⟨sampleFile, 0, []⟩).2.1

/-- The descriptor state that goes with `wideReader`. -/
def wideReaderOS : ReadOS :=
  (ksfu_openBufferedReader (fun _ _ => 8) (fun _ => 7) 9 3 ⟨sampleFile, 0, []⟩).2.2

/-- A reader opened on `sampleFile` with a one-byte buffer: the byte holds the terminating
NUL and no usable capacity is left (`bufferLength = 0`). -/
def oneByteReader : KSBufferedReader :=
  (ksfu_openBufferedReader threeAtATime (fun _ => 7) 1 3 ⟨sampleFile, 0, []⟩).2.1

/-- The descriptor state that goes with `oneByteReader`. -/
def oneByteReaderOS : ReadOS :=
  (ksfu_openBufferedReader threeAtATime (fun _ => 7) 1 3 ⟨sampleFile, 0, []⟩).2.2

/-- A reader opened on `sampleFile` with a five-byte buffer while every `read` fails. -/
def starvedReader : KSBufferedReader :=
  (ksfu_openBufferedReader alwaysFailing (fun _ => 7) 5 3 ⟨sampleFile, 0, []⟩).2.1

/-- The descriptor state that goes with `starvedReader`. -/
def starvedReaderOS : ReadOS :=
  (ksfu_openBufferedReader alwaysFailing (fun _ => 7) 5 3 ⟨sampleFile, 0, []⟩).2.2

/-! ### Mach-O images and the dynamic-linker queries (`KSDynamicLinker.c`) -/

/-- A C string: the bytes before the terminating NUL. -/
abbrev CStr := { l : List Byte // ∀ b ∈ l, b ≠ 0 }

/-- The constant `UINT_MAX`, the not-found value of `imageIndexContainingAddress`. -/
def UINT_MAX : Nat := 4294967295

/-- The constant `UINT32_MAX`, the not-found value of `ksdl_imageNamed`. -/
def UINT32_MAX : Nat := 4294967295

/-- The constant `ULONG_MAX` on LP64. -/
def ULONG_MAX : Nat := 18446744073709551615

/-- The number of values of a `uintptr_t` (LP64). -/
def PTR_MOD : Nat := 18446744073709551616

/-- The number of values of a `uint32_t`. -/
def U32_MOD : Nat := 4294967296

/-- The difference `a - b` of two `uintptr_t` values. -/
def subPtr (a b : Nat) : Nat := (a % PTR_MOD + (PTR_MOD - b % PTR_MOD)) % PTR_MOD

/-- The sum `a + b` of two `uintptr_t` values. -/
def addPtr (a b : Nat) : Nat := (a + b) % PTR_MOD

/-- Header magic numbers, from `<mach-o/loader.h>`. -/
def MH_MAGIC : Nat := 0xfeedface

/-- Byte-swapped 32-bit magic, from `<mach-o/loader.h>`. -/
def MH_CIGAM : Nat := 0xcefaedfe

/-- The 64-bit magic, from `<mach-o/loader.h>`. -/
def MH_MAGIC_64 : Nat := 0xfeedfacf

/-- Byte-swapped 64-bit magic, from `<mach-o/loader.h>`. -/
def MH_CIGAM_64 : Nat := 0xcffaedfe

/-- The mask of the debug-symbol bits of `n_type`, from `<mach-o/nlist.h>`. -/
def N_STAB : Nat := 0xe0

/-- The segment name `SEG_LINKEDIT`. -/
def SEG_LINKEDIT : CStr := ⟨bytesOf "__LINKEDIT", by decide⟩

/-- A load command, reduced to the fields the linker queries read.  The commands of an
image are kept as a list, in the order in which the walk `cmdPtr += loadCmd->cmdsize`
meets them. -/
inductive LoadCommand
  /-- Command `LC_SEGMENT`: a `segment_command`, its address fields 32 bits wide. -/
  | segment (segname : CStr) (vmaddr vmsize fileoff : Nat)
  /-- Command `LC_SEGMENT_64`: a `segment_command_64`. -/
  | segment64 (segname : CStr) (vmaddr vmsize fileoff : Nat)
  /-- Command `LC_SYMTAB`: a `symtab_command`. -/
  | symtab (symoff nsyms stroff : Nat)
  /-- Command `LC_UUID`: a `uuid_command`. -/
  | uuid (uuid : List Byte)
  /-- Command `LC_ID_DYLIB`: a `dylib_command`. -/
  | idDylib (current_version : Nat)
  /-- Any other command. -/
  | other (cmd : Nat)
  deriving DecidableEq

/-- A `mach_header` (or `mach_header_64`) in memory together with the `ncmds` load commands
that follow it; `address` is where the header lies. -/
structure MachHeader where
  address : Nat
  magic : Nat
  cputype : Int
  cpusubtype : Int
  cmds : List LoadCommand
  deriving DecidableEq

/-- An `nlist_t` symbol-table entry. -/
structure Nlist where
  n_strx : Nat
  n_type : Nat
  n_desc : Nat
  n_value : Nat
  deriving DecidableEq

/-- The binary image cache (`ksbic_imageCount`, `ksbic_imageHeader`,
`ksbic_imageVMAddrSlide`, `ksbic_imageName`), taken as given: `KSBinaryImageCache` is not
among the sources.  The count is a `uint32_t`. -/
structure ImageCache where
  imageCount : Nat
  imageHeader : Nat → Option MachHeader
  imageVMAddrSlide : Nat → Nat
  imageName : Nat → Option CStr
  count_lt : imageCount < 4294967296

/-- The memory of the process as the symbol lookup reads it. -/
structure ProcessMemory where
  /-- The entry `table[i]` of the `nlist_t` array at address `table`. -/
  nlist : Nat → Nat → Nlist
  /-- The byte at an address. -/
  byte : Nat → Byte

/-- Embedding of `firstCmdAfterHeader`: the commands found right after the header, `none`
standing for the result 0 of a header whose magic is not one of the four known. -/
def firstCmdAfterHeader (header : MachHeader) : Option (List LoadCommand) :=
  if header.magic = MH_MAGIC ∨ header.magic = MH_CIGAM then some header.cmds
  else if header.magic = MH_MAGIC_64 ∨ header.magic = MH_CIGAM_64 then some header.cmds
  else none

/-- The test `addressWSlide >= segCmd->vmaddr && addressWSlide < segCmd->vmaddr + segCmd->vmsize`
of `imageIndexContainingAddress` on one command; the sum is taken in the width of the
fields. -/
def segmentContains (addressWSlide : Nat) : LoadCommand → Bool
  | .segment _ vmaddr vmsize _ =>
    decide (addressWSlide ≥ vmaddr ∧ addressWSlide < (vmaddr + vmsize) % U32_MOD)
  | .segment64 _ vmaddr vmsize _ =>
    decide (addressWSlide ≥ vmaddr ∧ addressWSlide < (vmaddr + vmsize) % PTR_MOD)
  | _ => false

/-- The loop over the images of `imageIndexContainingAddress`, from index `iImg` with
`remaining` images to go. -/
def imageIndexLoop (cache : ImageCache) (address : Nat) : Nat → Nat → Nat
  | 0, _ => UINT_MAX
  | remaining + 1, iImg =>
    match cache.imageHeader iImg with
    | none => imageIndexLoop cache address remaining (iImg + 1)
    | some header =>
      let addressWSlide := subPtr address (cache.imageVMAddrSlide iImg)
      match firstCmdAfterHeader header with
      | none => imageIndexLoop cache address remaining (iImg + 1)
      | some cmds =>
        if cmds.any (segmentContains addressWSlide) then iImg
        else imageIndexLoop cache address remaining (iImg + 1)

/-- Embedding of `imageIndexContainingAddress`. -/
def imageIndexContainingAddress (cache : ImageCache) (address : Nat) : Nat :=
  imageIndexLoop cache address cache.imageCount 0

/-- The walk of `segmentBaseOfImageIndex` over the commands. -/
def segmentBaseLoop : List LoadCommand → Nat
  | [] => 0
  | .segment segname vmaddr _ fileoff :: rest =>
    if segname = SEG_LINKEDIT then (vmaddr % U32_MOD + (U32_MOD - fileoff % U32_MOD)) % U32_MOD
    else segmentBaseLoop rest
  | .segment64 segname vmaddr _ fileoff :: rest =>
    if segname = SEG_LINKEDIT then subPtr vmaddr fileoff
    else segmentBaseLoop rest
  | _ :: rest => segmentBaseLoop rest

/-- Embedding of `segmentBaseOfImageIndex`. -/
def segmentBaseOfImageIndex (cache : ImageCache) (idx : Nat) : Nat :=
  match cache.imageHeader idx with
  | none => 0
  | some header =>
    match firstCmdAfterHeader header with
    | none => 0
    | some cmds => segmentBaseLoop cmds

/-- The C struct `Dl_info`.  `dli_sname` and `dli_saddr` are addresses, 0 being `NULL`. -/
structure Dl_info where
  dli_fname : Option CStr
  dli_fbase : Option MachHeader
  dli_sname : Nat
  dli_saddr : Nat

/-- The loop over the symbols of one table in `ksdl_dladdr`, from index `iSym` with
`remaining` entries to go.  The state is `bestMatch` (the index of the entry pointed to,
`none` for `NULL`) and `bestDistance`. -/
def symbolScan (mem : ProcessMemory) (symbolTable addressWithSlide : Nat) :
    Nat → Nat → Option Nat × Nat → Option Nat × Nat
  | 0, _, st => st
  | remaining + 1, iSym, st =>
    let sym := mem.nlist symbolTable iSym
    if sym.n_type &&& N_STAB ≠ 0 then
      symbolScan mem symbolTable addressWithSlide remaining (iSym + 1) st
    else if sym.n_value ≠ 0 then
      let symbolBase := sym.n_value
      let currentDistance := subPtr addressWithSlide symbolBase
      if addressWithSlide ≥ symbolBase ∧ currentDistance ≤ st.2 then
        symbolScan mem symbolTable addressWithSlide remaining (iSym + 1)
          (some iSym, currentDistance)
      else
        symbolScan mem symbolTable addressWithSlide remaining (iSym + 1) st
    else
      symbolScan mem symbolTable addressWithSlide remaining (iSym + 1) st

/-- What `ksdl_dladdr` stores for the selected entry `bestMatch` of a table whose strings
start at `stringTable`. -/
def exposeSymbol (mem : ProcessMemory) (stringTable imageVMAddrSlide : Nat) (bestMatch : Nlist)
    (info : Dl_info) : Dl_info :=
  let info1 := { info with dli_saddr := addPtr bestMatch.n_value imageVMAddrSlide }
  if bestMatch.n_desc = 16 then
    { info1 with dli_sname := 0 }
  else
    let sname := addPtr stringTable bestMatch.n_strx
    if mem.byte sname = toChar 95 then
      { info1 with dli_sname := sname + 1 }
    else
      { info1 with dli_sname := sname }

/-- The loop over the load commands of `ksdl_dladdr`; the state `st` is `bestMatch` and
`bestDistance`, carried from one symbol table to the next. -/
def dladdrLoop (mem : ProcessMemory) (segmentBase imageVMAddrSlide addressWithSlide : Nat) :
    List LoadCommand → Option Nat × Nat → Dl_info → Dl_info
  | [], _, info => info
  | .symtab symoff nsyms stroff :: rest, st, info =>
    let symbolTable := addPtr segmentBase symoff
    let stringTable := addPtr segmentBase stroff
    let st1 := symbolScan mem symbolTable addressWithSlide nsyms 0 st
    match st1.1 with
    | some iBest => exposeSymbol mem stringTable imageVMAddrSlide (mem.nlist symbolTable iBest) info
    | none => dladdrLoop mem segmentBase imageVMAddrSlide addressWithSlide rest st1 info
  | _ :: rest, st, info =>
    dladdrLoop mem segmentBase imageVMAddrSlide addressWithSlide rest st info

/-- Embedding of `ksdl_dladdr(address, info)`: the value returned and the contents of
`*info`. -/
def ksdl_dladdr (cache : ImageCache) (mem : ProcessMemory) (address : Nat) : Bool × Dl_info :=
  let info0 : Dl_info := { dli_fname := none, dli_fbase := none, dli_sname := 0, dli_saddr := 0 }
  let idx := imageIndexContainingAddress cache address
  if idx = UINT_MAX then
    (false, info0)
  else
    let header := cache.imageHeader idx
    let imageVMAddrSlide := cache.imageVMAddrSlide idx
    let addressWithSlide := subPtr address imageVMAddrSlide
    let segmentBase := addPtr (segmentBaseOfImageIndex cache idx) imageVMAddrSlide
    if segmentBase = 0 then
      (false, info0)
    else
      let info1 := { info0 with dli_fname := cache.imageName idx, dli_fbase := header }
      match header.bind firstCmdAfterHeader with
      | none => (false, info1)
      | some cmds =>
        (true, dladdrLoop mem segmentBase imageVMAddrSlide addressWithSlide cmds
          (none, ULONG_MAX) info1)

/-- The comparison `strcmp(a, b)` of two C strings, as `unsigned char` values, the end of
a string counting as its NUL. -/
def strcmp : List Byte → List Byte → Int
  | [], [] => 0
  | [], b :: _ => 0 - (b.val : Int)
  | a :: _, [] => (a.val : Int)
  | a :: as, b :: bs => if a = b then strcmp as bs else (a.val : Int) - (b.val : Int)

/-- Whether the bytes of `needle` are the first bytes of `hay`. -/
def startsWith : List Byte → List Byte → Bool
  | _, [] => true
  | [], _ :: _ => false
  | h :: hs, n :: ns => h = n && startsWith hs ns

/-- The search `strstr(hay, needle)`: the offset of the first occurrence, `none` for
`NULL`. -/
def strstr : List Byte → List Byte → Option Nat
  | [], needle => if startsWith [] needle then some 0 else none
  | h :: hs, needle =>
    if startsWith (h :: hs) needle then some 0
    else (strstr hs needle).map (· + 1)

/-- The loop of `ksdl_imageNamed`, from index `iImg` with `remaining` images to go. -/
def imageNamedLoop (cache : ImageCache) (imageName : CStr) (exactMatch : Bool) :
    Nat → Nat → Nat
  | 0, _ => UINT32_MAX
  | remaining + 1, iImg =>
    match cache.imageName iImg with
    | none => imageNamedLoop cache imageName exactMatch remaining (iImg + 1)
    | some name =>
      if exactMatch then
        if strcmp name.val imageName.val = 0 then iImg
        else imageNamedLoop cache imageName exactMatch remaining (iImg + 1)
      else
        if (strstr name.val imageName.val).isSome then iImg
        else imageNamedLoop cache imageName exactMatch remaining (iImg + 1)

/-- Embedding of `ksdl_imageNamed(imageName, exactMatch)`; `none` is a `NULL` name. -/
def ksdl_imageNamed (cache : ImageCache) (imageName : Option CStr) (exactMatch : Bool) : Nat :=
  match imageName with
  | none => UINT32_MAX
  | some name => imageNamedLoop cache name exactMatch cache.imageCount 0

/-- The magic of a header is one of the four known values. -/
def ValidMagic (header : MachHeader) : Prop :=
  header.magic = MH_MAGIC ∨ header.magic = MH_CIGAM ∨
    header.magic = MH_MAGIC_64 ∨ header.magic = MH_CIGAM_64

/-- A command is an `LC_SEGMENT` or `LC_SEGMENT_64` whose range holds the unslid address
`a`: `vmaddr <= a < vmaddr + vmsize`, the sum taken in the width of the fields. -/
def SegmentHolds (a : Nat) (cmd : LoadCommand) : Prop :=
  (∃ segname vmaddr vmsize fileoff, cmd = .segment segname vmaddr vmsize fileoff ∧
    vmaddr ≤ a ∧ a < (vmaddr + vmsize) % U32_MOD) ∨
  (∃ segname vmaddr vmsize fileoff, cmd = .segment64 segname vmaddr vmsize fileoff ∧
    vmaddr ≤ a ∧ a < (vmaddr + vmsize) % PTR_MOD)

/-- Image `i` has a non-NULL header with a valid magic and some segment command whose
range holds `address - slide_i`. -/
def ImageContains (cache : ImageCache) (address : Nat) (i : Nat) : Prop :=
  ∃ header, cache.imageHeader i = some header ∧ ValidMagic header ∧
    ∃ cmd ∈ header.cmds, SegmentHolds (subPtr address (cache.imageVMAddrSlide i)) cmd

/-- A symbol can be reported for the unslid address `a`: it is not a debug (`N_STAB`)
entry, its value is not 0, and its value is at most `a`. -/
def Eligible (a : Nat) (sym : Nlist) : Prop :=
  sym.n_type &&& N_STAB = 0 ∧ sym.n_value ≠ 0 ∧ sym.n_value ≤ a

instance (a : Nat) (sym : Nlist) : Decidable (Eligible a sym) := by
  unfold Eligible
  exact inferInstance

/-- Whether a load command is an `LC_SYMTAB`. -/
def LoadCommand.isSymtab : LoadCommand → Bool
  | .symtab _ _ _ => true
  | _ => false

/-- The C string at an address, read up to its NUL or for at most `n` bytes. -/
def cstrAt (mem : ProcessMemory) : Nat → Nat → List Byte
  | 0, _ => []
  | n + 1, a => if mem.byte a = 0 then [] else mem.byte a :: cstrAt mem n (a + 1)

/-- The situation of a symbol lookup in `ksdl_dladdr`: the address resolves to the image
`idx`, whose header is `header` and whose segment base (the `__LINKEDIT` base plus the
slide) is not 0, and the load commands of the image hold exactly one symbol table,
`symtab symoff nsyms stroff`. -/
structure SymbolLookup (cache : ImageCache) (address idx : Nat) (header : MachHeader)
    (pre : List LoadCommand) (symoff nsyms stroff : Nat) (post : List LoadCommand) : Prop where
  resolved : imageIndexContainingAddress cache address = idx
  found : idx ≠ UINT_MAX
  header_eq : cache.imageHeader idx = some header
  base_ne : addPtr (segmentBaseOfImageIndex cache idx) (cache.imageVMAddrSlide idx) ≠ 0
  cmds_eq : header.cmds = pre ++ LoadCommand.symtab symoff nsyms stroff :: post
  pre_none : ∀ c ∈ pre, c.isSymtab = false
  post_none : ∀ c ∈ post, c.isSymtab = false

/-- The address looked up in image `idx`, slide removed (`addressWithSlide`). -/
def lookupAddress (cache : ImageCache) (address idx : Nat) : Nat :=
  subPtr address (cache.imageVMAddrSlide idx)

/-- The segment base `ksdl_dladdr` uses for image `idx` (`segmentBase`). -/
def lookupBase (cache : ImageCache) (idx : Nat) : Nat :=
  addPtr (segmentBaseOfImageIndex cache idx) (cache.imageVMAddrSlide idx)

/-- Entry `i` of the symbol table at offset `symoff` of image `idx`. -/
def symbolAt (cache : ImageCache) (mem : ProcessMemory) (idx symoff i : Nat) : Nlist :=
  mem.nlist (addPtr (lookupBase cache idx) symoff) i

/-- The `Dl_info` of `ksdl_dladdr` once the image is known and before any symbol is. -/
def imageInfo (cache : ImageCache) (idx : Nat) : Dl_info :=
  { dli_fname := cache.imageName idx, dli_fbase := cache.imageHeader idx,
    dli_sname := 0, dli_saddr := 0 }

/-- The contents of the string table of `demoCache`: `""`, `"__x"`, `"_a"`, `"b"`. -/
def demoStrings : List Byte := [0, 95, 95, 120, 0, 95, 97, 0, 98, 0]

/-- The symbol table of `demoCache`: three ordinary symbols (the last two at the same
address), a debug entry, an external symbol with value 0, and a symbol of a stripped
image. -/
def demoSymbols : List Nlist :=
  [ { n_strx := 1, n_type := 15, n_desc := 0, n_value := 256 },
    { n_strx := 5, n_type := 15, n_desc := 0, n_value := 512 },
    { n_strx := 8, n_type := 15, n_desc := 0, n_value := 512 },
    { n_strx := 1, n_type := 36, n_desc := 0, n_value := 592 },
    { n_strx := 1, n_type := 1, n_desc := 0, n_value := 0 },
    { n_strx := 1, n_type := 15, n_desc := 16, n_value := 768 } ]

/-- The load commands of the image of `demoCache`. -/
def demoCommands : List LoadCommand :=
  [ .segment64 ⟨bytesOf "__TEXT", by decide⟩ 0 4096 0,
    .segment64 SEG_LINKEDIT 16384 4096 8192,
    .symtab 256 6 512 ]

/-- The header of the image of `demoCache`. -/
def demoHeader : MachHeader :=
  { address := 65536, magic := MH_MAGIC_64, cputype := 0, cpusubtype := 0, cmds := demoCommands }

/-- A cache with one image, loaded with slide 65536; its segment base is 73728. -/
def demoCache : ImageCache :=
  { imageCount := 1
    imageHeader := fun i => if i = 0 then some demoHeader else none
    imageVMAddrSlide := fun _ => 65536
    imageName := fun i => if i = 0 then some ⟨bytesOf "/usr/lib/demo", by decide⟩ else none
    count_lt := by decide }

/-- The memory that goes with `demoCache`: the symbol table at 73984, the string table at
74240. -/
def demoMemory : ProcessMemory :=
  { nlist := fun table i =>
      if table = 73984 then demoSymbols.getD i { n_strx := 0, n_type := 0, n_desc := 0, n_value := 0 }
      else { n_strx := 0, n_type := 0, n_desc := 0, n_value := 0 }
    byte := fun a => if a < 74240 then 0 else demoStrings.getD (a - 74240) 0 }

/-- The image of `demoCache` loaded four bytes below its link address: the slide is `-4`
as a `uintptr_t`. -/
def lowCache : ImageCache :=
  { imageCount := 1
    imageHeader := fun i => if i = 0 then some demoHeader else none
    imageVMAddrSlide := fun _ => 18446744073709551612
    imageName := fun _ => none
    count_lt := by decide }

/-- The memory that goes with `lowCache`: one symbol, of value 2. -/
def lowMemory : ProcessMemory :=
  { nlist := fun _ _ => { n_strx := 0, n_type := 15, n_desc := 16, n_value := 2 }
    byte := fun _ => 0 }

/-- A cache whose image has no `__LINKEDIT` segment and no slide. -/
def bareCache : ImageCache :=
  { imageCount := 1
    imageHeader := fun i =>
      if i = 0 then
        some { address := 4096, magic := MH_MAGIC_64, cputype := 0, cpusubtype := 0,
               cmds := [.segment64 ⟨bytesOf "__TEXT", by decide⟩ 0 4096 0, .symtab 256 6 512] }
      else none
    imageVMAddrSlide := fun _ => 0
    imageName := fun _ => none
    count_lt := by decide }

/-- Image `i` has a non-NULL path that equals `name` (exact match) or has `name` as a
substring. -/
def NameMatches (cache : ImageCache) (name : CStr) (exactMatch : Bool) (i : Nat) : Prop :=
  ∃ p, cache.imageName i = some p ∧
    (if exactMatch then p = name else ∃ pre post, p.val = pre ++ name.val ++ post)

/-- A cache of three images, the second without a path. -/
def namedCache : ImageCache :=
  { imageCount := 3
    imageHeader := fun _ => none
    imageVMAddrSlide := fun _ => 0
    imageName := fun i =>
      if i = 0 then some ⟨bytesOf "/usr/lib/libfoo.dylib", by decide⟩
      else if i = 2 then some ⟨bytesOf "libfoo", by decide⟩
      else none
    count_lt := by decide }

/-! ### Describing an image (`ksdl_getBinaryImageForHeader`) -/

/-- The segment name `SEG_TEXT`. -/
def SEG_TEXT : CStr := ⟨bytesOf "__TEXT", by decide⟩

/-- The constant `KSDL_MaxCrashInfoStringLength`. -/
def KSDL_MaxCrashInfoStringLength : Int := 4096

/-- The C struct `KSBinaryImage`.  Pointers to strings are addresses, 0 being `NULL`; the
`uuid` pointer is the payload it points to, `none` being `NULL`. -/
structure KSBinaryImage where
  address : Nat
  vmAddress : Nat
  size : Nat
  name : Option CStr
  uuid : Option (List Byte)
  cpuType : Int
  cpuSubType : Int
  majorVersion : Nat
  minorVersion : Nat
  revisionVersion : Nat
  crashInfoMessage : Nat
  crashInfoMessage2 : Nat
  crashInfoBacktrace : Nat
  crashInfoSignature : Nat

/-- The C struct `crash_info_t`, reduced to the fields `getCrashInfo` reads; the strings
are addresses, 0 being `NULL`. -/
structure crash_info_t where
  version : Nat
  message : Nat
  signature : Nat
  backtrace : Nat
  message2 : Nat

/-- The value of `offsetof(crash_info_t, reserved)` under `#pragma pack(8)` on LP64: the
four-byte version, four bytes of padding and four pointers. -/
def minimalSize : Nat := 40

/-- What `getCrashInfo` consults outside the header, taken as given: the library call
`getsectiondata`, the helpers of `KSMemory` (not among the sources) and the memory of the
process. -/
structure CrashInfoMemory where
  /-- The result of `getsectiondata(header, SEG_DATA, "__crash_info", &size)`: the address
  of the section and its size, `none` for `NULL`. -/
  getsectiondata : MachHeader → Option (Nat × Nat)
  /-- The record stored at an address. -/
  crashInfoAt : Nat → crash_info_t
  /-- The helper `ksmem_isMemoryReadable(memory, byteCount)`. -/
  isMemoryReadable : Nat → Nat → Bool
  /-- The helper `ksmem_maxReadableBytes(memory, tryByteCount)`. -/
  maxReadableBytes : Nat → Int → Int
  /-- The byte at an address. -/
  byte : Nat → Byte

/-- The loop `for (int i = 0; i < maxReadableBytes; ++i)` of `isValidCrashInfoMessage`, from
index `i` with `remaining` iterations to go. -/
def terminatorScan (byte : Nat → Byte) (str : Nat) : Nat → Nat → Bool
  | 0, _ => false
  | remaining + 1, i =>
    if byte (str + i) = 0 then true else terminatorScan byte str remaining (i + 1)

/-- Embedding of `isValidCrashInfoMessage(str)`. -/
def isValidCrashInfoMessage (mem : CrashInfoMemory) (str : Nat) : Bool :=
  if str = 0 then
    false
  else
    let maxReadableBytes := mem.maxReadableBytes str (KSDL_MaxCrashInfoStringLength + 1)
    if maxReadableBytes = 0 then
      false
    else
      terminatorScan mem.byte str maxReadableBytes.toNat 0

/-- The four guarded stores at the end of `getCrashInfo`, for an accepted record. -/
def storeCrashInfo (mem : CrashInfoMemory) (record : crash_info_t) (buffer : KSBinaryImage) :
    KSBinaryImage :=
  let buffer1 :=
    if isValidCrashInfoMessage mem record.message then
      { buffer with crashInfoMessage := record.message }
    else buffer
  let buffer2 :=
    if isValidCrashInfoMessage mem record.message2 then
      { buffer1 with crashInfoMessage2 := record.message2 }
    else buffer1
  let buffer3 :=
    if isValidCrashInfoMessage mem record.backtrace then
      { buffer2 with crashInfoBacktrace := record.backtrace }
    else buffer2
  if isValidCrashInfoMessage mem record.signature then
    { buffer3 with crashInfoSignature := record.signature }
  else buffer3

/-- Embedding of `getCrashInfo(header, buffer)`: the descriptor after the call. -/
def getCrashInfo (mem : CrashInfoMemory) (header : MachHeader) (buffer : KSBinaryImage) :
    KSBinaryImage :=
  match mem.getsectiondata header with
  | none => buffer
  | some (crashInfo, size) =>
    if size < minimalSize then
      buffer
    else if ¬ mem.isMemoryReadable crashInfo minimalSize then
      buffer
    else if (mem.crashInfoAt crashInfo).version ≠ 4 ∧ (mem.crashInfoAt crashInfo).version ≠ 5 then
      buffer
    else if (mem.crashInfoAt crashInfo).message = 0 ∧ (mem.crashInfoAt crashInfo).message2 = 0 then
      buffer
    else
      storeCrashInfo mem (mem.crashInfoAt crashInfo) buffer

/-- The locals `imageSize`, `imageVmAddr`, `version`, `uuid` of
`ksdl_getBinaryImageForHeader`. -/
structure ImageScan where
  imageSize : Nat
  imageVmAddr : Nat
  version : Nat
  uuid : Option (List Byte)

/-- The body of the `switch (loadCmd->cmd)` of `ksdl_getBinaryImageForHeader`. -/
def binaryImageStep (st : ImageScan) : LoadCommand → ImageScan
  | .segment segname vmaddr vmsize _ =>
    if segname = SEG_TEXT then { st with imageSize := vmsize, imageVmAddr := vmaddr } else st
  | .segment64 segname vmaddr vmsize _ =>
    if segname = SEG_TEXT then { st with imageSize := vmsize, imageVmAddr := vmaddr } else st
  | .uuid uuid => { st with uuid := some uuid }
  | .idDylib current_version => { st with version := current_version }
  | _ => st

/-- The loop over the load commands of `ksdl_getBinaryImageForHeader`. -/
def binaryImageLoop : List LoadCommand → ImageScan → ImageScan
  | [], st => st
  | cmd :: rest, st => binaryImageLoop rest (binaryImageStep st cmd)

/-- Embedding of `ksdl_getBinaryImageForHeader(header_ptr, image_name, buffer)`: the value
returned and the descriptor after the call. -/
def ksdl_getBinaryImageForHeader (mem : CrashInfoMemory) (header : MachHeader)
    (image_name : Option CStr) (buffer : KSBinaryImage) : Bool × KSBinaryImage :=
  match firstCmdAfterHeader header with
  | none => (false, buffer)
  | some cmds =>
    let st := binaryImageLoop cmds
      { imageSize := 0, imageVmAddr := 0, version := 0, uuid := none }
    let buffer1 : KSBinaryImage :=
      { buffer with
        address := header.address
        vmAddress := st.imageVmAddr
        size := st.imageSize
        name := image_name
        uuid := st.uuid
        cpuType := header.cputype
        cpuSubType := header.cpusubtype
        majorVersion := st.version >>> 16
        minorVersion := (st.version >>> 8) &&& 0xff
        revisionVersion := st.version &&& 0xff }
    (true, getCrashInfo mem header buffer1)

/-- Embedding of `ksdl_getBinaryImage(index, buffer)`. -/
def ksdl_getBinaryImage (cache : ImageCache) (mem : CrashInfoMemory) (index : Nat)
    (buffer : KSBinaryImage) : Bool × KSBinaryImage :=
  match cache.imageHeader index with
  | none => (false, buffer)
  | some header => ksdl_getBinaryImageForHeader mem header (cache.imageName index) buffer

/-- The `(vmaddr, vmsize)` of the segment commands named `__TEXT`, in command order. -/
def textSegments (cmds : List LoadCommand) : List (Nat × Nat) :=
  cmds.filterMap fun
    | .segment segname vmaddr vmsize _ => if segname = SEG_TEXT then some (vmaddr, vmsize) else none
    | .segment64 segname vmaddr vmsize _ =>
      if segname = SEG_TEXT then some (vmaddr, vmsize) else none
    | _ => none

/-- The payloads of the `LC_UUID` commands, in command order. -/
def uuidPayloads (cmds : List LoadCommand) : List (List Byte) :=
  cmds.filterMap fun
    | .uuid uuid => some uuid
    | _ => none

/-- The `current_version` of the `LC_ID_DYLIB` commands, in command order. -/
def dylibVersions (cmds : List LoadCommand) : List Nat :=
  cmds.filterMap fun
    | .idDylib current_version => some current_version
    | _ => none

/-- An empty descriptor. -/
def blankImage : KSBinaryImage :=
  { address := 0, vmAddress := 0, size := 0, name := none, uuid := none, cpuType := 0,
    cpuSubType := 0, majorVersion := 0, minorVersion := 0, revisionVersion := 0,
    crashInfoMessage := 0, crashInfoMessage2 := 0, crashInfoBacktrace := 0,
    crashInfoSignature := 0 }

/-- A descriptor whose crash-info fields already hold values. -/
def usedImage : KSBinaryImage :=
  { blankImage with crashInfoMessage := 11, crashInfoMessage2 := 12, crashInfoBacktrace := 13,
                    crashInfoSignature := 14 }

/-- A process whose images have a 64-byte, readable `__crash_info` section at address 4096
holding a record of the given version with its four strings at 8192, 8200, 8208 and 8216.
Memory reads `"ok"` at 8192, is NUL-free from 8200 on, and 16 bytes are readable at any
address. -/
def crashMemory (version : Nat) : CrashInfoMemory :=
  { getsectiondata := fun _ => some (4096, 64)
    crashInfoAt := fun _ =>
      { version := version, message := 8192, signature := 8216, backtrace := 8208,
        message2 := 8200 }
    isMemoryReadable := fun _ _ => true
    maxReadableBytes := fun _ n => min n 16
    byte := fun a => if a = 8192 then 111 else if a = 8193 then 107 else if a = 8194 then 0 else 65 }

/-- A header with two `__TEXT` segments, two `LC_UUID` commands and a library version
`1.2.3`. -/
def describedHeader : MachHeader :=
  { address := 65536, magic := MH_MAGIC_64, cputype := 7, cpusubtype := 3
    cmds := [.segment64 SEG_TEXT 4096 100 0, .uuid [1, 2], .idDylib 66051,
      .segment64 SEG_LINKEDIT 16384 4096 8192, .segment64 SEG_TEXT 8192 200 0, .uuid [3, 4]] }

/-! ### The signal monitor (`KSCrashMonitor_Signal.c`) and the user monitor
(`KSCrashMonitor_User.c`)

The monitors act on the operating system and on the rest of the library through calls.
Every such call is appended to a log, oldest first; what a call answers is supplied by
`MonitorEnv`. -/

/-- The signal number `SIGTERM`, from `<signal.h>`. -/
def SIGTERM : Int := 15

/-- Flag `SA_ONSTACK`, from `<signal.h>` (Darwin). -/
def SA_ONSTACK : Nat := 0x0001

/-- Flag `SA_SIGINFO`, from `<signal.h>` (Darwin). -/
def SA_SIGINFO : Nat := 0x0040

/-- Flag `SA_64REGSET`, from `<signal.h>` (Darwin). -/
def SA_64REGSET : Nat := 0x0200

/-- The constant `SIGSTKSZ`, from `<signal.h>` (Darwin). -/
def SIGSTKSZ : Nat := 131072

/-- The routine a `struct sigaction` names: the monitor's `handleSignal`, or any other
routine (`SIG_DFL` and `SIG_IGN` included), known by its address. -/
inductive SigHandler
  | handleSignal
  | other (address : Nat)
  deriving DecidableEq

/-- A `struct sigaction`; the mask of the monitor's action is empty and is not modelled. -/
structure SigAction where
  sa_sigaction : SigHandler
  sa_flags : Nat
  deriving DecidableEq

/-- A `stack_t`, reduced to `ss_sp` and `ss_size`. -/
structure stack_t where
  ss_sp : Nat
  ss_size : Nat
  deriving DecidableEq

/-- A `siginfo_t`, reduced to the fields `handleSignal` reads. -/
structure siginfo_t where
  si_signo : Int
  si_code : Int
  si_addr : Nat
  deriving DecidableEq

/-- The objects which the monitors pass by address. -/
inductive ObjRef
  /-- The static `g_stackCursor` of the signal monitor. -/
  | g_stackCursor
  /-- The local `machineContext` of the running handler or report. -/
  | machineContext
  /-- The local `stackCursor` of `kscm_reportUserException`. -/
  | stackCursor
  deriving DecidableEq

/-- The static `api` objects returned by `kscm_signal_getAPI` and `kscm_user_getAPI`. -/
inductive KSCrashMonitorAPI
  | signal
  | user
  deriving DecidableEq

/-- The function `kscm_signal_getAPI` (with `KSCRASH_HAS_SIGNAL`). -/
def kscm_signal_getAPI : KSCrashMonitorAPI := KSCrashMonitorAPI.signal

/-- The function `kscm_user_getAPI`. -/
def kscm_user_getAPI : KSCrashMonitorAPI := KSCrashMonitorAPI.user

/-- A `KSCrash_MonitorContext`, reduced to the fields that the two monitors assign, and
`monitorId`.  A `const char *` is `none` when `NULL`, else the string it points to. -/
structure KSCrash_MonitorContext where
  eventID : Option (List Byte)
  monitorId : Option CStr
  offendingMachineContext : Option ObjRef
  registersAreValid : Bool
  faultAddress : Nat
  crashReason : Option CStr
  currentSnapshotUserReported : Bool
  signal_userContext : Nat
  signal_signum : Int
  signal_sigcode : Int
  userException_name : Option CStr
  userException_language : Option CStr
  userException_lineOfCode : Option CStr
  userException_customStackTrace : Option CStr
  stackCursor : Option ObjRef
  deriving DecidableEq

/-- The context after `memset(context, 0, sizeof(*context))`. -/
def KSCrash_MonitorContext.zero : KSCrash_MonitorContext :=
  { eventID := none, monitorId := none, offendingMachineContext := none,
    registersAreValid := false, faultAddress := 0, crashReason := none,
    currentSnapshotUserReported := false, signal_userContext := 0, signal_signum := 0,
    signal_sigcode := 0, userException_name := none, userException_language := none,
    userException_lineOfCode := none, userException_customStackTrace := none,
    stackCursor := none }

/-- A call made by a monitor, with its arguments. -/
inductive Call
  | sigaltstack (ss : stack_t)
  | sigaction (sigNum : Int) (act : Option SigAction)
  /-- The call `sigaction(sigNum, act, NULL)` with `act` pointing into unmapped memory: the
  call reads its action there and does not return, the process is killed. -/
  | sigactionFault (sigNum : Int)
  | ksid_generate
  | ksmc_suspendEnvironment
  | kscm_notifyFatalExceptionCaptured (isAsyncSafeEnvironment : Bool)
  | ksmc_getContextForSignal (signalUserContext : Nat) (destinationContext : ObjRef)
  | ksmc_getContextForThread (thread : Nat) (destinationContext : ObjRef)
      (isCrashedContext : Bool)
  | kssc_initWithMachineContext (cursor : ObjRef) (maxStackDepth : Nat)
      (context : ObjRef)
  | kssc_initSelfThread (cursor : ObjRef) (skipEntries : Nat)
  | kscm_handleException (context : KSCrash_MonitorContext)
  | ksmc_resumeEnvironment (threads numThreads : Nat)
  | ksmemory_notifyUnhandledFatalSignal
  | raise (sigNum : Int)
  | abort
  deriving DecidableEq

/-- What the operating system and the rest of the library supply to the monitors.  An
answer that may differ from call to call is indexed by the number of calls logged before
it. -/
structure MonitorEnv where
  /-- The array of `kssignal_fatalSignals()`; its length is `kssignal_numFatalSignals()`. -/
  fatalSignals : List Int
  /-- The signals for which `sigaction` with a new action fails (`EINVAL`); POSIX makes
  this depend on the signal number alone. -/
  refused : Int → Bool
  /-- Whether `sigaltstack` fails. -/
  sigaltstackFails : Nat → Bool
  /-- The address `malloc` returns for the signal stack. -/
  mallocSignalStack : Nat
  /-- The uninitialised contents of the array `malloc` returns for
  `g_previousSignalHandlers`. -/
  freshHandlers : Nat → SigAction
  /-- The identifier written by `ksid_generate`. -/
  ksid_generate : Nat → List Byte
  /-- The values `ksmc_suspendEnvironment` leaves in `threads` and `numThreads`, both
  zero before the call. -/
  ksmc_suspendEnvironment : Nat → Nat × Nat
  /-- The helper `ksmc_fillMonitorContext`. -/
  ksmc_fillMonitorContext : KSCrash_MonitorContext → KSCrashMonitorAPI → KSCrash_MonitorContext
  /-- The constant `KSSC_MAX_STACK_DEPTH`. -/
  KSSC_MAX_STACK_DEPTH : Nat
  /-- The value of `ksthread_self()`. -/
  ksthread_self : Nat

/-- The globals of `KSCrashMonitor_Signal.c`, the signal state of the process and the
log of calls. -/
structure SignalState where
  g_isEnabled : Bool
  g_sigterm_monitoringEnabled : Bool
  g_monitorContext : KSCrash_MonitorContext
  g_signalStack : stack_t
  /-- The array is `none` while the pointer is `NULL`. -/
  g_previousSignalHandlers : Option (Nat → SigAction)
  /-- The string in the buffer `g_eventID`. -/
  g_eventID : List Byte
  /-- The handler table of the process: the action registered for each signal. -/
  handlers : Int → SigAction
  /-- The alternate signal stack of the thread. -/
  altStack : stack_t
  log : List Call

/-- The state of a process in which no function of `KSCrashMonitor_Signal.c` has run. -/
def SignalState.initial (handlers : Int → SigAction) : SignalState :=
  { g_isEnabled := false, g_sigterm_monitoringEnabled := false,
    g_monitorContext := KSCrash_MonitorContext.zero, g_signalStack := ⟨0, 0⟩,
    g_previousSignalHandlers := none, g_eventID := [], handlers := handlers,
    altStack := ⟨0, 0⟩, log := [] }

/-- The element `fatalSignals[i]`. -/
def fatalSignal (env : MonitorEnv) (i : Nat) : Int := env.fatalSignals.getD i 0

/-- The system call `sigaction(sigNum, act, oldact)` as the monitor uses it.  The action
`act` is `none` when the pointer is `NULL` or points to no memory; `oldact` is `none` for
`NULL` and `some i` for `&g_previousSignalHandlers[i]`.  A refused call changes
nothing. -/
def sigaction (env : MonitorEnv) (sigNum : Int) (act : Option SigAction) (oldact : Option Nat)
    (st : SignalState) : Int × SignalState :=
  let st1 := { st with log := st.log ++ [Call.sigaction sigNum act] }
  if env.refused sigNum then (-1, st1)
  else
    let st2 :=
      match oldact with
      | none => st1
      | some i =>
        { st1 with
          g_previousSignalHandlers :=
            st1.g_previousSignalHandlers.map
              (fun slots => Function.update slots i (st1.handlers sigNum)) }
    match act with
    | none => (0, st2)
    | some action => (0, { st2 with handlers := Function.update st2.handlers sigNum action })

/-- The system call `sigaltstack(&g_signalStack, NULL)`. -/
def sigaltstack (env : MonitorEnv) (st : SignalState) : Int × SignalState :=
  let st1 := { st with log := st.log ++ [Call.sigaltstack st.g_signalStack] }
  if env.sigaltstackFails st.log.length then (-1, st1)
  else (0, { st1 with altStack := st.g_signalStack })

/-- The predicate `shouldHandleSignal`. -/
def shouldHandleSignal (st : SignalState) (sigNum : Int) : Bool :=
  !(decide (sigNum = SIGTERM) && !st.g_sigterm_monitoringEnabled)

/-- The action `installSignalHandler` registers (Apple host, LP64). -/
def monitorAction : SigAction :=
  { sa_sigaction := SigHandler.handleSignal, sa_flags := SA_SIGINFO ||| SA_ONSTACK ||| SA_64REGSET }

/-- The loop `for (i--; i >= 0; i--)` of `installSignalHandler`, entered with the index of
the failed call: it runs on the indices below `i`, downwards. -/
def restoreBelow (env : MonitorEnv) : Nat → SignalState → SignalState
  | 0, st => st
  | i + 1, st =>
    restoreBelow env i
      (sigaction env (fatalSignal env i)
        (st.g_previousSignalHandlers.map (fun slots => slots i)) none st).2

/-- The loop `for (int i = 0; i < fatalSignalsCount; i++)` of `installSignalHandler`, with
`remaining = fatalSignalsCount - i`. -/
def installFrom (env : MonitorEnv) : Nat → Nat → SignalState → Bool × SignalState
  | 0, _, st => (true, st)
  | remaining + 1, i, st =>
    let r := sigaction env (fatalSignal env i) (some monitorAction) (some i) st
    if r.1 ≠ 0 then (false, restoreBelow env i r.2)
    else installFrom env remaining (i + 1) r.2

/-- The function `installSignalHandler` (with `KSCRASH_HAS_SIGNAL_STACK`); both calls
of `malloc` are taken to succeed. -/
def installSignalHandler (env : MonitorEnv) (st : SignalState) : Bool × SignalState :=
  let st1 :=
    if st.g_signalStack.ss_size = 0 then
      { st with g_signalStack := ⟨env.mallocSignalStack, SIGSTKSZ⟩ }
    else st
  let r := sigaltstack env st1
  if r.1 ≠ 0 then (false, r.2)
  else
    let st2 :=
      match r.2.g_previousSignalHandlers with
      | none => { r.2 with g_previousSignalHandlers := some env.freshHandlers }
      | some _ => r.2
    installFrom env env.fatalSignals.length 0 st2

/-- The loop of `uninstallSignalHandler`, with `remaining = fatalSignalsCount - i`.  The
action passed is `&g_previousSignalHandlers[i]`.  While `g_previousSignalHandlers` is
`NULL` that pointer is `NULL` for `i = 0`, which makes the call a query that changes
nothing, and for `i >= 1` it points into the unmapped first page: `sigaction` reads its
action there and the process is killed.  The first component of the result tells whether
the loop ran to its end; when it is false the state is the one at the fault. -/
def uninstallFrom (env : MonitorEnv) : Nat → Nat → SignalState → Bool × SignalState
  | 0, _, st => (true, st)
  | remaining + 1, i, st =>
    match st.g_previousSignalHandlers with
    | some slots =>
      uninstallFrom env remaining (i + 1)
        (sigaction env (fatalSignal env i) (some (slots i)) none st).2
    | none =>
      if i = 0 then
        uninstallFrom env remaining (i + 1) (sigaction env (fatalSignal env i) none none st).2
      else (false, { st with log := st.log ++ [Call.sigactionFault (fatalSignal env i)] })

/-- The function `uninstallSignalHandler`; the first component of the result tells whether
it returned. -/
def uninstallSignalHandler (env : MonitorEnv) (st : SignalState) : Bool × SignalState :=
  let r := uninstallFrom env env.fatalSignals.length 0 st
  if r.1 then (true, { r.2 with g_signalStack := ⟨0, 0⟩ }) else r

/-- The callback `setEnabled` of the signal monitor.  When `uninstallSignalHandler` does
not return, the result is the state at the fault. -/
def setEnabled (env : MonitorEnv) (isEnabled : Bool) (st : SignalState) : SignalState :=
  if isEnabled ≠ st.g_isEnabled then
    let st1 := { st with g_isEnabled := isEnabled }
    if isEnabled then
      let st2 :=
        { st1 with
          g_eventID := env.ksid_generate st1.log.length
          log := st1.log ++ [Call.ksid_generate] }
      (installSignalHandler env st2).2
    else (uninstallSignalHandler env st1).2
  else st

/-- The callback `isEnabled` of the signal monitor. -/
def isEnabled (st : SignalState) : Bool := st.g_isEnabled

/-- The function `kscm_signal_sigterm_setMonitoringEnabled` (with `KSCRASH_HAS_SIGNAL`). -/
def kscm_signal_sigterm_setMonitoringEnabled (enabled : Bool) (st : SignalState) :
    SignalState :=
  { st with g_sigterm_monitoringEnabled := enabled }

/-- The signal handler `handleSignal`.  When `uninstallSignalHandler` does not return,
nothing follows it and the result is the state at the fault. -/
def handleSignal (env : MonitorEnv) (sigNum : Int) (signalInfo : siginfo_t) (userContext : Nat)
    (st : SignalState) : SignalState :=
  let branch : Bool × SignalState :=
    if st.g_isEnabled && shouldHandleSignal st sigNum then
      let suspended := env.ksmc_suspendEnvironment st.log.length
      let crashContext : KSCrash_MonitorContext :=
        { env.ksmc_fillMonitorContext KSCrash_MonitorContext.zero kscm_signal_getAPI with
          eventID := some st.g_eventID
          offendingMachineContext := some ObjRef.machineContext
          registersAreValid := true
          faultAddress := signalInfo.si_addr
          signal_userContext := userContext
          signal_signum := signalInfo.si_signo
          signal_sigcode := signalInfo.si_code
          stackCursor := some ObjRef.g_stackCursor }
      (true,
        { st with
          g_monitorContext := crashContext
          log := st.log ++
            [Call.ksmc_suspendEnvironment,
             Call.kscm_notifyFatalExceptionCaptured false,
             Call.ksmc_getContextForSignal userContext ObjRef.machineContext,
             Call.kssc_initWithMachineContext ObjRef.g_stackCursor env.KSSC_MAX_STACK_DEPTH
               ObjRef.machineContext,
             Call.kscm_handleException crashContext,
             Call.ksmc_resumeEnvironment suspended.1 suspended.2] })
    else
      let uninstalled := uninstallSignalHandler env st
      if uninstalled.1 then
        (true,
          { uninstalled.2 with
            log := uninstalled.2.log ++ [Call.ksmemory_notifyUnhandledFatalSignal] })
      else uninstalled
  if branch.1 then { branch.2 with log := branch.2.log ++ [Call.raise sigNum] }
  else branch.2

/-- The global of `KSCrashMonitor_User.c` and the log of calls. -/
structure UserState where
  g_isEnabled : Bool
  log : List Call

/-- The callback `setEnabled` of the user monitor. -/
def userSetEnabled (isEnabled : Bool) (st : UserState) : UserState :=
  { st with g_isEnabled := isEnabled }

/-- The callback `isEnabled` of the user monitor. -/
def userIsEnabled (st : UserState) : Bool := st.g_isEnabled

/-- The function `kscm_reportUserException`. -/
def kscm_reportUserException (env : MonitorEnv)
    (name reason language lineOfCode stackTrace : Option CStr)
    (logAllThreads terminateProgram : Bool) (st : UserState) : UserState :=
  if ¬ st.g_isEnabled then st
  else
    let suspended : Nat × Nat :=
      if logAllThreads then env.ksmc_suspendEnvironment st.log.length else (0, 0)
    let st1 :=
      if logAllThreads then { st with log := st.log ++ [Call.ksmc_suspendEnvironment] } else st
    let st2 :=
      if terminateProgram then
        { st1 with log := st1.log ++ [Call.kscm_notifyFatalExceptionCaptured false] }
      else st1
    let eventID := env.ksid_generate st2.log.length
    let context : KSCrash_MonitorContext :=
      { env.ksmc_fillMonitorContext KSCrash_MonitorContext.zero kscm_user_getAPI with
        eventID := some eventID
        offendingMachineContext := some ObjRef.machineContext
        registersAreValid := false
        crashReason := reason
        userException_name := name
        userException_language := language
        userException_lineOfCode := lineOfCode
        userException_customStackTrace := stackTrace
        stackCursor := some ObjRef.stackCursor
        currentSnapshotUserReported := true }
    let st3 :=
      { st2 with
        log := st2.log ++
          [Call.ksid_generate,
           Call.ksmc_getContextForThread env.ksthread_self ObjRef.machineContext true,
           Call.kssc_initSelfThread ObjRef.stackCursor 3,
           Call.kscm_handleException context] }
    let st4 :=
      if logAllThreads then
        { st3 with log := st3.log ++ [Call.ksmc_resumeEnvironment suspended.1 suspended.2] }
      else st3
    if terminateProgram then { st4 with log := st4.log ++ [Call.abort] } else st4

/-- The action `SIG_DFL` without flags. -/
def defaultAction : SigAction := { sa_sigaction := SigHandler.other 0, sa_flags := 0 }

/-- A handler table: an application handler for signal 11, the default elsewhere. -/
def demoHandlers : Int → SigAction :=
  fun s => if s = 11 then { sa_sigaction := SigHandler.other 4096, sa_flags := 0 } else defaultAction

/-- An environment with the fatal signals 6, 10, 11, 15, all accepted by `sigaction`. -/
def demoEnv : MonitorEnv :=
  { fatalSignals := [6, 10, 11, 15],
    refused := fun _ => false,
    sigaltstackFails := fun _ => false,
    mallocSignalStack := 65536,
    freshHandlers := fun _ => { sa_sigaction := SigHandler.other 57005, sa_flags := 7 },
    ksid_generate := fun n => [Fin.ofNat n],
    ksmc_suspendEnvironment := fun _ => (12288, 3),
    ksmc_fillMonitorContext := fun context _ => context,
    KSSC_MAX_STACK_DEPTH := 500,
    ksthread_self := 771 }

/-- The environment `demoEnv` with a fatal-signal list whose second entry, signal 9, is
refused by `sigaction`. -/
def refusingEnv : MonitorEnv :=
  { demoEnv with fatalSignals := [6, 9, 11], refused := fun s => decide (s = 9) }

/-- The environment `demoEnv` in which `sigaltstack` fails. -/
def noStackEnv : MonitorEnv :=
  { demoEnv with sigaltstackFails := fun _ => true }

/-- The initial state over `demoHandlers`. -/
def demoSignalState : SignalState := SignalState.initial demoHandlers

/-- A signal delivery: `SIGSEGV` at address 64. -/
def demoSiginfo : siginfo_t := { si_signo := 11, si_code := 2, si_addr := 64 }

/-- The handler table after the first `i` calls of the install loop, all accepted, from
the table `table`. -/
def installedTable (env : MonitorEnv) (table : Int → SigAction) : Nat → Int → SigAction
  | 0 => table
  | i + 1 => Function.update (installedTable env table i) (fatalSignal env i) monitorAction

/-- The state of the install loop before its call number `i`: the table holds the first
`i` hooks and each slot below `i` holds the action its call replaced. -/
def InstallInv (env : MonitorEnv) (table : Int → SigAction) (i : Nat) (st : SignalState) :
    Prop :=
  st.handlers = installedTable env table i ∧
  (∀ j, j < i → env.refused (fatalSignal env j) = false) ∧
  ∃ slots, st.g_previousSignalHandlers = some slots ∧
    ∀ j, j < i → slots j = installedTable env table j (fatalSignal env j)

/-- Two states with the same flags. -/
def SameFlags (a b : SignalState) : Prop :=
  a.g_isEnabled = b.g_isEnabled ∧
  a.g_sigterm_monitoringEnabled = b.g_sigterm_monitoringEnabled

/-- The calls by which `uninstallSignalHandler` registers again, for each fatal signal in
list order, the action saved in its slot. -/
def restoreCalls (env : MonitorEnv) (slots : Option (Nat → SigAction)) : List Call :=
  (List.range env.fatalSignals.length).map
    (fun i => Call.sigaction (fatalSignal env i) (slots.map (fun saved => saved i)))

/-- The calls which `handleSignal` adds to the log. -/
def handleSignalCalls (env : MonitorEnv) (sigNum : Int) (signalInfo : siginfo_t)
    (userContext : Nat) (st : SignalState) : List Call :=
  (handleSignal env sigNum signalInfo userContext st).log.drop st.log.length

/-- A user monitor that is enabled, and one that is not. -/
def enabledUser : UserState := { g_isEnabled := true, log := [] }

/-- The user monitor before `setEnabled(true)`. -/
def disabledUser : UserState := { g_isEnabled := false, log := [] }

/-- The event that `kscm_reportUserException` hands to `kscm_handleException` when it
generates its identifier after `n` logged calls. -/
def userEvent (env : MonitorEnv) (name reason language lineOfCode stackTrace : Option CStr)
    (n : Nat) : KSCrash_MonitorContext :=
  { env.ksmc_fillMonitorContext KSCrash_MonitorContext.zero kscm_user_getAPI with
    eventID := some (env.ksid_generate n)
    offendingMachineContext := some ObjRef.machineContext
    registersAreValid := false
    crashReason := reason
    userException_name := name
    userException_language := language
    userException_lineOfCode := lineOfCode
    userException_customStackTrace := stackTrace
    stackCursor := some ObjRef.stackCursor
    currentSnapshotUserReported := true }

/-! ### Fixtures and footprints for the writer and the refill -/

/-- A writer on descriptor 3 with capacity 4 and three bytes pending. -/
def demoWriter : KSBufferedWriter :=
  { buffer := writeMem (fun _ => 0) 0 (bytesOf "abc"), bufferLength := 4, position := 3, fd := 3 }

/-- A descriptor that has received nothing yet. -/
def demoWriteOS : WriteOS := { delivered := [], calls := 0 }

/-- The writer that `ksfu_openBufferedWriter` returns, with true, when `open` returns the
descriptor 0; its buffer has four bytes. -/
def stdinWriter : KSBufferedWriter := (ksfu_openBufferedWriter (fun _ => 0) 4 0).2

/-- A kernel that hands over all it is asked for at the first call and fails from then on. -/
def onceThenFail : Nat → Nat → Int := fun i _ => if i = 0 then 8 else -1

/-- The result of reading four bytes from a reader opened on `sampleFile` with a five-byte
buffer; the memory behind the buffer holds the byte `outside`. -/
def drainedRun (outside : Byte) : Option (Int × List Byte × KSBufferedReader × ReadOS) :=
  ksfu_readBufferedReader onceThenFail 4
    (ksfu_openBufferedReader onceThenFail (fun i => if i < 5 then 7 else outside) 5 3
      ⟨sampleFile, 0, []⟩).2.1
    (ksfu_openBufferedReader onceThenFail (fun i => if i < 5 then 7 else outside) 5 3
      ⟨sampleFile, 0, []⟩).2.2 4

/-- The indices of `reader->buffer` that `fillReadBuffer` reads or writes, in the order of
the source: the source range and the destination range of the `memmove`, the terminator
stored after it, the bytes stored by `read`, and the final terminator. -/
def fillReadBufferAccesses (oracle : Nat → Nat → Int) (reader : KSBufferedReader)
    (os : ReadOS) : List Nat :=
  let shift : List Nat :=
    if reader.dataStartPos > 0 then
      (List.range reader.dataStartPos.toNat).map (fun i => reader.dataStartPos.toNat + i) ++
        List.range reader.dataStartPos.toNat ++
        [(reader.dataEndPos - reader.dataStartPos).toNat]
    else []
  let dataEndPos : Int :=
    if reader.dataStartPos > 0 then reader.dataEndPos - reader.dataStartPos
    else reader.dataEndPos
  let bytesToRead := reader.bufferLength - dataEndPos
  if bytesToRead ≤ 0 then shift
  else
    let r := sysRead oracle os bytesToRead.toNat
    if r.1 < 0 then shift
    else
      shift ++ (List.range r.1.toNat).map (fun i => dataEndPos.toNat + i) ++
        [(dataEndPos + r.1).toNat]

/-- The states of a reader that `ksfu_openBufferedReader` has opened, with success, on a
buffer of `readBufferLength >= 1` bytes: the state after the open, and the state after any
`ksfu_readBufferedReader` or `ksfu_readBufferedReaderUntilChar` call on such a state,
whatever its bound and whatever the `read` calls return. -/
inductive ReaderSession (oracle : Nat → Nat → Int) (readBufferLength : Int) :
    KSBufferedReader → ReadOS → Prop
  | opened (readBuffer : Mem) (fd : Int) (file : List Byte)
      (h1 : 1 ≤ readBufferLength) (hfd : 0 ≤ fd) :
      ReaderSession oracle readBufferLength
        (ksfu_openBufferedReader oracle readBuffer readBufferLength fd ⟨file, 0, []⟩).2.1
        (ksfu_openBufferedReader oracle readBuffer readBufferLength fd ⟨file, 0, []⟩).2.2
  | afterRead (reader : KSBufferedReader) (os : ReadOS) (fuel : Nat)
      (byteCount : Int) (res : Int × List Byte × KSBufferedReader × ReadOS)
      (h : ReaderSession oracle readBufferLength reader os)
      (hrun : ksfu_readBufferedReader oracle fuel reader os byteCount = some res) :
      ReaderSession oracle readBufferLength res.2.2.1 res.2.2.2
  | afterReadUntilChar (reader : KSBufferedReader) (os : ReadOS) (fuel : Nat)
      (ch : Int) (length : Int) (res : Bool × List Byte × Int × KSBufferedReader × ReadOS)
      (h : ReaderSession oracle readBufferLength reader os)
      (hrun : ksfu_readBufferedReaderUntilChar oracle fuel reader os ch length = some res) :
      ReaderSession oracle readBufferLength res.2.2.2.1 res.2.2.2.2

/-! ### Machine contexts and thread lists (`KSMachineContext.c`)

The Mach and CPU calls made by these functions are appended to a log, oldest first; what
a call answers is supplied by `ThreadEnv`. -/

/-- The value `KERN_SUCCESS`, from `<mach/kern_return.h>`. -/
def KERN_SUCCESS : Int := 0

/-- The struct `KSMachineContext`.  The array `allThreads` is the memory from its base, so
that a store past its capacity would show; the registers of `machineContext` are a map
from register index to value. -/
structure KSMachineContext where
  thisThread : Nat
  allThreads : Nat → Nat
  threadCount : Int
  isCrashedContext : Bool
  isCurrentThread : Bool
  isStackOverflow : Bool
  isSignalContext : Bool
  machineContext : Nat → Nat

/-- The context after `memset(destinationContext, 0, sizeof(*destinationContext))`. -/
def KSMachineContext.zero : KSMachineContext :=
  { thisThread := 0, allThreads := fun _ => 0, threadCount := 0, isCrashedContext := false,
    isCurrentThread := false, isStackOverflow := false, isSignalContext := false,
    machineContext := fun _ => 0 }

/-- A call made by a function of `KSMachineContext.c`. -/
inductive MachCall
  | task_threads
  | thread_suspend (thread : Nat)
  | thread_resume (thread : Nat)
  | mach_port_deallocate (name : Nat)
  /-- The release of a thread array of `count` entries. -/
  | vm_deallocate (count : Nat)
  | kscpu_getState (thread : Nat)
  /-- The cursor walk of `isStackOverflow`. -/
  | kssc_initWithMachineContext (maxStackDepth : Nat)
  deriving DecidableEq

/-- What the kernel and the rest of the library supply to `KSMachineContext.c`.  An answer
that may differ from call to call is indexed by the number of calls logged before it. -/
structure ThreadEnv where
  /-- The number of entries of `allThreads`. -/
  maxThreadCount : Nat
  /-- The value of `ksthread_self()`. -/
  ksthread_self : Nat
  /-- The array `task_threads` returns, `none` when it fails. -/
  task_threads : Nat → Option (List Nat)
  /-- The result of `thread_suspend` on a thread. -/
  thread_suspend : Nat → Nat → Int
  /-- The result of `thread_resume` on a thread. -/
  thread_resume : Nat → Nat → Int
  /-- The registers `kscpu_getState` stores for a thread. -/
  kscpu_getState : Nat → Nat → Nat
  /-- The value of `stackCursor.state.hasGivenUp` after the walk of `isStackOverflow`. -/
  hasGivenUp : KSMachineContext → Bool
  /-- The constant `KSSC_STACK_OVERFLOW_THRESHOLD`. -/
  KSSC_STACK_OVERFLOW_THRESHOLD : Nat

/-- The globals of `KSMachineContext.c`, the number of `KSLOG_ERROR` lines written and the
log of calls. -/
structure ThreadState where
  g_reservedThreads : Nat → Nat
  g_reservedThreadsCount : Int
  errors : Nat
  log : List MachCall

/-- The state before any function of `KSMachineContext.c` has run. -/
def ThreadState.initial : ThreadState :=
  { g_reservedThreads := fun _ => 0, g_reservedThreadsCount := 0, errors := 0, log := [] }

/-- The global `g_reservedThreadsMaxIndex`: the length 10 of `g_reservedThreads`, less one. -/
def g_reservedThreadsMaxIndex : Int := 10 - 1

/-- The function `isStackOverflow`. -/
def isStackOverflow (env : ThreadEnv) (context : KSMachineContext) (st : ThreadState) :
    Bool × ThreadState :=
  (env.hasGivenUp context,
    { st with log := st.log ++
        [MachCall.kssc_initWithMachineContext env.KSSC_STACK_OVERFLOW_THRESHOLD] })

/-- The loop of `getThreadList` that looks for the crashed thread behind the capacity,
with `remaining = threadCount - idx`; the index `maxThreadCount - 1` is computed in
`mach_msg_type_number_t`. -/
def keepCrashedThread (thisThread maxThreadCount : Nat) (threads : List Nat) :
    Nat → Nat → List Nat
  | 0, _ => threads
  | remaining + 1, idx =>
    match threads[idx]? with
    | none => threads
    | some thread =>
      if thread = thisThread then
        threads.set ((maxThreadCount + U32_MOD - 1) % U32_MOD) thread
      else keepCrashedThread thisThread maxThreadCount threads remaining (idx + 1)

/-- The loop `context->allThreads[i] = threads[i]` of `getThreadList`, with
`remaining = threadCount - i`. -/
def copyThreads (threads : List Nat) : Nat → Nat → (Nat → Nat) → Nat → Nat
  | 0, _, allThreads => allThreads
  | remaining + 1, i, allThreads =>
    copyThreads threads remaining (i + 1) (Function.update allThreads i (threads.getD i 0))

/-- The function `getThreadList`. -/
def getThreadList (env : ThreadEnv) (context : KSMachineContext) (st : ThreadState) :
    Bool × KSMachineContext × ThreadState :=
  match env.task_threads st.log.length with
  | none =>
    (false, context, { st with log := st.log ++ [MachCall.task_threads], errors := st.errors + 1 })
  | some threads =>
    let actualThreadCount := threads.length
    let maxThreadCount := env.maxThreadCount
    let threads1 :=
      if actualThreadCount > maxThreadCount then
        keepCrashedThread context.thisThread maxThreadCount threads
          (actualThreadCount - maxThreadCount) maxThreadCount
      else threads
    let threadCount := if actualThreadCount > maxThreadCount then maxThreadCount
      else actualThreadCount
    (true,
      { context with
        allThreads := copyThreads threads1 threadCount 0 context.allThreads
        threadCount := (threadCount : Int) },
      { st with
        errors := if actualThreadCount > maxThreadCount then st.errors + 1 else st.errors
        log := st.log ++ [MachCall.task_threads] ++
          threads1.map MachCall.mach_port_deallocate ++
          [MachCall.vm_deallocate actualThreadCount] })

/-- The function `ksmc_isCrashedContext`. -/
def ksmc_isCrashedContext (context : KSMachineContext) : Bool := context.isCrashedContext

/-- The function `isContextForCurrentThread`. -/
def isContextForCurrentThread (context : KSMachineContext) : Bool := context.isCurrentThread

/-- The function `isSignalContext`. -/
def isSignalContext (context : KSMachineContext) : Bool := context.isSignalContext

/-- The function `ksmc_canHaveCPUState`. -/
def ksmc_canHaveCPUState (context : KSMachineContext) : Bool :=
  !isContextForCurrentThread context || isSignalContext context

/-- The function `ksmc_hasValidExceptionRegisters`. -/
def ksmc_hasValidExceptionRegisters (context : KSMachineContext) : Bool :=
  ksmc_canHaveCPUState context && ksmc_isCrashedContext context

/-- The function `ksmc_getContextForThread`; `destinationContext` is what the caller's
struct holds on entry. -/
def ksmc_getContextForThread (env : ThreadEnv) (thread : Nat)
    (destinationContext : KSMachineContext) (isCrashedContext : Bool) (st : ThreadState) :
    Bool × KSMachineContext × ThreadState :=
  let zeroed : KSMachineContext :=
    { destinationContext with
      thisThread := 0, allThreads := fun _ => 0, threadCount := 0, isCrashedContext := false,
      isCurrentThread := false, isStackOverflow := false, isSignalContext := false,
      machineContext := fun _ => 0 }
  let context1 : KSMachineContext :=
    { zeroed with
      thisThread := thread
      isCurrentThread := decide (thread = env.ksthread_self)
      isCrashedContext := isCrashedContext
      isSignalContext := false }
  let captured : KSMachineContext × ThreadState :=
    if ksmc_canHaveCPUState context1 then
      ({ context1 with machineContext := env.kscpu_getState context1.thisThread },
        { st with log := st.log ++ [MachCall.kscpu_getState context1.thisThread] })
    else (context1, st)
  if ksmc_isCrashedContext captured.1 then
    let overflow := isStackOverflow env captured.1 captured.2
    let listed := getThreadList env { captured.1 with isStackOverflow := overflow.1 } overflow.2
    (true, listed.2.1, listed.2.2)
  else (true, captured.1, captured.2)

/-- The function `ksmc_getContextForSignal`; `sourceContext` is the register set that the
signal's user context points to. -/
def ksmc_getContextForSignal (env : ThreadEnv) (sourceContext : Nat → Nat)
    (destinationContext : KSMachineContext) (st : ThreadState) :
    Bool × KSMachineContext × ThreadState :=
  let context1 : KSMachineContext :=
    { destinationContext with
      machineContext := sourceContext
      thisThread := env.ksthread_self
      isCrashedContext := true
      isSignalContext := true }
  let overflow := isStackOverflow env context1 st
  let listed := getThreadList env { context1 with isStackOverflow := overflow.1 } overflow.2
  (true, listed.2.1, listed.2.2)

/-- The function `ksmc_addReservedThread`. -/
def ksmc_addReservedThread (thread : Nat) (st : ThreadState) : ThreadState :=
  let nextIndex := st.g_reservedThreadsCount
  if nextIndex > g_reservedThreadsMaxIndex then { st with errors := st.errors + 1 }
  else
    { st with
      g_reservedThreads :=
        Function.update st.g_reservedThreads st.g_reservedThreadsCount.toNat thread
      g_reservedThreadsCount := st.g_reservedThreadsCount + 1 }

/-- The loop of `isThreadInList`, with `remaining = listCount - i`. -/
def isThreadInListFrom (thread : Nat) (list : Nat → Nat) : Nat → Nat → Bool
  | 0, _ => false
  | remaining + 1, i =>
    if list i = thread then true else isThreadInListFrom thread list remaining (i + 1)

/-- The function `isThreadInList`. -/
def isThreadInList (thread : Nat) (list : Nat → Nat) (listCount : Int) : Bool :=
  isThreadInListFrom thread list listCount.toNat 0

/-- The loop of `ksmc_suspendEnvironment` over the entries of the thread array. -/
def suspendLoop (env : ThreadEnv) : List Nat → ThreadState → ThreadState
  | [], st => st
  | thread :: rest, st =>
    if thread ≠ env.ksthread_self ∧
        ¬ isThreadInList thread st.g_reservedThreads st.g_reservedThreadsCount then
      let kr := env.thread_suspend st.log.length thread
      let st1 := { st with log := st.log ++ [MachCall.thread_suspend thread] }
      suspendLoop env rest (if kr ≠ KERN_SUCCESS then { st1 with errors := st1.errors + 1 } else st1)
    else suspendLoop env rest st

/-- The function `ksmc_suspendEnvironment` (with `KSCRASH_HAS_THREADS_API`).  The two
arguments are what `*suspendedThreads` and `*numSuspendedThreads` hold on entry, the first
component of the result what they hold on return; an array pointer is `none` when
`NULL`. -/
def ksmc_suspendEnvironment (env : ThreadEnv) (suspendedThreads : Option (List Nat))
    (numSuspendedThreads : Nat) (st : ThreadState) :
    (Option (List Nat) × Nat) × ThreadState :=
  match env.task_threads st.log.length with
  | none =>
    ((suspendedThreads, numSuspendedThreads),
      { st with log := st.log ++ [MachCall.task_threads], errors := st.errors + 1 })
  | some threads =>
    ((some threads, threads.length),
      suspendLoop env threads { st with log := st.log ++ [MachCall.task_threads] })

/-- The first loop of `ksmc_resumeEnvironment` over the entries of the thread array. -/
def resumeLoop (env : ThreadEnv) : List Nat → ThreadState → ThreadState
  | [], st => st
  | thread :: rest, st =>
    if thread ≠ env.ksthread_self ∧
        ¬ isThreadInList thread st.g_reservedThreads st.g_reservedThreadsCount then
      let kr := env.thread_resume st.log.length thread
      let st1 := { st with log := st.log ++ [MachCall.thread_resume thread] }
      resumeLoop env rest (if kr ≠ KERN_SUCCESS then { st1 with errors := st1.errors + 1 } else st1)
    else resumeLoop env rest st

/-- The function `ksmc_resumeEnvironment` (with `KSCRASH_HAS_THREADS_API`); `numThreads`
is not larger than the array. -/
def ksmc_resumeEnvironment (env : ThreadEnv) (threads : Option (List Nat)) (numThreads : Nat)
    (st : ThreadState) : ThreadState :=
  match threads with
  | none => { st with errors := st.errors + 1 }
  | some array =>
    if numThreads = 0 then { st with errors := st.errors + 1 }
    else
      let st1 := resumeLoop env (array.take numThreads) st
      { st1 with
        log := st1.log ++ (array.take numThreads).map MachCall.mach_port_deallocate ++
          [MachCall.vm_deallocate numThreads] }

/-- The loop of `ksmc_indexOfThread`, with `remaining = threadCount - i`. -/
def indexOfThreadFrom (allThreads : Nat → Nat) (thread : Nat) : Nat → Nat → Int
  | 0, _ => -1
  | remaining + 1, i =>
    if allThreads i = thread then (i : Int)
    else indexOfThreadFrom allThreads thread remaining (i + 1)

/-- The function `ksmc_indexOfThread`. -/
def ksmc_indexOfThread (context : KSMachineContext) (thread : Nat) : Int :=
  indexOfThreadFrom context.allThreads thread context.threadCount.toNat 0

/-- The entries `g_reservedThreads[0 .. g_reservedThreadsCount)`. -/
def reservedList (st : ThreadState) : List Nat :=
  (List.range st.g_reservedThreadsCount.toNat).map st.g_reservedThreads

/-- The entries of a thread array on which the suspend and resume loops act: those that
are neither the calling thread nor reserved. -/
def actedOn (env : ThreadEnv) (st : ThreadState) (threads : List Nat) : List Nat :=
  threads.filter (fun t => decide (t ≠ env.ksthread_self) && !decide (t ∈ reservedList st))

/-- The state after `ksmc_addReservedThread` on each thread of the list, in order. -/
def addReservedThreads (threads : List Nat) (st : ThreadState) : ThreadState :=
  threads.foldl (fun s thread => ksmc_addReservedThread thread s) st

/-- The signal number `SIGABRT`, from `<signal.h>`. -/
def SIGABRT : Int := 6

/-- The string returned by `monitorId` of the signal monitor. -/
def signalMonitorId : CStr := ⟨bytesOf "Signal", by decide⟩

/-- The callback `addContextualInfoToEvent` of the signal monitor; `machName` is the value
of `kscm_getMonitorId(kscm_machexception_getAPI())`.  The result is `none` when
`eventContext->monitorId` is `NULL`, which `strcmp` must not be given. -/
def addContextualInfoToEvent (machName : Option CStr) (eventContext : KSCrash_MonitorContext) :
    Option KSCrash_MonitorContext :=
  match eventContext.monitorId with
  | none => none
  | some id =>
    let equalsMachName : Bool :=
      match machName with
      | none => false
      | some name => decide (strcmp id.val name.val = 0)
    if ¬ (strcmp id.val signalMonitorId.val = 0 ∨ equalsMachName = true) then
      some { eventContext with signal_signum := SIGABRT }
    else some eventContext

/-- An environment with room for three threads; the task has the threads 11 to 15 and the
caller is thread 14. -/
def demoThreadEnv : ThreadEnv :=
  { maxThreadCount := 3, ksthread_self := 14,
    task_threads := fun _ => some [11, 12, 13, 14, 15],
    thread_suspend := fun _ t => if t = 12 then 5 else 0,
    thread_resume := fun _ _ => 0,
    kscpu_getState := fun t r => t + r,
    hasGivenUp := fun _ => true,
    KSSC_STACK_OVERFLOW_THRESHOLD := 150 }

/-- The initial state with thread 13 reserved. -/
def demoThreadState : ThreadState := ksmc_addReservedThread 13 ThreadState.initial

/-- The string returned by `monitorId` of the user monitor. -/
def userMonitorId : CStr := ⟨bytesOf "UserReported", by decide⟩

/-- The string `"MachException"`, used as the id of the Mach-exception monitor in the
examples. -/
def machMonitorId : CStr := ⟨bytesOf "MachException", by decide⟩

/-- An event of the user monitor that carries the signal number 11. -/
def borrowedEvent : KSCrash_MonitorContext :=
  { KSCrash_MonitorContext.zero with monitorId := some userMonitorId, signal_signum := 11 }

/-- The answers of the kernel to a run of `read` calls: `KernelAnswers oracle os missing rs os2`
holds when `rs` lists, in order, what `read` returns and transfers, from the descriptor
state `os`, when each call asks for the bytes still missing, `missing` of them at
first and fewer by each answer, and `os2` is the descriptor state after the last of
them. -/
inductive KernelAnswers (oracle : Nat → Nat → Int) :
    ReadOS → Int → List (Int × List Byte) → ReadOS → Prop
  | done (os : ReadOS) (missing : Int) : KernelAnswers oracle os missing [] os
  | next (os : ReadOS) (missing : Int) (rs : List (Int × List Byte)) (os2 : ReadOS)
      (h : KernelAnswers oracle (sysRead oracle os missing.toNat).2.2
        (missing - (sysRead oracle os missing.toNat).1) rs os2) :
      KernelAnswers oracle os missing
        (((sysRead oracle os missing.toNat).1, (sysRead oracle os missing.toNat).2.1) :: rs) os2

/-- The result of reading three bytes from a reader opened on `sampleFile` with a nine-byte
buffer, the kernel handing over three bytes a call. -/
def refillRun : Option (Int × List Byte × KSBufferedReader × ReadOS) :=
  ksfu_readBufferedReader threeAtATime 4
    (ksfu_openBufferedReader threeAtATime (fun _ => 7) 9 3 ⟨sampleFile, 0, []⟩).2.1
    (ksfu_openBufferedReader threeAtATime (fun _ => 7) 9 3 ⟨sampleFile, 0, []⟩).2.2 3

/-- The reader that `refillRun` leaves behind: the three buffered bytes have been handed
out and the window is empty at index 3. -/
def refillReader : KSBufferedReader :=
  { (ksfu_openBufferedReader threeAtATime (fun _ => 7) 9 3 ⟨sampleFile, 0, []⟩).2.1 with
    dataStartPos := 3 }

/-- The descriptor state that goes with `refillReader`. -/
def refillReaderOS : ReadOS :=
  (ksfu_openBufferedReader threeAtATime (fun _ => 7) 9 3 ⟨sampleFile, 0, []⟩).2.2

/-- A reader state with a nine-byte buffer holding `"abc\ndef"` whose window `[4, 7)` holds
the three unread bytes `"def"`. -/
def shiftReader : KSBufferedReader := { wideReader with dataStartPos := 4 }

/-! ## Part II. Properties -/


theorem readMem_length (m : Mem) (start n : Nat) : (readMem m start n).length = n := by
  simp [readMem]

theorem readMem_writeMem_same (m : Mem) (start : Nat) (data : List Byte) :
    readMem (writeMem m start data) start data.length = data := by
  apply List.ext_getElem
  · simp [readMem]
  · intro i h1 h2
    simp only [readMem_length] at h1
    simp [readMem, writeMem, h1]

theorem readMem_writeMem_before (m : Mem) (start n : Nat) (data : List Byte) (h : n ≤ start) :
    readMem (writeMem m start data) 0 n = readMem m 0 n := by
  apply List.ext_getElem
  · simp [readMem]
  · intro i h1 h2
    simp only [readMem_length] at h1
    have : i < start := by omega
    simp [readMem, writeMem, this]

theorem readMem_append (m : Mem) (start a b : Nat) :
    readMem m start (a + b) = readMem m start a ++ readMem m (start + a) b := by
  apply List.ext_getElem
  · simp [readMem]
  · intro i h1 h2
    simp only [readMem_length] at h1
    by_cases hi : i < a
    · rw [List.getElem_append_left (by simpa [readMem] using hi)]
      simp [readMem]
    · rw [List.getElem_append_right (by simpa [readMem] using hi)]
      simp [readMem]
      congr 1
      omega

/-- With a kernel that always accepts at least one byte, the raw write loop delivers
exactly the requested bytes. -/
theorem ksfu_writeBytesToFD_delivers (oracle : Nat → Nat → Int)
    (hor : ∀ i n, 0 < oracle i n) (fd : Int) :
    ∀ (fuel : Nat) (os : WriteOS) (pos : List Byte) (n : Nat),
      n ≤ pos.length → n ≤ fuel →
      ∃ os', ksfu_writeBytesToFD oracle fuel os fd pos (n : Int) = some (true, os') ∧
        os'.delivered = os.delivered ++ pos.take n := by
  intro fuel
  induction fuel with
  | zero =>
    intro os pos n _ hn
    have : n = 0 := by omega
    subst this
    exact ⟨os, by simp [ksfu_writeBytesToFD], by simp⟩
  | succ fuel ih =>
    intro os pos n hlen hn
    by_cases h0 : n = 0
    · subst h0
      exact ⟨os, by simp [ksfu_writeBytesToFD], by simp⟩
    · have hnpos : (n : Int) > 0 := by omega
      have hw := hor os.calls n
      obtain ⟨k, hk⟩ : ∃ k : Nat, oracle os.calls n = (k : Int) :=
        ⟨(oracle os.calls n).toNat, by omega⟩
      have hk1 : 1 ≤ k := by omega
      have hclen : (pos.take (min k n)).length = min k n := by
        rw [List.length_take]; omega
      have hstep : sysWrite oracle os pos n =
          (((min k n : Nat) : Int),
            { delivered := os.delivered ++ pos.take (min k n), calls := os.calls + 1 }) := by
        simp only [sysWrite, hk]
        rw [if_neg (by omega)]
        simp only [Int.toNat_ofNat, hclen]
      have hne : ((min k n : Nat) : Int) ≠ -1 := by omega
      have hsub : (n : Int) - ((min k n : Nat) : Int) = ((n - min k n : Nat) : Int) := by omega
      obtain ⟨os', hrun, hdel⟩ := ih
        { delivered := os.delivered ++ pos.take (min k n), calls := os.calls + 1 }
        (pos.drop (min k n)) (n - min k n)
        (by rw [List.length_drop]; omega) (by omega)
      refine ⟨os', ?_, ?_⟩
      · rw [ksfu_writeBytesToFD, if_pos hnpos]
        simp only [Int.toNat_ofNat, hstep]
        rw [if_neg hne, hsub]
        exact hrun
      · rw [hdel]
        simp only [List.append_assoc]
        congr 1
        have hsplit : n = min k n + (n - min k n) := by omega
        conv_rhs => rw [hsplit, List.take_add]

/-- Flushing a writer on an open descriptor delivers its pending bytes and resets `position`. -/
theorem ksfu_flushBufferedWriter_delivers (oracle : Nat → Nat → Int)
    (hor : ∀ i n, 0 < oracle i n) (fuel : Nat) (w : KSBufferedWriter) (os : WriteOS)
    (hfd : 0 < w.fd) (hp : 0 ≤ w.position) (hfuel : w.position.toNat ≤ fuel) :
    ∃ os', ksfu_flushBufferedWriter oracle fuel w os = some (true, { w with position := 0 }, os') ∧
      os'.delivered = os.delivered ++ readMem w.buffer 0 w.position.toNat := by
  by_cases h0 : w.position = 0
  · refine ⟨os, ?_, ?_⟩
    · have : ¬ (w.fd > 0 ∧ w.position > 0) := by omega
      rw [ksfu_flushBufferedWriter, if_neg this]
      cases w
      simp_all
    · simp [h0, readMem]
  · obtain ⟨os', hrun, hdel⟩ := ksfu_writeBytesToFD_delivers oracle hor w.fd fuel os
      (readMem w.buffer 0 w.position.toNat) w.position.toNat
      (by rw [readMem_length]) hfuel
    have hcast : ((w.position.toNat : Nat) : Int) = w.position := by omega
    rw [hcast] at hrun
    refine ⟨os', ?_, ?_⟩
    · have : w.fd > 0 ∧ w.position > 0 := by omega
      rw [ksfu_flushBufferedWriter, if_pos this, hrun]
    · rw [hdel, List.take_of_length_le (by rw [readMem_length])]

/-- One buffered write, on an open descriptor whose writes succeed, returns true and keeps
`delivered ++ pending` equal to the old `delivered ++ pending` followed by the data. -/
theorem ksfu_writeBufferedWriter_delivers (oracle : Nat → Nat → Int)
    (hor : ∀ i n, 0 < oracle i n) (fuel : Nat) (w : KSBufferedWriter) (os : WriteOS)
    (data : List Byte)
    (hfd : 0 < w.fd) (hp : 0 ≤ w.position) (hpc : w.position ≤ w.bufferLength)
    (hfuel : w.bufferLength.toNat ≤ fuel) (hdata : data.length ≤ fuel) :
    ∃ w' os', ksfu_writeBufferedWriter oracle fuel w os data = some (true, w', os') ∧
      w'.fd = w.fd ∧ w'.bufferLength = w.bufferLength ∧
      0 ≤ w'.position ∧ w'.position ≤ w'.bufferLength ∧
      os'.delivered ++ readMem w'.buffer 0 w'.position.toNat =
        os.delivered ++ readMem w.buffer 0 w.position.toNat ++ data := by
  by_cases hfit : (data.length : Int) > w.bufferLength - w.position
  · obtain ⟨os1, hflush, hdel1⟩ := ksfu_flushBufferedWriter_delivers oracle hor fuel w os hfd hp
      (by omega)
    by_cases hbig : (data.length : Int) > w.bufferLength
    · obtain ⟨os2, hrun, hdel2⟩ := ksfu_writeBytesToFD_delivers oracle hor w.fd fuel os1
        data data.length (le_refl _) hdata
      refine ⟨{ w with position := 0 }, os2, ?_, rfl, rfl, le_refl _, by simpa using le_trans hp hpc, ?_⟩
      · simp only [ksfu_writeBufferedWriter, if_pos hfit, hflush, if_pos hbig, hrun]
      · simp [hdel2, hdel1, readMem]
    · refine ⟨{ w with buffer := writeMem w.buffer 0 data, position := (data.length : Int) },
        os1, ?_, rfl, rfl, by simp, by simpa using hbig, ?_⟩
      · simp only [ksfu_writeBufferedWriter, if_pos hfit, hflush, if_neg hbig]
        simp
      · simp only [Int.toNat_ofNat, hdel1, readMem_writeMem_same]
  · have hbig : ¬ (data.length : Int) > w.bufferLength := by omega
    refine ⟨{ w with buffer := writeMem w.buffer w.position.toNat data,
                     position := w.position + (data.length : Int) },
      os, ?_, rfl, rfl, by simp; omega, by simp; omega, ?_⟩
    · simp only [ksfu_writeBufferedWriter, if_neg hfit, if_neg hbig]
    · have hpos : (w.position + (data.length : Int)).toNat = w.position.toNat + data.length := by
        omega
      simp only [hpos, readMem_append, List.append_assoc, Nat.zero_add]
      rw [readMem_writeMem_before _ _ _ _ (le_refl _), readMem_writeMem_same]

/-- A run of buffered writes keeps `delivered ++ pending` equal to everything written. -/
theorem writeChunks_delivers (oracle : Nat → Nat → Int)
    (hor : ∀ i n, 0 < oracle i n) (fuel : Nat) :
    ∀ (chunks : List (List Byte)) (w : KSBufferedWriter) (os : WriteOS),
      0 < w.fd → 0 ≤ w.position → w.position ≤ w.bufferLength →
      w.bufferLength.toNat ≤ fuel → (∀ d ∈ chunks, d.length ≤ fuel) →
      ∃ w' os', writeChunks oracle fuel w os chunks = some (true, w', os') ∧
        w'.fd = w.fd ∧ w'.bufferLength = w.bufferLength ∧
        0 ≤ w'.position ∧ w'.position ≤ w'.bufferLength ∧
        os'.delivered ++ readMem w'.buffer 0 w'.position.toNat =
          os.delivered ++ readMem w.buffer 0 w.position.toNat ++ chunks.flatten := by
  intro chunks
  induction chunks with
  | nil =>
    intro w os _ hp hpc _ _
    exact ⟨w, os, rfl, rfl, rfl, hp, hpc, by simp⟩
  | cons d rest ih =>
    intro w os hfd hp hpc hfuel hds
    obtain ⟨w1, os1, hrun1, hfd1, hlen1, hp1, hpc1, hdel1⟩ :=
      ksfu_writeBufferedWriter_delivers oracle hor fuel w os d hfd hp hpc hfuel
        (hds d (List.mem_cons_self _ _))
    obtain ⟨w2, os2, hrun2, hfd2, hlen2, hp2, hpc2, hdel2⟩ :=
      ih w1 os1 (by omega) hp1 hpc1 (by rw [hlen1]; exact hfuel)
        (fun x hx => hds x (List.mem_cons_of_mem _ hx))
    refine ⟨w2, os2, ?_, by omega, by omega, hp2, hpc2, ?_⟩
    · simp only [writeChunks, hrun1, hrun2, Bool.and_self]
    · rw [hdel2, hdel1]
      simp [List.append_assoc]

/-- C1: a writer opened on a descriptor `fd > 0` with capacity `C ≥ 0`, fed the chunks
`d1..dn` while every underlying `write` accepts a positive (possibly short) count, has
after `ksfu_closeBufferedWriter` delivered exactly `d1 ++ ... ++ dn` to the descriptor,
every buffered write having returned true; nothing stays buffered (`position = 0`) and
`fd` is `-1`. -/
theorem writer_session_delivers_exactly (oracle : Nat → Nat → Int)
    (hor : ∀ i n, 0 < oracle i n) (writeBuffer : Mem) (C : Int) (hC : 0 ≤ C)
    (fd : Int) (hfd : 0 < fd) (os : WriteOS) (chunks : List (List Byte)) (fuel : Nat)
    (hfuelC : C.toNat ≤ fuel) (hfuel : ∀ d ∈ chunks, d.length ≤ fuel) :
    ∃ w' os', writeSession oracle fuel writeBuffer C fd os chunks = some (true, w', os') ∧
      os'.delivered = os.delivered ++ chunks.flatten ∧ w'.position = 0 ∧ w'.fd = -1 := by
  have hopen : (ksfu_openBufferedWriter writeBuffer C fd).2 =
      { buffer := writeBuffer, bufferLength := C, position := 0, fd := fd } := by
    simp only [ksfu_openBufferedWriter]
    split <;> rfl
  obtain ⟨w1, os1, hrun1, hfd1, hlen1, hp1, hpc1, hdel1⟩ :=
    writeChunks_delivers oracle hor fuel chunks
      { buffer := writeBuffer, bufferLength := C, position := 0, fd := fd } os
      hfd (le_refl _) hC hfuelC hfuel
  simp only at hfd1 hlen1
  obtain ⟨os2, hflush, hdel2⟩ := ksfu_flushBufferedWriter_delivers oracle hor fuel w1 os1
    (by omega) hp1 (by omega)
  refine ⟨{ w1 with position := 0, fd := -1 }, os2, ?_, ?_, rfl, rfl⟩
  · have hfdpos : w1.fd > 0 := by omega
    simp only [writeSession, hopen, hrun1, ksfu_closeBufferedWriter, if_pos hfdpos, hflush]
  · rw [hdel2, hdel1]
    simp [readMem]

/-- C1 at a concrete input: capacity 3, one-byte-at-a-time writes, four chunks. -/
theorem writer_session_delivers_exactly_witness :
    ∃ w' os', writeSession (fun _ _ => 1) 10 (fun _ => 0) 3 5 ⟨[], 0⟩
        [[1, 2], [3, 4], [5, 6, 7, 8], []] = some (true, w', os') ∧
      os'.delivered = [] ++ [[1, 2], [3, 4], [5, 6, 7, 8], ([] : List Byte)].flatten ∧
      w'.position = 0 ∧ w'.fd = -1 :=
  writer_session_delivers_exactly (fun _ _ => 1) (fun _ _ => Int.one_pos) (fun _ => 0) 3
    (by decide) 5 (by decide) ⟨[], 0⟩ [[1, 2], [3, 4], [5, 6, 7, 8], []] 10 (by decide)
    (by decide)

theorem take_min_length {α : Type} (l : List α) (a : Nat) :
    l.take (min a l.length) = l.take a := by
  rcases Nat.le_total a l.length with h | h
  · rw [Nat.min_eq_left h]
  · rw [Nat.min_eq_right h, List.take_length, List.take_of_length_le h]

/-- The two outcomes of a `read` call. -/
theorem sysRead_cases (oracle : Nat → Nat → Int) (os : ReadOS) (count : Nat) :
    (oracle os.log.length count < 0 ∧
      sysRead oracle os count = (-1, [], { os with log := os.log ++ [(-1, [])] })) ∨
    (∃ n : Nat, 0 ≤ oracle os.log.length count ∧
      n = min (min (oracle os.log.length count).toNat count) (os.file.length - os.offset) ∧
      sysRead oracle os count =
        ((n : Int), (os.file.drop os.offset).take n,
          { os with offset := os.offset + n
                    log := os.log ++ [((n : Int), (os.file.drop os.offset).take n)] })) := by
  by_cases h : oracle os.log.length count < 0
  · left
    exact ⟨h, by simp [sysRead, h]⟩
  · right
    refine ⟨min (min (oracle os.log.length count).toNat count) (os.file.length - os.offset),
      by omega, rfl, ?_⟩
    have hlen : ((os.file.drop os.offset).take
        (min (oracle os.log.length count).toNat count)).length =
        min (min (oracle os.log.length count).toNat count) (os.file.length - os.offset) := by
      simp [List.length_take, List.length_drop]
    have htake : (os.file.drop os.offset).take
        (min (min (oracle os.log.length count).toNat count) (os.file.length - os.offset)) =
        (os.file.drop os.offset).take (min (oracle os.log.length count).toNat count) := by
      have := take_min_length (os.file.drop os.offset)
        (min (oracle os.log.length count).toNat count)
      simp only [List.length_drop] at this
      exact this
    simp only [sysRead, if_neg h, hlen, htake]

theorem setByte_same (m : Mem) (i : Nat) (b : Byte) : setByte m i b i = b := by
  simp [setByte]

theorem readMem_setByte (m : Mem) (i start n : Nat) (b : Byte) (h : start + n ≤ i) :
    readMem (setByte m i b) start n = readMem m start n := by
  apply List.ext_getElem
  · simp [readMem]
  · intro j h1 h2
    simp only [readMem_length] at h1
    have : start + j ≠ i := by omega
    simp [readMem, setByte, this]

theorem readMem_zero (m : Mem) (start : Nat) : readMem m start 0 = [] := by
  simp [readMem]

/-- Refilling a reader whose window is empty: the window becomes `[0, n)` and holds the
next `n` bytes of the file, `n` being what `read` transferred (0 on failure). -/
theorem fillReadBuffer_empty (oracle : Nat → Nat → Int) (r : KSBufferedReader) (os : ReadOS)
    (hinv : ReaderInv r os) (hemp : r.dataStartPos = r.dataEndPos) :
    ∃ n : Nat,
      (fillReadBuffer oracle r os).2.1.dataStartPos = 0 ∧
      (fillReadBuffer oracle r os).2.1.dataEndPos = (n : Int) ∧
      (fillReadBuffer oracle r os).2.1.bufferLength = r.bufferLength ∧
      (fillReadBuffer oracle r os).2.1.fd = r.fd ∧
      (fillReadBuffer oracle r os).2.2.file = os.file ∧
      (fillReadBuffer oracle r os).2.2.offset = os.offset + n ∧
      (n : Int) ≤ r.bufferLength ∧
      os.offset + n ≤ os.file.length ∧
      (fillReadBuffer oracle r os).2.1.buffer n = 0 ∧
      readMem (fillReadBuffer oracle r os).2.1.buffer 0 n = (os.file.drop os.offset).take n ∧
      ((∀ i c, 0 < oracle i c) → (fillReadBuffer oracle r os).1 = true) ∧
      ((∀ i c, 0 < oracle i c) → 0 < r.bufferLength → os.offset < os.file.length → 0 < n) := by
  obtain ⟨h0, hse, hec, hterm, hwl, hol, hweq⟩ := hinv
  -- the state after the optional shift
  have hshift : ∃ buf : Mem, buf 0 = 0 ∧
      (if r.dataStartPos > 0 then
        ({ r with
          buffer := setByte (memmove r.buffer 0 r.dataStartPos.toNat r.dataStartPos.toNat)
            (r.dataEndPos - r.dataStartPos).toNat 0
          dataEndPos := r.dataEndPos - r.dataStartPos
          dataStartPos := 0 } : KSBufferedReader)
      else r) =
      { buffer := buf, bufferLength := r.bufferLength, dataStartPos := 0, dataEndPos := 0,
        fd := r.fd } := by
    by_cases hs : r.dataStartPos > 0
    · refine ⟨setByte (memmove r.buffer 0 r.dataStartPos.toNat r.dataStartPos.toNat) 0 0,
        setByte_same _ _ _, ?_⟩
      rw [if_pos hs]
      have : r.dataEndPos - r.dataStartPos = 0 := by omega
      simp [this]
    · refine ⟨r.buffer, ?_, ?_⟩
      · have : r.dataEndPos = 0 := by omega
        simpa [this] using hterm
      · rw [if_neg hs]
        have h1 : r.dataStartPos = 0 := by omega
        have h2 : r.dataEndPos = 0 := by omega
        cases r
        simp_all
  obtain ⟨buf, hbuf0, hr1⟩ := hshift
  by_cases hcap : r.bufferLength - 0 ≤ 0
  · refine ⟨0, ?_⟩
    have hfill : fillReadBuffer oracle r os =
        (true, { buffer := buf, bufferLength := r.bufferLength, dataStartPos := 0,
                 dataEndPos := 0, fd := r.fd }, os) := by
      simp only [fillReadBuffer, hr1, if_pos hcap]
    rw [hfill]
    refine ⟨rfl, rfl, rfl, rfl, rfl, rfl, by omega, by omega, hbuf0, by simp [readMem],
      fun _ => rfl, ?_⟩
    intro _ hpos
    omega
  · rcases sysRead_cases oracle os (r.bufferLength - 0).toNat with ⟨hneg, hrd⟩ | ⟨n, hnn, hn, hrd⟩
    · refine ⟨0, ?_⟩
      have hfill : fillReadBuffer oracle r os =
          (false, { buffer := buf, bufferLength := r.bufferLength, dataStartPos := 0,
                    dataEndPos := 0, fd := r.fd },
            { os with log := os.log ++ [(-1, [])] }) := by
        simp only [fillReadBuffer, hr1, if_neg hcap, hrd]
        simp
      rw [hfill]
      refine ⟨rfl, rfl, rfl, rfl, rfl, rfl, by omega, by omega, hbuf0, by simp [readMem],
        ?_, ?_⟩
      · intro hor
        have := hor os.log.length (r.bufferLength - 0).toNat
        omega
      · intro hor
        have := hor os.log.length (r.bufferLength - 0).toNat
        omega
    · refine ⟨n, ?_⟩
      have hnot : ¬ ((n : Int) < 0) := by omega
      have hfill : fillReadBuffer oracle r os =
          (true, { buffer := setByte (writeMem buf 0 ((os.file.drop os.offset).take n)) n 0,
                   bufferLength := r.bufferLength, dataStartPos := 0,
                   dataEndPos := (n : Int), fd := r.fd },
            { os with offset := os.offset + n
                      log := os.log ++ [((n : Int), (os.file.drop os.offset).take n)] }) := by
        simp only [fillReadBuffer, hr1, if_neg hcap, hrd, if_neg hnot]
        simp
      rw [hfill]
      have hlen : ((os.file.drop os.offset).take n).length = n := by
        simp [List.length_take, List.length_drop]; omega
      refine ⟨rfl, rfl, rfl, rfl, rfl, rfl, by omega, by omega, ?_, ?_, fun _ => rfl, ?_⟩
      · simp [setByte]
      · show readMem (setByte (writeMem buf 0 ((os.file.drop os.offset).take n)) n 0) 0 n = _
        rw [readMem_setByte _ _ _ _ _ (by omega)]
        have hsame := readMem_writeMem_same buf 0 ((os.file.drop os.offset).take n)
        rw [hlen] at hsame
        exact hsame
      · intro hor hpos hoff
        have := hor os.log.length (r.bufferLength - 0).toNat
        omega

theorem readMem_take (m : Mem) (start n k : Nat) (h : k ≤ n) :
    (readMem m start n).take k = readMem m start k := by
  obtain ⟨d, rfl⟩ : ∃ d, n = k + d := ⟨n - k, by omega⟩
  rw [readMem_append, List.take_left' (readMem_length _ _ _)]

theorem readMem_drop (m : Mem) (start n k : Nat) (h : k ≤ n) :
    (readMem m start n).drop k = readMem m (start + k) (n - k) := by
  obtain ⟨d, rfl⟩ : ∃ d, n = k + d := ⟨n - k, by omega⟩
  rw [readMem_append, List.drop_left' (readMem_length _ _ _)]
  simp

/-- Under the invariant the unread bytes are the file from the consumed position on. -/
theorem ReaderInv.unread_eq {r : KSBufferedReader} {os : ReadOS} (h : ReaderInv r os) :
    unread r os = os.file.drop (consumed r os) := by
  have hw := h.window_le
  rw [unread, h.window_eq]
  have hoff : os.offset = consumed r os + (r.dataEndPos - r.dataStartPos).toNat := by
    simp only [consumed]; omega
  conv_lhs => rw [hoff, ← List.drop_drop]
  exact List.take_append_drop _ _

/-- Handing out the first `k` bytes of the window. -/
theorem ReaderInv.advance {r : KSBufferedReader} {os : ReadOS} (h : ReaderInv r os) (k : Nat)
    (hk : (k : Int) ≤ r.dataEndPos - r.dataStartPos) :
    ReaderInv { r with dataStartPos := r.dataStartPos + (k : Int) } os ∧
    consumed { r with dataStartPos := r.dataStartPos + (k : Int) } os = consumed r os + k ∧
    readMem r.buffer r.dataStartPos.toNat k = (os.file.drop (consumed r os)).take k := by
  obtain ⟨h0, hse, hec, hterm, hwl, hol, hweq⟩ := h
  have hkw : k ≤ (r.dataEndPos - r.dataStartPos).toNat := by omega
  have hcons : consumed { r with dataStartPos := r.dataStartPos + (k : Int) } os =
      consumed r os + k := by
    simp only [consumed]; omega
  have hfirst : readMem r.buffer r.dataStartPos.toNat k = (os.file.drop (consumed r os)).take k := by
    rw [← readMem_take _ _ _ _ hkw, hweq, List.take_take, Nat.min_eq_left hkw]
  refine ⟨⟨by simp; omega, by simp; omega, hec, hterm, by simp; omega, hol, ?_⟩, hcons, hfirst⟩
  rw [hcons]
  have hd := readMem_drop r.buffer r.dataStartPos.toNat _ k hkw
  rw [hweq] at hd
  have e1 : (r.dataStartPos + (k : Int)).toNat = r.dataStartPos.toNat + k := by omega
  have e2 : (r.dataEndPos - (r.dataStartPos + (k : Int))).toNat =
      (r.dataEndPos - r.dataStartPos).toNat - k := by omega
  simp only [e1, e2]
  rw [← hd, List.drop_take, List.drop_drop]

/-- Refilling an empty window keeps the invariant and the consumed position. -/
theorem fillReadBuffer_empty_inv (oracle : Nat → Nat → Int) (r : KSBufferedReader)
    (os : ReadOS) (hinv : ReaderInv r os) (hemp : r.dataStartPos = r.dataEndPos) :
    ReaderInv (fillReadBuffer oracle r os).2.1 (fillReadBuffer oracle r os).2.2 ∧
    consumed (fillReadBuffer oracle r os).2.1 (fillReadBuffer oracle r os).2.2 =
      consumed r os ∧
    (fillReadBuffer oracle r os).2.2.file = os.file ∧
    (fillReadBuffer oracle r os).2.1.bufferLength = r.bufferLength ∧
    ((∀ i c, 0 < oracle i c) → (fillReadBuffer oracle r os).1 = true ∧
      (0 < r.bufferLength →
        (fillReadBuffer oracle r os).2.1.dataEndPos -
          (fillReadBuffer oracle r os).2.1.dataStartPos ≤ 0 →
        os.file.length ≤ consumed r os)) := by
  obtain ⟨n, hs, he, hcap, _, hfile, hoff, hncap, hnle, hterm, hwin, hok, hpos⟩ :=
    fillReadBuffer_empty oracle r os hinv hemp
  have hc0 : consumed r os = os.offset := by
    simp only [consumed]; omega
  have hc1 : consumed (fillReadBuffer oracle r os).2.1 (fillReadBuffer oracle r os).2.2 =
      os.offset := by
    simp only [consumed, hs, he, hoff]; omega
  refine ⟨⟨by omega, by omega, by omega, ?_, ?_, ?_, ?_⟩, by omega, hfile, hcap, ?_⟩
  · rw [he]; simpa using hterm
  · rw [hs, he, hoff]; omega
  · rw [hoff, hfile]; exact hnle
  · rw [hc1, hs, he, hfile]
    simpa using hwin
  · intro hor
    refine ⟨hok hor, fun hcappos hempty => ?_⟩
    rw [hs, he] at hempty
    by_contra hlt
    have := hpos hor hcappos (by omega)
    omega

/-- The loop of `ksfu_readBufferedReader`, from any state satisfying the invariant and for
any behaviour of `read`: whatever it returns hands out the next `c` bytes of the file for
some `c ≤ bytesRemaining` and keeps the invariant; with `bytesRemaining` units of fuel it
does return; and when `read` never fails and the buffer has room for at least one byte,
`c` is all that was asked for or all that is left. -/
theorem readBufferedLoop_spec (oracle : Nat → Nat → Int) :
    ∀ (fuel : Nat) (r : KSBufferedReader) (os : ReadOS) (dst : List Byte) (R bc : Int),
      ReaderInv r os →
      ∃ (c : Nat) (r' : KSBufferedReader) (os' : ReadOS),
        ReaderInv r' os' ∧ r'.bufferLength = r.bufferLength ∧ os'.file = os.file ∧
        consumed r' os' = consumed r os + c ∧ c ≤ R.toNat ∧
        c ≤ os.file.length - consumed r os ∧
        (∀ res, readBufferedLoop oracle fuel r os dst R bc = some res →
          res = (bc + c, dst ++ (os.file.drop (consumed r os)).take c, r', os')) ∧
        (R.toNat ≤ fuel →
          readBufferedLoop oracle fuel r os dst R bc =
            some (bc + c, dst ++ (os.file.drop (consumed r os)).take c, r', os') ∧
          ((∀ i n, 0 < oracle i n) → 0 < r.bufferLength →
            c = min R.toNat (os.file.length - consumed r os))) := by
  intro fuel
  induction fuel with
  | zero =>
    intro r os dst R bc hinv
    by_cases hRpos : R > 0
    · have hrun : readBufferedLoop oracle 0 r os dst R bc = none := by
        rw [readBufferedLoop, if_pos hRpos]
      exact ⟨0, r, os, hinv, rfl, rfl, rfl, by omega, by omega,
        fun res h => (by rw [hrun] at h; cases h), fun hb => (by omega)⟩
    · have hrun : readBufferedLoop oracle 0 r os dst R bc =
          some (bc + (0 : Nat), dst ++ (os.file.drop (consumed r os)).take 0, r, os) := by
        rw [readBufferedLoop, if_neg hRpos]
        simp
      exact ⟨0, r, os, hinv, rfl, rfl, rfl, by omega, by omega,
        fun res h => (by rw [hrun] at h; exact (Option.some.inj h).symm),
        fun _ => ⟨hrun, fun _ _ => by omega⟩⟩
  | succ fuel ih =>
    intro r os dst R bc hinv
    by_cases hRpos : R > 0
    swap
    · have hrun : readBufferedLoop oracle (fuel + 1) r os dst R bc =
          some (bc + (0 : Nat), dst ++ (os.file.drop (consumed r os)).take 0, r, os) := by
        rw [readBufferedLoop, if_neg hRpos]
        simp
      exact ⟨0, r, os, hinv, rfl, rfl, rfl, by omega, by omega,
        fun res h => (by rw [hrun] at h; exact (Option.some.inj h).symm),
        fun _ => ⟨hrun, fun _ _ => by omega⟩⟩
    -- the state after the optional refill
    obtain ⟨ok, r1, os1, hfilled, hinv1, hcons1, hfile1, hcap1, hgood⟩ :
        ∃ (ok : Bool) (r1 : KSBufferedReader) (os1 : ReadOS),
          (if r.dataEndPos - r.dataStartPos ≤ 0 then fillReadBuffer oracle r os
            else (true, r, os)) = (ok, r1, os1) ∧
          ReaderInv r1 os1 ∧ consumed r1 os1 = consumed r os ∧ os1.file = os.file ∧
          r1.bufferLength = r.bufferLength ∧
          ((∀ i c, 0 < oracle i c) → ok = true ∧
            (0 < r.bufferLength → r1.dataEndPos - r1.dataStartPos ≤ 0 →
              os.file.length ≤ consumed r os)) := by
      by_cases hw : r.dataEndPos - r.dataStartPos ≤ 0
      · have hemp : r.dataStartPos = r.dataEndPos := by
          have := hinv.start_le_end; omega
        obtain ⟨a, b, c, d, e⟩ := fillReadBuffer_empty_inv oracle r os hinv hemp
        exact ⟨_, _, _, by rw [if_pos hw], a, b, c, d, e⟩
      · exact ⟨true, r, os, by rw [if_neg hw], hinv, rfl, rfl, rfl,
          fun _ => ⟨rfl, fun _ h => absurd h hw⟩⟩
    have hcle : consumed r os ≤ os.file.length := by
      have h1 := hinv.offset_le
      simp only [consumed]; omega
    by_cases hok : ok = false
    · have hrun : readBufferedLoop oracle (fuel + 1) r os dst R bc =
          some (bc + (0 : Nat), dst ++ (os.file.drop (consumed r os)).take 0, r1, os1) := by
        rw [readBufferedLoop, if_pos hRpos]
        simp only [hfilled, hok, if_true]
        simp
      refine ⟨0, r1, os1, hinv1, hcap1, hfile1, by omega, by omega, by omega,
        fun res h => (by rw [hrun] at h; exact (Option.some.inj h).symm),
        fun _ => ⟨hrun, ?_⟩⟩
      intro hor _
      have := (hgood hor).1
      simp [hok] at this
    have hokt : ok = true := by simpa using hok
    subst hokt
    by_cases hw1 : r1.dataEndPos - r1.dataStartPos ≤ 0
    · have hrun : readBufferedLoop oracle (fuel + 1) r os dst R bc =
          some (bc + (0 : Nat), dst ++ (os.file.drop (consumed r os)).take 0, r1, os1) := by
        rw [readBufferedLoop, if_pos hRpos]
        simp only [hfilled, if_pos hw1]
        simp
      refine ⟨0, r1, os1, hinv1, hcap1, hfile1, by omega, by omega, by omega,
        fun res h => (by rw [hrun] at h; exact (Option.some.inj h).symm),
        fun _ => ⟨hrun, ?_⟩⟩
      intro hor hcappos
      have := (hgood hor).2 hcappos hw1
      omega
    -- the copy
    obtain ⟨k, hk, hk1, hkR, hkw⟩ : ∃ k : Nat,
        (if r1.dataEndPos - r1.dataStartPos ≤ R then r1.dataEndPos - r1.dataStartPos else R) =
          (k : Int) ∧ 1 ≤ k ∧ (k : Int) ≤ R ∧ (k : Int) ≤ r1.dataEndPos - r1.dataStartPos := by
      by_cases hle : r1.dataEndPos - r1.dataStartPos ≤ R
      · exact ⟨(r1.dataEndPos - r1.dataStartPos).toNat, by rw [if_pos hle]; omega, by omega,
          by omega, by omega⟩
      · exact ⟨R.toNat, by rw [if_neg hle]; omega, by omega, by omega, by omega⟩
    obtain ⟨hinv2, hcons2, hcopied⟩ := hinv1.advance k hkw
    have hkF : consumed r os + k ≤ os.file.length := by
      have h1 := hinv1.offset_le
      have h2 := hinv1.window_le
      rw [hfile1] at h1
      rw [← hcons1]
      simp only [consumed]
      omega
    obtain ⟨c2, r', os', hinv', hcap', hfile', hcons', hc2R, hc2F, hpart, htot⟩ :=
      ih { r1 with dataStartPos := r1.dataStartPos + (k : Int) } os1
        (dst ++ readMem r1.buffer r1.dataStartPos.toNat k) (R - k) (bc + k) hinv2
    have hstep : readBufferedLoop oracle (fuel + 1) r os dst R bc =
        readBufferedLoop oracle fuel { r1 with dataStartPos := r1.dataStartPos + (k : Int) } os1
          (dst ++ readMem r1.buffer r1.dataStartPos.toNat k) (R - k) (bc + k) := by
      rw [readBufferedLoop, if_pos hRpos]
      simp only [hfilled, if_neg hw1, hk, Int.toNat_ofNat, Bool.true_eq_false, ↓reduceIte]
    have hres : ((bc + (k : Int) + (c2 : Int),
        (dst ++ readMem r1.buffer r1.dataStartPos.toNat k) ++
          (os1.file.drop
            (consumed { r1 with dataStartPos := r1.dataStartPos + (k : Int) } os1)).take c2,
        r', os') : Int × List Byte × KSBufferedReader × ReadOS) =
        (bc + ((k + c2 : Nat) : Int),
          dst ++ (os.file.drop (consumed r os)).take (k + c2), r', os') := by
      rw [hcopied, hcons2, hfile1, hcons1]
      have htk : (os.file.drop (consumed r os)).take (k + c2) =
          (os.file.drop (consumed r os)).take k ++
            (os.file.drop (consumed r os + k)).take c2 := by
        rw [List.take_add, List.drop_drop]
      have harith : bc + (k : Int) + (c2 : Int) = bc + ((k + c2 : Nat) : Int) := by
        push_cast; omega
      rw [htk, harith, List.append_assoc]
    rw [hcons2, hfile1, hcons1] at hc2F
    refine ⟨k + c2, r', os', hinv', by rw [hcap']; exact hcap1, by rw [hfile', hfile1],
      by rw [hcons', hcons2, hcons1]; omega, by omega, by omega, ?_, ?_⟩
    · intro res h
      rw [hstep] at h
      rw [hpart res h, hres]
    · intro hb
      obtain ⟨hrun, hmin⟩ := htot (by omega)
      refine ⟨by rw [hstep, hrun, hres], ?_⟩
      intro hor hcappos
      have := hmin hor (by simpa [hcap1] using hcappos)
      rw [hcons2, hfile1, hcons1] at this
      omega

/-- What `strchr` finds in a string whose NUL is at offset `n`, inside the scanned range:
either the first byte equal to `c`, no NUL coming before it, or `NULL`, no byte up to the
first NUL being equal to `c`. -/
theorem strchrScan_spec (m : Mem) (start : Nat) (c : Byte) :
    ∀ (limit i n : Nat), i ≤ n → n < i + limit → m (start + n) = 0 →
      (∃ j, i ≤ j ∧ j ≤ n ∧ strchrScan m start c limit i = some (some j) ∧
        m (start + j) = c ∧ ∀ t, i ≤ t → t < j → m (start + t) ≠ c ∧ m (start + t) ≠ 0) ∨
      (∃ z, i ≤ z ∧ z ≤ n ∧ strchrScan m start c limit i = some none ∧
        m (start + z) = 0 ∧ ∀ t, i ≤ t → t ≤ z → m (start + t) ≠ c) := by
  intro limit
  induction limit with
  | zero => intro i n h1 h2; omega
  | succ limit ih =>
    intro i n h1 h2 hn
    by_cases hc : m (start + i) = c
    · left
      exact ⟨i, le_refl _, h1, by rw [strchrScan, if_pos hc], hc, fun t ht1 ht2 => (by omega)⟩
    · by_cases hz : m (start + i) = 0
      · right
        refine ⟨i, le_refl _, h1, by rw [strchrScan, if_neg hc, if_pos hz], hz,
          fun t ht1 ht2 => ?_⟩
        have : t = i := by omega
        rw [this]; exact hc
      · have hne : i ≠ n := fun h => hz (by rw [h]; exact hn)
        have hstep : strchrScan m start c (limit + 1) i = strchrScan m start c limit (i + 1) := by
          rw [strchrScan, if_neg hc, if_neg hz]
        rcases ih (i + 1) n (by omega) (by omega) hn with
          ⟨j, hj1, hj2, hrun, hjc, hbefore⟩ | ⟨z, hz1, hz2, hrun, hzz, hbefore⟩
        · left
          refine ⟨j, by omega, hj2, by rw [hstep, hrun], hjc, fun t ht1 ht2 => ?_⟩
          by_cases hti : t = i
          · rw [hti]; exact ⟨hc, hz⟩
          · exact hbefore t (by omega) ht2
        · right
          refine ⟨z, by omega, hz2, by rw [hstep, hrun], hzz, fun t ht1 ht2 => ?_⟩
          by_cases hti : t = i
          · rw [hti]; exact hc
          · exact hbefore t (by omega) ht2

/-- Under the invariant the bytes of the window are the first unread bytes of the file. -/
theorem ReaderInv.window_get {r : KSBufferedReader} {os : ReadOS} (h : ReaderInv r os)
    (j : Nat) (hj : (j : Int) < r.dataEndPos - r.dataStartPos) :
    (os.file.drop (consumed r os))[j]? = some (r.buffer (r.dataStartPos.toNat + j)) := by
  have hjw : j < (r.dataEndPos - r.dataStartPos).toNat := by omega
  have h1 : (readMem r.buffer r.dataStartPos.toNat (r.dataEndPos - r.dataStartPos).toNat)[j]? =
      some (r.buffer (r.dataStartPos.toNat + j)) := by
    simp [readMem, hjw]
  rw [h.window_eq, List.getElem?_take_of_lt hjw] at h1
  exact h1

/-- The loop of `ksfu_readBufferedReaderUntilChar`, from any state satisfying the invariant
and for any behaviour of `read`: whatever it returns hands out the next `c` bytes of the
file for some `c ≤ bytesRemaining` and keeps the invariant; with `bytesRemaining + 1` units
of fuel it does return.  When moreover `read` never fails, the buffer has room for at least
one byte and the delimiter is not NUL: if the delimiter first occurs at offset
`k0 < bytesRemaining` of the unread bytes, no NUL coming before it, the result is true
and `c = k0 + 1`; if it does not occur among the first `bytesRemaining + bufferLength`
unread bytes, the result is false and `c` is all that was asked for or all that is
left. -/
theorem readUntilCharLoop_spec (oracle : Nat → Nat → Int) (ch : Int) :
    ∀ (fuel : Nat) (r : KSBufferedReader) (os : ReadOS) (dst : List Byte) (R bc : Int),
      ReaderInv r os →
      ∃ (b : Bool) (c : Nat) (r' : KSBufferedReader) (os' : ReadOS),
        ReaderInv r' os' ∧ r'.bufferLength = r.bufferLength ∧ os'.file = os.file ∧
        consumed r' os' = consumed r os + c ∧ c ≤ R.toNat ∧
        c ≤ os.file.length - consumed r os ∧
        (∀ res, readUntilCharLoop oracle ch fuel r os dst R bc = some res →
          res = (b, dst ++ (os.file.drop (consumed r os)).take c, bc + c, r', os')) ∧
        (R.toNat + (if r.dataEndPos - r.dataStartPos ≤ 0 then 1 else 0) ≤ fuel →
          readUntilCharLoop oracle ch fuel r os dst R bc =
            some (b, dst ++ (os.file.drop (consumed r os)).take c, bc + c, r', os') ∧
          ((∀ i n, 0 < oracle i n) → 0 < r.bufferLength → toChar ch ≠ 0 →
            (∀ k0 : Nat, (k0 : Int) < R →
              (os.file.drop (consumed r os))[k0]? = some (toChar ch) →
              (∀ i, i < k0 → (os.file.drop (consumed r os))[i]? ≠ some (toChar ch) ∧
                (os.file.drop (consumed r os))[i]? ≠ some 0) →
              b = true ∧ c = k0 + 1) ∧
            ((∀ i : Nat, (i : Int) < R + r.bufferLength →
                (os.file.drop (consumed r os))[i]? ≠ some (toChar ch)) →
              b = false ∧ c = min R.toNat (os.file.length - consumed r os)))) := by
  intro fuel
  induction fuel with
  | zero =>
    intro r os dst R bc hinv
    by_cases hRpos : R > 0
    · have hrun : readUntilCharLoop oracle ch 0 r os dst R bc = none := by
        rw [readUntilCharLoop, if_pos hRpos]
      exact ⟨false, 0, r, os, hinv, rfl, rfl, rfl, by omega, by omega,
        fun res h => (by rw [hrun] at h; cases h), fun hb => (by split at hb <;> omega)⟩
    · have hrun : readUntilCharLoop oracle ch 0 r os dst R bc =
          some (false, dst ++ (os.file.drop (consumed r os)).take 0, bc + (0 : Nat), r, os) := by
        rw [readUntilCharLoop, if_neg hRpos]
        simp
      refine ⟨false, 0, r, os, hinv, rfl, rfl, rfl, by omega, by omega,
        fun res h => (by rw [hrun] at h; exact (Option.some.inj h).symm),
        fun _ => ⟨hrun, fun _ _ _ => ⟨fun k0 hk0 _ _ => (by omega), fun _ => ⟨rfl, by omega⟩⟩⟩⟩
  | succ fuel ih =>
    intro r os dst R bc hinv
    by_cases hRpos : R > 0
    swap
    · have hrun : readUntilCharLoop oracle ch (fuel + 1) r os dst R bc =
          some (false, dst ++ (os.file.drop (consumed r os)).take 0, bc + (0 : Nat), r, os) := by
        rw [readUntilCharLoop, if_neg hRpos]
        simp
      refine ⟨false, 0, r, os, hinv, rfl, rfl, rfl, by omega, by omega,
        fun res h => (by rw [hrun] at h; exact (Option.some.inj h).symm),
        fun _ => ⟨hrun, fun _ _ _ => ⟨fun k0 hk0 _ _ => (by omega), fun _ => ⟨rfl, by omega⟩⟩⟩⟩
    have h0 := hinv.start_nonneg
    have hse := hinv.start_le_end
    have hec := hinv.end_le_cap
    have hterm := hinv.terminated
    have hwl := hinv.window_le
    have hol := hinv.offset_le
    obtain ⟨w, hw⟩ : ∃ w : Nat, (w : Int) = r.dataEndPos - r.dataStartPos :=
      ⟨(r.dataEndPos - r.dataStartPos).toNat, by omega⟩
    have hwF : w ≤ os.file.length - consumed r os := by
      simp only [consumed]; omega
    obtain ⟨k, hkdef⟩ : ∃ k : Nat, k = min w R.toNat := ⟨_, rfl⟩
    have hcopy0 : (if r.dataEndPos - r.dataStartPos ≤ R then r.dataEndPos - r.dataStartPos
        else R) = (k : Int) := by
      split <;> omega
    have hscan := strchrScan_spec r.buffer r.dataStartPos.toNat (toChar ch)
      ((r.bufferLength + 1).toNat - r.dataStartPos.toNat) 0 w (Nat.zero_le _) (by omega)
      (by
        have : r.dataStartPos.toNat + w = r.dataEndPos.toNat := by omega
        rw [this]; exact hterm)
    rcases hscan with ⟨j, _, hjw, hrunS, hjc, hbefore⟩ | ⟨z, _, hzw, hrunS, hzz, hbefore⟩
    · -- the delimiter is in the string at the window
      obtain ⟨q, hqdef⟩ : ∃ q : Nat, q = min (j + 1) k := ⟨_, rfl⟩
      have hk : (if (j : Int) + 1 < (k : Int) then (j : Int) + 1 else (k : Int)) = (q : Int) := by
        split <;> omega
      obtain ⟨hinv2, hcons2, hcopied⟩ := hinv.advance q (by omega)
      have hrun : readUntilCharLoop oracle ch (fuel + 1) r os dst R bc =
          some (true, dst ++ (os.file.drop (consumed r os)).take q, bc + (q : Int),
            { r with dataStartPos := r.dataStartPos + (q : Int) }, os) := by
        rw [readUntilCharLoop, if_pos hRpos]
        simp only [strchr, hrunS, hcopy0, hk, Option.isSome_some, Int.toNat_ofNat, if_true,
          hcopied]
      have hjne : toChar ch ≠ 0 → j < w := by
        intro hne
        by_contra hge
        have : r.dataStartPos.toNat + j = r.dataEndPos.toNat := by omega
        rw [this, hterm] at hjc
        exact hne hjc.symm
      refine ⟨true, q, _, os, hinv2, rfl, rfl, hcons2, by omega,
        by omega, fun res h => (by rw [hrun] at h; exact (Option.some.inj h).symm),
        fun _ => ⟨hrun, fun _ _ hne => ⟨fun k0 hk0 hat hfirst => ?_, fun hnone => ?_⟩⟩⟩
      · refine ⟨rfl, ?_⟩
        have hjlt := hjne hne
        have hsj := hinv.window_get j (by omega)
        rw [hjc] at hsj
        have hjk : j = k0 := by
          rcases Nat.lt_trichotomy j k0 with h | h | h
          · exact absurd hsj (hfirst j h).1
          · exact h
          · exfalso
            have hs := hinv.window_get k0 (by omega)
            rw [hat] at hs
            exact (hbefore k0 (Nat.zero_le _) h).1 (Option.some.inj hs).symm
        omega
      · exfalso
        have hjlt := hjne hne
        have hsj := hinv.window_get j (by omega)
        rw [hjc] at hsj
        exact hnone j (by omega) hsj
    · -- `strchr` returns NULL
      obtain ⟨hinv2, hcons2, hcopied⟩ := hinv.advance k (by omega)
      -- a first occurrence of the delimiter with no NUL before it lies beyond the window
      have hbeyond : ∀ k0 : Nat, (os.file.drop (consumed r os))[k0]? = some (toChar ch) →
          (∀ i, i < k0 → (os.file.drop (consumed r os))[i]? ≠ some (toChar ch) ∧
            (os.file.drop (consumed r os))[i]? ≠ some 0) → w ≤ k0 := by
        intro k0 hat hfirst
        by_contra hlt
        have hs := hinv.window_get k0 (by omega)
        rw [hat] at hs
        have hzk : z < k0 := by
          by_contra hge
          exact (hbefore k0 (Nat.zero_le _) (by omega)) (Option.some.inj hs).symm
        have hsz := hinv.window_get z (by omega)
        rw [hzz] at hsz
        exact (hfirst z hzk).2 hsz
      by_cases hrem : R - (k : Int) > 0
      · -- the window is used up and more is wanted: refill
        have hkw : k = w := by omega
        subst hkw
        have hemp1 : ({ r with dataStartPos := r.dataStartPos + (k : Int) } :
            KSBufferedReader).dataStartPos =
            ({ r with dataStartPos := r.dataStartPos + (k : Int) } :
              KSBufferedReader).dataEndPos := by
          simp only; omega
        obtain ⟨hinv3, hcons3, hfile3, hcap3, hgood⟩ := fillReadBuffer_empty_inv oracle
          { r with dataStartPos := r.dataStartPos + (k : Int) } os hinv2 hemp1
        rw [hcons2] at hcons3
        simp only at hcap3
        generalize hfill : fillReadBuffer oracle
          { r with dataStartPos := r.dataStartPos + (k : Int) } os = filled at *
        by_cases hemp : isReadBufferEmpty filled.2.1 = true
        · have hrun : readUntilCharLoop oracle ch (fuel + 1) r os dst R bc =
              some (false, dst ++ (os.file.drop (consumed r os)).take k, bc + (k : Int),
                filled.2.1, filled.2.2) := by
            rw [readUntilCharLoop, if_pos hRpos]
            simp only [strchr, hrunS, hcopy0, Option.isSome_none, Int.toNat_ofNat,
              Bool.false_eq_true, if_false, if_pos hrem, hfill, hemp, if_true, hcopied]
          have hwempty : filled.2.1.dataEndPos - filled.2.1.dataStartPos ≤ 0 := by
            simp only [isReadBufferEmpty, beq_iff_eq] at hemp
            omega
          refine ⟨false, k, _, _, hinv3, hcap3, hfile3, hcons3, by omega, by omega,
            fun res h => (by rw [hrun] at h; exact (Option.some.inj h).symm),
            fun _ => ⟨hrun, fun hor hcappos hne =>
              ⟨fun k0 hk0 hat hfirst => ?_, fun hnone => ⟨rfl, ?_⟩⟩⟩⟩
          · exfalso
            have hwk := hbeyond k0 hat hfirst
            have hF := (hgood hor).2 hcappos hwempty
            rw [hcons2] at hF
            have hlt : k0 < (os.file.drop (consumed r os)).length := by
              by_contra hge
              rw [List.getElem?_eq_none (by omega)] at hat
              cases hat
            rw [List.length_drop] at hlt
            omega
          · have hF := (hgood hor).2 hcappos hwempty
            rw [hcons2] at hF
            omega
        · -- the refill brought bytes: next iteration
          have hnonempty : ¬ (filled.2.1.dataEndPos - filled.2.1.dataStartPos ≤ 0) := by
            have hs3 := hinv3.start_le_end
            simp only [isReadBufferEmpty, beq_iff_eq] at hemp
            omega
          obtain ⟨b2, c2, r', os', hinv', hcap', hfile', hcons', hc2R, hc2F, hpart, htot⟩ :=
            ih filled.2.1 filled.2.2 (dst ++ (os.file.drop (consumed r os)).take k)
              (R - (k : Int)) (bc + (k : Int)) hinv3
          rw [hcons3, hfile3] at hpart htot hc2F
          rw [hcons3] at hcons'
          have hstep : readUntilCharLoop oracle ch (fuel + 1) r os dst R bc =
              readUntilCharLoop oracle ch fuel filled.2.1 filled.2.2
                (dst ++ (os.file.drop (consumed r os)).take k)
                (R - (k : Int)) (bc + (k : Int)) := by
            rw [readUntilCharLoop, if_pos hRpos]
            simp only [strchr, hrunS, hcopy0, Option.isSome_none, Int.toNat_ofNat,
              Bool.false_eq_true, if_false, if_pos hrem, hfill, hemp, hcopied]
          have hres : ((b2, (dst ++ (os.file.drop (consumed r os)).take k) ++
              (os.file.drop (consumed r os + k)).take c2, bc + (k : Int) + (c2 : Int), r', os') :
                Bool × List Byte × Int × KSBufferedReader × ReadOS) =
              (b2, dst ++ (os.file.drop (consumed r os)).take (k + c2),
                bc + ((k + c2 : Nat) : Int), r', os') := by
            have htk : (os.file.drop (consumed r os)).take (k + c2) =
                (os.file.drop (consumed r os)).take k ++
                  (os.file.drop (consumed r os + k)).take c2 := by
              rw [List.take_add, List.drop_drop]
            have harith : bc + (k : Int) + (c2 : Int) = bc + ((k + c2 : Nat) : Int) := by
              push_cast; omega
            rw [htk, harith, List.append_assoc]
          have hshift : ∀ i : Nat, (os.file.drop (consumed r os + k))[i]? =
              (os.file.drop (consumed r os))[k + i]? := by
            intro i
            rw [← List.drop_drop, List.getElem?_drop]
          refine ⟨b2, k + c2, r', os', hinv', by rw [hcap', hcap3], by rw [hfile', hfile3],
            by rw [hcons']; omega, by omega, by omega, ?_, ?_⟩
          · intro res h
            rw [hstep] at h
            rw [hpart res h, hres]
          · intro hb
            have hb2 : (R - (k : Int)).toNat +
                (if filled.2.1.dataEndPos - filled.2.1.dataStartPos ≤ 0 then 1 else 0) ≤
                  fuel := by
              rw [if_neg hnonempty]
              split at hb <;> omega
            obtain ⟨hrun2, hspec2⟩ := htot hb2
            refine ⟨by rw [hstep, hrun2, hres], fun hor hcappos hne => ?_⟩
            obtain ⟨hfound2, hnot2⟩ := hspec2 hor (by rw [hcap3]; exact hcappos) hne
            refine ⟨fun k0 hk0 hat hfirst => ?_, fun hnone => ?_⟩
            · have hwk := hbeyond k0 hat hfirst
              have := hfound2 (k0 - k) (by omega)
                (by rw [hshift]; rw [show k + (k0 - k) = k0 from by omega]; exact hat)
                (fun i hi => by
                  rw [hshift]
                  exact hfirst (k + i) (by omega))
              exact ⟨this.1, by omega⟩
            · have := hnot2 (fun i hi => by
                rw [hshift]
                exact hnone (k + i) (by rw [hcap3] at hi; push_cast; omega))
              exact ⟨this.1, by omega⟩
      · -- the bound is reached
        have hrun : readUntilCharLoop oracle ch (fuel + 1) r os dst R bc =
            some (false, dst ++ (os.file.drop (consumed r os)).take k, bc + (k : Int),
              { r with dataStartPos := r.dataStartPos + (k : Int) }, os) := by
          rw [readUntilCharLoop, if_pos hRpos]
          simp only [strchr, hrunS, hcopy0, Option.isSome_none, Int.toNat_ofNat,
            Bool.false_eq_true, if_false, if_neg hrem, hcopied]
        refine ⟨false, k, _, os, hinv2, rfl, rfl, hcons2, by omega, by omega,
          fun res h => (by rw [hrun] at h; exact (Option.some.inj h).symm),
          fun _ => ⟨hrun, fun hor hcappos hne =>
            ⟨fun k0 hk0 hat hfirst => ?_, fun hnone => ⟨rfl, by omega⟩⟩⟩⟩
        exfalso
        have hwk := hbeyond k0 hat hfirst
        omega

/-- A successful `ksfu_openBufferedReader` establishes the invariant, nothing consumed. -/
theorem ksfu_openBufferedReader_inv (oracle : Nat → Nat → Int) (readBuffer : Mem)
    (readBufferLength : Int) (fd : Int) (file : List Byte)
    (h1 : 1 ≤ readBufferLength) (hfd : 0 ≤ fd) :
    ReaderInv
      (ksfu_openBufferedReader oracle readBuffer readBufferLength fd ⟨file, 0, []⟩).2.1
      (ksfu_openBufferedReader oracle readBuffer readBufferLength fd ⟨file, 0, []⟩).2.2 ∧
    consumed
      (ksfu_openBufferedReader oracle readBuffer readBufferLength fd ⟨file, 0, []⟩).2.1
      (ksfu_openBufferedReader oracle readBuffer readBufferLength fd ⟨file, 0, []⟩).2.2 = 0 ∧
    (ksfu_openBufferedReader oracle readBuffer readBufferLength fd ⟨file, 0, []⟩).2.2.file =
      file ∧
    (ksfu_openBufferedReader oracle readBuffer readBufferLength fd ⟨file, 0, []⟩).2.1.bufferLength =
      readBufferLength - 1 := by
  have hinv0 : ReaderInv
      { buffer := setByte (setByte readBuffer 0 0) (readBufferLength - 1).toNat 0,
        bufferLength := readBufferLength - 1, dataStartPos := 0, dataEndPos := 0, fd := fd }
      ⟨file, 0, []⟩ := by
    refine ⟨le_refl _, le_refl _, by simp; omega, ?_, by simp, by simp, by simp [readMem]⟩
    simp only [Int.toNat_zero, setByte]
    split <;> simp
  obtain ⟨a, b, c, d, _⟩ := fillReadBuffer_empty_inv oracle _ _ hinv0 rfl
  have hnot : ¬ fd < 0 := by omega
  simp only [ksfu_openBufferedReader, if_neg hnot]
  exact ⟨a, by rw [b]; simp [consumed], c, d⟩

/-- Every reachable reader state satisfies the invariant; its descriptor still holds the
file it was opened on, and the bytes handed out so far are the first `p` bytes of it. -/
theorem ReaderReachable.inv {oracle : Nat → Nat → Int} {file : List Byte} {p : Nat}
    {r : KSBufferedReader} {os : ReadOS} (h : ReaderReachable oracle file p r os) :
    ReaderInv r os ∧ consumed r os = p ∧ os.file = file := by
  induction h with
  | opened readBuffer readBufferLength fd h1 hfd =>
    obtain ⟨a, b, c, _⟩ := ksfu_openBufferedReader_inv oracle readBuffer readBufferLength fd
      file h1 hfd
    exact ⟨a, b, c⟩
  | afterRead p reader os fuel byteCount res _ hrun ih =>
    obtain ⟨hinv, hcons, hfile⟩ := ih
    obtain ⟨c, r', os', hinv', _, hfile', hcons', _, _, hpart, _⟩ :=
      readBufferedLoop_spec oracle fuel reader os [] byteCount 0 hinv
    have hres := hpart res hrun
    subst hres
    refine ⟨hinv', ?_, by rw [hfile', hfile]⟩
    simp only [hcons', hcons]
    omega
  | afterReadUntilChar p reader os fuel ch length res _ hrun ih =>
    obtain ⟨hinv, hcons, hfile⟩ := ih
    obtain ⟨b, c, r', os', hinv', _, hfile', hcons', _, _, hpart, _⟩ :=
      readUntilCharLoop_spec oracle ch fuel reader os [] length 0 hinv
    have hres := hpart res hrun
    subst hres
    refine ⟨hinv', ?_, by rw [hfile', hfile]⟩
    simp only [hcons', hcons]
    omega

/-- C4 (amended): for a reader opened on a file with contents `file`, in any state reached by
prior reader calls that handed out `p` bytes, when `read` never fails (and returns 0 only at
end of file) and the usable capacity `bufferLength = readBufferLength - 1` is at least
one byte, `ksfu_readBufferedReader` with byte count `n` returns `c = min n (|file| - p)`,
stores `file[p .. p + c)` in `dstBuffer` and leaves the reader having handed out `p + c`
bytes; what has been handed out up to and including this call is the prefix of `file` of
length `p + c`. -/
theorem readBufferedReader_returns_next_bytes (oracle : Nat → Nat → Int) (file : List Byte)
    (p : Nat) (r : KSBufferedReader) (os : ReadOS)
    (hreach : ReaderReachable oracle file p r os)
    (hor : ∀ i n, 0 < oracle i n) (hcap : 0 < r.bufferLength)
    (n : Int) (fuel : Nat) (hfuel : n.toNat ≤ fuel) :
    ∃ r' os',
      ksfu_readBufferedReader oracle fuel r os n =
        some (((min n.toNat (file.length - p) : Nat) : Int),
          (file.drop p).take (min n.toNat (file.length - p)), r', os') ∧
      ReaderReachable oracle file (p + min n.toNat (file.length - p)) r' os' ∧
      file.take p ++ (file.drop p).take (min n.toNat (file.length - p)) =
        file.take (p + min n.toNat (file.length - p)) := by
  obtain ⟨hinv, hcons, hfile⟩ := hreach.inv
  obtain ⟨c, r', os', _, _, _, _, _, _, _, htot⟩ :=
    readBufferedLoop_spec oracle fuel r os [] n 0 hinv
  obtain ⟨hrun, hmin⟩ := htot hfuel
  have hc := hmin hor hcap
  rw [hcons, hfile] at hc hrun
  subst hc
  have hrun' : ksfu_readBufferedReader oracle fuel r os n =
      some (((min n.toNat (file.length - p) : Nat) : Int),
        (file.drop p).take (min n.toNat (file.length - p)), r', os') := by
    rw [ksfu_readBufferedReader, hrun]
    simp
  refine ⟨r', os', hrun', ?_, ?_⟩
  · have h := ReaderReachable.afterRead p r os fuel n _ hreach hrun'
    simp only [Int.toNat_ofNat] at h
    exact h
  · rw [List.take_add]

/-- C2 (amended): for a reader opened on a file without NUL bytes, in any state reached by
prior reader calls that handed out `p` bytes, when `read` never fails (and returns 0 only at
end of file) and the usable capacity `bufferLength` is at least one byte: if the first
occurrence of the delimiter (as `strchr` sees it, converted to `char`) among the unread
bytes `file[p ..]` is at offset `k < L`, then `ksfu_readBufferedReaderUntilChar` with
`*length = L` returns true, stores the `k + 1` bytes up to and including the delimiter,
sets `*length = k + 1`, and the reader has advanced by exactly `k + 1` bytes. -/
theorem readUntilChar_found (oracle : Nat → Nat → Int) (file : List Byte)
    (p : Nat) (r : KSBufferedReader) (os : ReadOS)
    (hreach : ReaderReachable oracle file p r os)
    (hor : ∀ i n, 0 < oracle i n) (hcap : 0 < r.bufferLength)
    (hnul : ∀ b ∈ file, b ≠ 0) (ch : Int) (L : Int) (k : Nat) (hk : (k : Int) < L)
    (hat : (file.drop p)[k]? = some (toChar ch))
    (hfirst : ∀ i, i < k → (file.drop p)[i]? ≠ some (toChar ch))
    (fuel : Nat) (hfuel : L.toNat + 1 ≤ fuel) :
    ∃ r' os',
      ksfu_readBufferedReaderUntilChar oracle fuel r os ch L =
        some (true, (file.drop p).take (k + 1), (k : Int) + 1, r', os') ∧
      ReaderReachable oracle file (p + (k + 1)) r' os' ∧
      unread r' os' = file.drop (p + (k + 1)) := by
  obtain ⟨hinv, hcons, hfile⟩ := hreach.inv
  have hnz : ∀ i : Nat, (file.drop p)[i]? ≠ some 0 := by
    intro i hi
    have hmem : (0 : Byte) ∈ file.drop p := List.getElem?_mem hi
    exact hnul 0 (List.mem_of_mem_drop hmem) rfl
  have hch : toChar ch ≠ 0 := by
    intro h0
    rw [h0] at hat
    exact hnz k hat
  obtain ⟨b, c, r', os', _, _, _, _, _, _, _, htot⟩ :=
    readUntilCharLoop_spec oracle ch fuel r os [] L 0 hinv
  obtain ⟨hrun, hspec⟩ := htot (by split <;> omega)
  rw [hcons, hfile] at hrun hspec
  obtain ⟨hb, hc⟩ := (hspec hor hcap hch).1 k hk hat (fun i hi => ⟨hfirst i hi, hnz i⟩)
  subst hb hc
  have hrun' : ksfu_readBufferedReaderUntilChar oracle fuel r os ch L =
      some (true, (file.drop p).take (k + 1), (k : Int) + 1, r', os') := by
    rw [ksfu_readBufferedReaderUntilChar, hrun]
    simp
  have hreach' : ReaderReachable oracle file (p + (k + 1)) r' os' := by
    have := ReaderReachable.afterReadUntilChar p r os fuel ch L _ hreach hrun'
    have hcast : ((k : Int) + 1).toNat = k + 1 := by omega
    simpa [hcast] using this
  refine ⟨r', os', hrun', hreach', ?_⟩
  obtain ⟨hinv', hcons', hfile'⟩ := hreach'.inv
  rw [hinv'.unread_eq, hcons', hfile']

/-- The not-found case with the delimiter out of reach of the window: for a reader in any
state reached from `ksfu_openBufferedReader` by prior
reader calls that handed out `p` bytes, when `read` never fails (and returns 0 only at end
of file), the usable capacity `bufferLength` is at least one byte and the delimiter
(converted to `char`) is not NUL: if the delimiter does not occur among the first
`L + bufferLength` unread bytes, `ksfu_readBufferedReaderUntilChar` with `*length = L`
returns false, stores the `min L (|file| - p)` next bytes of the file and sets `*length` to
that count. -/
theorem readUntilChar_not_found (oracle : Nat → Nat → Int) (file : List Byte)
    (p : Nat) (r : KSBufferedReader) (os : ReadOS)
    (hreach : ReaderReachable oracle file p r os)
    (hor : ∀ i n, 0 < oracle i n) (hcap : 0 < r.bufferLength)
    (ch : Int) (hch : toChar ch ≠ 0) (L : Int)
    (hnone : ∀ i : Nat, (i : Int) < L + r.bufferLength →
      (file.drop p)[i]? ≠ some (toChar ch))
    (fuel : Nat) (hfuel : L.toNat + 1 ≤ fuel) :
    ∃ r' os',
      ksfu_readBufferedReaderUntilChar oracle fuel r os ch L =
        some (false, (file.drop p).take (min L.toNat (file.length - p)),
          ((min L.toNat (file.length - p) : Nat) : Int), r', os') ∧
      ReaderReachable oracle file (p + min L.toNat (file.length - p)) r' os' := by
  obtain ⟨hinv, hcons, hfile⟩ := hreach.inv
  obtain ⟨b, c, r', os', _, _, _, _, _, _, _, htot⟩ :=
    readUntilCharLoop_spec oracle ch fuel r os [] L 0 hinv
  obtain ⟨hrun, hspec⟩ := htot (by split <;> omega)
  rw [hcons, hfile] at hrun hspec
  obtain ⟨hb, hc⟩ := (hspec hor hcap hch).2 hnone
  subst hb hc
  have hrun' : ksfu_readBufferedReaderUntilChar oracle fuel r os ch L =
      some (false, (file.drop p).take (min L.toNat (file.length - p)),
        ((min L.toNat (file.length - p) : Nat) : Int), r', os') := by
    rw [ksfu_readBufferedReaderUntilChar, hrun]
    simp
  refine ⟨r', os', hrun', ?_⟩
  have h := ReaderReachable.afterReadUntilChar p r os fuel ch L _ hreach hrun'
  simp only [Int.toNat_ofNat] at h
  exact h

/-- C4 at a concrete input: a call on `"abc\ndef"` through a four-byte window, the kernel
handing over three bytes at a time, asked for ten bytes, returns the seven of the file. -/
theorem readBufferedReader_returns_next_bytes_witness :
    ∃ r' os',
      ksfu_readBufferedReader threeAtATime 10 sampleReader sampleReaderOS 10 =
        some (((min (10 : Int).toNat (sampleFile.length - 0) : Nat) : Int),
          (sampleFile.drop 0).take (min (10 : Int).toNat (sampleFile.length - 0)), r', os') ∧
      ReaderReachable threeAtATime sampleFile
        (0 + min (10 : Int).toNat (sampleFile.length - 0)) r' os' ∧
      sampleFile.take 0 ++
          (sampleFile.drop 0).take (min (10 : Int).toNat (sampleFile.length - 0)) =
        sampleFile.take (0 + min (10 : Int).toNat (sampleFile.length - 0)) :=
  readBufferedReader_returns_next_bytes threeAtATime sampleFile 0 sampleReader sampleReaderOS
    (ReaderReachable.opened (fun _ => 7) 5 3 (by decide) (by decide))
    (fun _ _ => (by decide : (0 : Int) < 3)) (by decide) 10 10 (by decide)

/-- C4 fails as stated for a reader without usable capacity: opened on `"abc\ndef"` with a
one-byte buffer, by a kernel that never fails, `ksfu_readBufferedReader` asked for one byte
returns 0 and stores nothing, where the claim promises `min 1 (7 - 0) = 1` byte. -/
theorem readBufferedReader_counterexample :
    ReaderReachable threeAtATime sampleFile 0 oneByteReader oneByteReaderOS ∧
    (∀ i n, 0 < threeAtATime i n) ∧
    (ksfu_readBufferedReader threeAtATime 5 oneByteReader oneByteReaderOS 1).map
      (fun res => (res.1, res.2.1)) = some (0, []) ∧
    min (1 : Int).toNat (sampleFile.length - 0) = 1 :=
  ⟨ReaderReachable.opened (fun _ => 7) 1 3 (by decide) (by decide),
    fun _ _ => (by decide : (0 : Int) < 3), by decide, by decide⟩

/-- C2 at the input of the specification: contents `"abc\ndef"`, delimiter `'\n'`, bound 100,
a four-byte window refilled three bytes at a time: `"abc\n"` and found. -/
theorem readUntilChar_found_witness :
    ∃ r' os',
      ksfu_readBufferedReaderUntilChar threeAtATime 101 sampleReader sampleReaderOS 10 100 =
        some (true, (sampleFile.drop 0).take (3 + 1), ((3 : Nat) : Int) + 1, r', os') ∧
      ReaderReachable threeAtATime sampleFile (0 + (3 + 1)) r' os' ∧
      unread r' os' = sampleFile.drop (0 + (3 + 1)) :=
  readUntilChar_found threeAtATime sampleFile 0 sampleReader sampleReaderOS
    (ReaderReachable.opened (fun _ => 7) 5 3 (by decide) (by decide))
    (fun _ _ => (by decide : (0 : Int) < 3)) (by decide) (by decide) 10 100 3 (by decide)
    (by decide) (by decide) 101 (by decide)

/-- C2 fails as stated in two ways.  A reader opened with a one-byte buffer (no usable
capacity) on `"abc\ndef"`, all reads succeeding, asked for `'\n'` with bound 8, returns
false with nothing stored although the delimiter is at offset 3.  And a reader whose
refills fail returns false as well. -/
theorem readUntilChar_found_counterexample :
    (ReaderReachable threeAtATime sampleFile 0 oneByteReader oneByteReaderOS ∧
      (∀ i n, 0 < threeAtATime i n) ∧ (∀ b ∈ sampleFile, b ≠ 0) ∧
      (sampleFile.drop 0)[3]? = some (toChar 10) ∧
      (∀ i, i < 3 → (sampleFile.drop 0)[i]? ≠ some (toChar 10)) ∧
      (ksfu_readBufferedReaderUntilChar threeAtATime 20 oneByteReader oneByteReaderOS 10 8).map
        (fun res => (res.1, res.2.1, res.2.2.1)) = some (false, [], 0)) ∧
    (ReaderReachable alwaysFailing sampleFile 0 starvedReader starvedReaderOS ∧
      0 < starvedReader.bufferLength ∧
      (ksfu_readBufferedReaderUntilChar alwaysFailing 20 starvedReader starvedReaderOS 10 8).map
        (fun res => (res.1, res.2.1, res.2.2.1)) = some (false, [], 0)) :=
  ⟨⟨ReaderReachable.opened (fun _ => 7) 1 3 (by decide) (by decide),
      fun _ _ => (by decide : (0 : Int) < 3), by decide, by decide, by decide, by decide⟩,
    ⟨ReaderReachable.opened (fun _ => 7) 5 3 (by decide) (by decide), by decide, by decide⟩⟩

/-- The not-found case at a concrete input: `'z'` does not occur in `"abc\ndef"`; with
bound 5 the call
returns false with the five bytes `"abc\nd"`. -/
theorem readUntilChar_not_found_witness :
    ∃ r' os',
      ksfu_readBufferedReaderUntilChar threeAtATime 6 sampleReader sampleReaderOS 122 5 =
        some (false, (sampleFile.drop 0).take (min (5 : Int).toNat (sampleFile.length - 0)),
          ((min (5 : Int).toNat (sampleFile.length - 0) : Nat) : Int), r', os') ∧
      ReaderReachable threeAtATime sampleFile
        (0 + min (5 : Int).toNat (sampleFile.length - 0)) r' os' :=
  readUntilChar_not_found threeAtATime sampleFile 0 sampleReader sampleReaderOS
    (ReaderReachable.opened (fun _ => 7) 5 3 (by decide) (by decide))
    (fun _ _ => (by decide : (0 : Int) < 3)) (by decide) 122 (by decide) 5
    (fun i hi => by
      have hi9 : i < 9 := by
        have : (sampleReader.bufferLength : Int) = 4 := by decide
        omega
      interval_cases i <;> decide)
    6 (by decide)

/-- C3, evaluated: with the whole of `"abc\ndef"` buffered in a nine-byte buffer,
delimiter `'\n'` and bound 2, the delimiter is not among the first 2 unread bytes, yet
`strchr` finds it in the window at offset 3, `bytesToChar = 4` is not below
`bytesToCopy = 2`, and the call returns true with the two bytes `"ab"`, which do not end
with the delimiter.  The claim asks for false. -/
theorem readUntilChar_bound_slip :
    ReaderReachable (fun _ _ => 8) sampleFile 0 wideReader wideReaderOS ∧
    0 < wideReader.bufferLength ∧
    readMem wideReader.buffer wideReader.dataStartPos.toNat 7 = bytesOf "abc\ndef" ∧
    (∀ i, i < 2 → (sampleFile.drop 0)[i]? ≠ some (toChar 10)) ∧
    (ksfu_readBufferedReaderUntilChar (fun _ _ => 8) 20 wideReader wideReaderOS 10 2).map
      (fun res => (res.1, res.2.1, res.2.2.1)) = some (true, bytesOf "ab", 2) ∧
    (bytesOf "ab").getLast? ≠ some (toChar 10) :=
  ⟨ReaderReachable.opened (fun _ => 7) 9 3 (by decide) (by decide), by decide, by decide,
    by decide, by decide, by decide⟩

/-! ### Reading an exact number of bytes -/

/-- The loop of `ksfu_readBytesFromFD`, for any behaviour of `read`: with `length` units of
fuel it returns; `rs` are the answers of the kernel to the `read` calls it issued; what it
stored is the concatenation of the chunks they transferred; it returns true exactly when
every one of them returned a positive count and the counts add up to `length`, and it
returns false only after an answer of 0 or -1, which is then the last. -/
theorem readBytesLoop_spec (oracle : Nat → Nat → Int) :
    ∀ (fuel : Nat) (os : ReadOS) (dst : List Byte) (N : Int), N.toNat ≤ fuel →
      ∃ (ok : Bool) (rs : List (Int × List Byte)) (os' : ReadOS),
        readBytesLoop oracle fuel os dst N =
          some (ok, dst ++ (rs.map Prod.snd).flatten, os') ∧
        os'.log = os.log ++ rs ∧
        (ok = true ↔ (∀ e ∈ rs, 0 < e.1) ∧ (rs.map Prod.fst).sum = max N 0) ∧
        (∀ e ∈ rs, 0 ≤ e.1 → e.1 = (e.2.length : Int)) ∧
        (∀ e ∈ rs, e.1 = -1 ∨ 0 ≤ e.1) ∧
        (N ≤ 0 → rs = []) ∧
        KernelAnswers oracle os N rs os' ∧
        (ok = false → ∃ e, rs.getLast? = some e ∧ (e.1 = 0 ∨ e.1 = -1)) ∧
        (∀ e ∈ rs.dropLast, 0 < e.1) ∧
        (0 < N → rs ≠ []) ∧
        (∀ k, k < rs.length → ((rs.take k).map Prod.fst).sum < N) := by
  intro fuel
  induction fuel with
  | zero =>
    intro os dst N hN
    have hN0 : ¬ N > 0 := by omega
    refine ⟨true, [], os, ?_, by simp, ?_, by simp, by simp, fun _ => rfl,
      KernelAnswers.done os N, fun h => absurd h (by decide), by simp, fun h => by omega,
        fun k hk => by simp at hk⟩
    · rw [readBytesLoop, if_neg hN0]; simp
    · simp; omega
  | succ fuel ih =>
    intro os dst N hN
    by_cases hNpos : N > 0
    swap
    · refine ⟨true, [], os, ?_, by simp, ?_, by simp, by simp, fun _ => rfl,
        KernelAnswers.done os N, fun h => absurd h (by decide), by simp, fun h => by omega,
        fun k hk => by simp at hk⟩
      · rw [readBytesLoop, if_neg hNpos]; simp
      · simp; omega
    have hchain : ∀ (rs : List (Int × List Byte)) (os2 : ReadOS),
        KernelAnswers oracle (sysRead oracle os N.toNat).2.2
          (N - (sysRead oracle os N.toNat).1) rs os2 →
        KernelAnswers oracle os N
          (((sysRead oracle os N.toNat).1, (sysRead oracle os N.toNat).2.1) :: rs) os2 :=
      fun rs os2 h => KernelAnswers.next os N rs os2 h
    rcases sysRead_cases oracle os N.toNat with ⟨_, hrd⟩ | ⟨n, _, hn, hrd⟩
    · have hk := hchain [] _ (KernelAnswers.done _ _)
      rw [hrd] at hk
      refine ⟨false, [(-1, [])], { os with log := os.log ++ [(-1, [])] }, ?_, rfl, ?_,
        by simp, by simp, fun h => by omega, hk, fun _ => ⟨(-1, []), rfl, Or.inr rfl⟩,
        by simp, fun _ => by simp, ?_⟩
      · rw [readBytesLoop, if_pos hNpos]
        simp [hrd]
      · simp
      · intro k hk
        simp at hk
        subst hk
        simpa using hNpos
    · have hlen : ((os.file.drop os.offset).take n).length = n := by
        simp [List.length_take, List.length_drop]; omega
      by_cases hn0 : n = 0
      · subst hn0
        have hk := hchain [] _ (KernelAnswers.done _ _)
        rw [hrd] at hk
        refine ⟨false, [(0, [])],
          { os with offset := os.offset + 0
                    log := os.log ++ [(((0 : Nat) : Int), (os.file.drop os.offset).take 0)] },
          ?_, by simp, ?_, by simp, by simp, fun h => by omega, ?_,
          fun _ => ⟨(0, []), rfl, Or.inl rfl⟩, by simp, fun _ => by simp, ?_⟩
        · rw [readBytesLoop, if_pos hNpos]
          simp [hrd]
        · simp
        · simpa using hk
        · intro k hk
          simp at hk
          subst hk
          simpa using hNpos
      · obtain ⟨ok2, rs2, os', hrun, hlog, hiff, hlens, hvals, _, hk2, hlast2, hpos2, _, hsum2⟩ := ih
          { os with offset := os.offset + n
                    log := os.log ++ [((n : Int), (os.file.drop os.offset).take n)] }
          (dst ++ (os.file.drop os.offset).take n) (N - n) (by omega)
        have hk := hchain rs2 os'
        rw [hrd] at hk
        refine ⟨ok2, ((n : Int), (os.file.drop os.offset).take n) :: rs2, os', ?_, ?_, ?_, ?_,
          ?_, fun h => by omega, hk hk2, ?_, ?_, fun _ => by simp, ?_⟩
        · rw [readBytesLoop, if_pos hNpos]
          have h1 : ¬ ((n : Int) = -1) := by omega
          have h2 : ¬ ((n : Int) = 0) := by omega
          simp only [hrd, if_neg h1, if_neg h2]
          rw [hrun]
          simp
        · rw [hlog]; simp
        · rw [hiff]
          simp only [List.mem_cons, forall_eq_or_imp, List.map_cons, List.sum_cons]
          constructor
          · rintro ⟨hall, hsum⟩
            exact ⟨⟨by omega, hall⟩, by omega⟩
          · rintro ⟨⟨_, hall⟩, hsum⟩
            exact ⟨hall, by omega⟩
        · intro e he
          rcases List.mem_cons.mp he with rfl | he
          · intro _; simp [hlen]
          · exact hlens e he
        · intro e he
          rcases List.mem_cons.mp he with rfl | he
          · right; simp
          · exact hvals e he
        · intro hfalse
          obtain ⟨e, he, hval⟩ := hlast2 hfalse
          refine ⟨e, ?_, hval⟩
          cases rs2 with
          | nil => simp at he
          | cons a t => rw [List.getLast?_cons_cons]; exact he
        · intro e he
          cases rs2 with
          | nil => simp at he
          | cons a t =>
            rw [List.dropLast_cons₂] at he
            rcases List.mem_cons.mp he with rfl | he
            · show (0 : Int) < (n : Int)
              omega
            · exact hpos2 e he
        · intro k hk
          cases k with
          | zero => simpa using hNpos
          | succ k =>
            have h2 := hsum2 k (by simpa using hk)
            simp only [List.take_succ_cons, List.map_cons, List.sum_cons]
            omega

theorem readBytesLoop_done (oracle : Nat → Nat → Int) (fuel : Nat) (os : ReadOS)
    (dst : List Byte) (N : Int) (hN : N ≤ 0) :
    readBytesLoop oracle fuel os dst N = some (true, dst, os) := by
  have h : ¬ N > 0 := by omega
  cases fuel <;> rw [readBytesLoop, if_neg h]

/-- The loop of `ksfu_readBytesFromFD` when every `read` makes progress (it returns 0 only
at end of file): what is stored are the next bytes of the file, as many as asked for or
as many as are left, and the result is true exactly when the file had as many as asked
for. -/
theorem readBytesLoop_file (oracle : Nat → Nat → Int) (hor : ∀ i n, 0 < oracle i n) :
    ∀ (fuel : Nat) (os : ReadOS) (dst : List Byte) (N : Int), 0 < N → N.toNat ≤ fuel →
      ∃ (ok : Bool) (os' : ReadOS),
        readBytesLoop oracle fuel os dst N =
          some (ok, dst ++ (os.file.drop os.offset).take N.toNat, os') ∧
        (ok = true ↔ os.offset + N.toNat ≤ os.file.length) := by
  intro fuel
  induction fuel with
  | zero =>
    intro os dst N hN hfuel
    omega
  | succ fuel ih =>
    intro os dst N hNpos hfuel
    rcases sysRead_cases oracle os N.toNat with ⟨hneg, _⟩ | ⟨n, _, hn, hrd⟩
    · have := hor os.log.length N.toNat
      omega
    · have hpos := hor os.log.length N.toNat
      have hlen : ((os.file.drop os.offset).take n).length = n := by
        simp [List.length_take, List.length_drop]; omega
      by_cases hn0 : n = 0
      · subst hn0
        have heof : os.file.length ≤ os.offset := by omega
        refine ⟨false,
          { os with offset := os.offset + 0
                    log := os.log ++ [(((0 : Nat) : Int), (os.file.drop os.offset).take 0)] },
          ?_, ?_⟩
        · rw [readBytesLoop, if_pos hNpos]
          simp [hrd, List.drop_eq_nil_of_le heof]
        · simp only [Bool.false_eq_true, false_iff]
          omega
      · by_cases hdone : N - (n : Int) ≤ 0
        · have hNn : N.toNat = n := by omega
          refine ⟨true,
            { os with offset := os.offset + n
                      log := os.log ++ [((n : Int), (os.file.drop os.offset).take n)] },
            ?_, ?_⟩
          · rw [readBytesLoop, if_pos hNpos]
            have h1 : ¬ ((n : Int) = -1) := by omega
            have h2 : ¬ ((n : Int) = 0) := by omega
            simp only [hrd, if_neg h1, if_neg h2]
            rw [readBytesLoop_done oracle fuel _ _ _ hdone, hNn]
          · simp only [true_iff]
            omega
        · obtain ⟨ok2, os', hrun, hiff⟩ := ih
            { os with offset := os.offset + n
                      log := os.log ++ [((n : Int), (os.file.drop os.offset).take n)] }
            (dst ++ (os.file.drop os.offset).take n) (N - n) (by omega) (by omega)
          refine ⟨ok2, os', ?_, ?_⟩
          · rw [readBytesLoop, if_pos hNpos]
            have h1 : ¬ ((n : Int) = -1) := by omega
            have h2 : ¬ ((n : Int) = 0) := by omega
            simp only [hrd, if_neg h1, if_neg h2]
            rw [hrun]
            have hsplit : N.toNat = n + (N - (n : Int)).toNat := by omega
            rw [hsplit, List.take_add, List.drop_drop, List.append_assoc]
          · rw [hiff]
            show os.offset + n + (N - (n : Int)).toNat ≤ os.file.length ↔ _
            omega

/-- C5: `ksfu_readBytesFromFD(fd, bytes, N)`, whatever `read` does, returns within `N`
iterations.  The list `rs` of its `read` calls (value returned, bytes transferred) is the
run of answers that the kernel gives to successive calls asking for the bytes still
missing; for `N > 0` there is at least one call and every call but the last returned a
positive count, so a short read is followed by another call, and every call is made
while bytes are still missing.  `bytes` receives the
concatenation of the chunks in order.  For `N > 0` the result is true if and only if
every call returned a positive count and the counts add up to `N` (then `bytes[0..N)` is
filled); the result is false only when the last call returned 0 (end of file) or -1,
and any call that returned 0 or -1 makes it false.  For `N <= 0` the result is true and no
`read` call is made.  When every `read` makes progress, `bytes` receives the next bytes
of the file and the result is true exactly when the file has `N` more bytes. -/
theorem ksfu_readBytesFromFD_spec (oracle : Nat → Nat → Int) (os : ReadOS) (N : Int)
    (fuel : Nat) (hfuel : N.toNat ≤ fuel) :
    ∃ (ok : Bool) (bytes : List Byte) (rs : List (Int × List Byte)) (os' : ReadOS),
      ksfu_readBytesFromFD oracle fuel os N = some (ok, bytes, os') ∧
      KernelAnswers oracle os N rs os' ∧
      os'.log = os.log ++ rs ∧
      bytes = (rs.map Prod.snd).flatten ∧
      (0 < N → rs ≠ [] ∧ ∀ e ∈ rs.dropLast, 0 < e.1) ∧
      (∀ k, k < rs.length → ((rs.take k).map Prod.fst).sum < N) ∧
      (0 < N → (ok = true ↔ (∀ e ∈ rs, 0 < e.1) ∧ (rs.map Prod.fst).sum = N)) ∧
      (0 < N → ok = true → (bytes.length : Int) = N) ∧
      (ok = false → ∃ e, rs.getLast? = some e ∧ (e.1 = 0 ∨ e.1 = -1)) ∧
      ((∃ e ∈ rs, e.1 = 0 ∨ e.1 = -1) → ok = false) ∧
      (N ≤ 0 → ok = true ∧ rs = []) ∧
      ((∀ i n, 0 < oracle i n) → 0 < N →
        bytes = (os.file.drop os.offset).take N.toNat ∧
        (ok = true ↔ os.offset + N.toNat ≤ os.file.length)) := by
  obtain ⟨ok, rs, os', hrun, hlog, hiff, hlens, _, hnil, hchain, hlast, hpos, hne, hbefore⟩ :=
    readBytesLoop_spec oracle fuel os [] N hfuel
  have hsumlen : ∀ l : List (Int × List Byte), (∀ e ∈ l, 0 ≤ e.1 → e.1 = (e.2.length : Int)) →
      (∀ e ∈ l, 0 < e.1) → (((l.map Prod.snd).flatten.length : Nat) : Int) =
        (l.map Prod.fst).sum := by
    intro l
    induction l with
    | nil => intro _ _; simp
    | cons a t iht =>
      intro h1 h2
      have ha := h1 a (List.mem_cons_self _ _) (le_of_lt (h2 a (List.mem_cons_self _ _)))
      have ht := iht (fun e he => h1 e (List.mem_cons_of_mem _ he))
        (fun e he => h2 e (List.mem_cons_of_mem _ he))
      simp only [List.map_cons, List.flatten_cons, List.length_append, List.sum_cons,
        Nat.cast_add]
      rw [ht, ha]
  refine ⟨ok, (rs.map Prod.snd).flatten, rs, os', ?_, hchain, hlog, rfl,
    fun hN => ⟨hne hN, hpos⟩, hbefore, ?_, ?_, hlast, ?_, ?_, ?_⟩
  · rw [ksfu_readBytesFromFD, hrun]; simp
  · intro hN
    rw [hiff, max_eq_left (le_of_lt hN)]
  · intro hN hok
    obtain ⟨hall, hsum⟩ := hiff.mp hok
    rw [hsumlen rs hlens hall, hsum, max_eq_left (le_of_lt hN)]
  · rintro ⟨e, he, hval⟩
    by_contra hne'
    have hok : ok = true := by simpa using hne'
    have := (hiff.mp hok).1 e he
    omega
  · intro hN
    have hrs := hnil hN
    refine ⟨?_, hrs⟩
    rw [hiff, hrs]
    simp
    omega
  · intro hor hN
    obtain ⟨ok2, os2, hrun2, hiff2⟩ := readBytesLoop_file oracle hor fuel os [] N hN hfuel
    rw [hrun] at hrun2
    simp only [List.nil_append, Option.some.injEq, Prod.mk.injEq] at hrun2
    obtain ⟨hok, hbytes, _⟩ := hrun2
    exact ⟨hbytes, by rw [hok]; exact hiff2⟩

/-- C5 at a concrete input: seven bytes asked of `"abc\ndef"`, three at a time. -/
theorem ksfu_readBytesFromFD_spec_witness :
    ∃ (ok : Bool) (bytes : List Byte) (rs : List (Int × List Byte)) (os' : ReadOS),
      ksfu_readBytesFromFD threeAtATime 7 ⟨sampleFile, 0, []⟩ 7 = some (ok, bytes, os') ∧
      KernelAnswers threeAtATime ⟨sampleFile, 0, []⟩ 7 rs os' ∧
      os'.log = ([] : List (Int × List Byte)) ++ rs ∧
      bytes = (rs.map Prod.snd).flatten ∧
      ((0 : Int) < 7 → rs ≠ [] ∧ ∀ e ∈ rs.dropLast, 0 < e.1) ∧
      (∀ k, k < rs.length → ((rs.take k).map Prod.fst).sum < (7 : Int)) ∧
      ((0 : Int) < 7 → (ok = true ↔ (∀ e ∈ rs, 0 < e.1) ∧ (rs.map Prod.fst).sum = 7)) ∧
      ((0 : Int) < 7 → ok = true → (bytes.length : Int) = 7) ∧
      (ok = false → ∃ e, rs.getLast? = some e ∧ (e.1 = 0 ∨ e.1 = -1)) ∧
      ((∃ e ∈ rs, e.1 = 0 ∨ e.1 = -1) → ok = false) ∧
      ((7 : Int) ≤ 0 → ok = true ∧ rs = []) ∧
      ((∀ i n, 0 < threeAtATime i n) → (0 : Int) < 7 →
        bytes = (sampleFile.drop 0).take (7 : Int).toNat ∧
        (ok = true ↔ 0 + (7 : Int).toNat ≤ sampleFile.length)) :=
  ksfu_readBytesFromFD_spec threeAtATime ⟨sampleFile, 0, []⟩ 7 7 (by decide)

/-- The three `read` calls of the witness, and a request that meets the end of the file. -/
theorem ksfu_readBytesFromFD_examples :
    (ksfu_readBytesFromFD threeAtATime 7 ⟨sampleFile, 0, []⟩ 7).map
      (fun r => (r.1, r.2.1, r.2.2.log)) =
      some (true, bytesOf "abc\ndef",
        [(3, bytesOf "abc"), (3, bytesOf "\nde"), (1, bytesOf "f")]) ∧
    (ksfu_readBytesFromFD threeAtATime 9 ⟨sampleFile, 0, []⟩ 9).map
      (fun r => (r.1, r.2.1, r.2.2.log.map Prod.fst)) =
      some (false, bytesOf "abc\ndef", [3, 3, 1, 0]) ∧
    (ksfu_readBytesFromFD alwaysFailing 9 ⟨sampleFile, 0, []⟩ 9).map
      (fun r => (r.1, r.2.1, r.2.2.log.map Prod.fst)) =
      some (false, [], [-1]) := by
  refine ⟨?_, ?_, ?_⟩ <;> decide

/-! ### Image resolution -/

theorem firstCmdAfterHeader_eq_some (header : MachHeader) (cmds : List LoadCommand) :
    firstCmdAfterHeader header = some cmds ↔ ValidMagic header ∧ cmds = header.cmds := by
  unfold firstCmdAfterHeader ValidMagic
  by_cases h1 : header.magic = MH_MAGIC ∨ header.magic = MH_CIGAM
  · rw [if_pos h1]
    constructor
    · intro h
      exact ⟨by tauto, (Option.some.inj h).symm⟩
    · rintro ⟨_, rfl⟩; rfl
  · rw [if_neg h1]
    by_cases h2 : header.magic = MH_MAGIC_64 ∨ header.magic = MH_CIGAM_64
    · rw [if_pos h2]
      constructor
      · intro h
        exact ⟨by tauto, (Option.some.inj h).symm⟩
      · rintro ⟨_, rfl⟩; rfl
    · rw [if_neg h2]
      constructor
      · intro h; cases h
      · rintro ⟨h, _⟩; exfalso; tauto

theorem firstCmdAfterHeader_eq_none (header : MachHeader) :
    firstCmdAfterHeader header = none ↔ ¬ ValidMagic header := by
  constructor
  · intro h hv
    have := (firstCmdAfterHeader_eq_some header header.cmds).mpr ⟨hv, rfl⟩
    rw [h] at this
    cases this
  · intro h
    cases hc : firstCmdAfterHeader header with
    | none => rfl
    | some cmds => exact absurd ((firstCmdAfterHeader_eq_some header cmds).mp hc).1 h

theorem segmentContains_iff (a : Nat) (cmd : LoadCommand) :
    segmentContains a cmd = true ↔ SegmentHolds a cmd := by
  cases cmd with
  | segment n va vs fo =>
    simp only [segmentContains, decide_eq_true_eq, SegmentHolds]
    constructor
    · rintro ⟨h1, h2⟩
      exact Or.inl ⟨n, va, vs, fo, rfl, h1, h2⟩
    · rintro (⟨_, _, _, _, he, h1, h2⟩ | ⟨_, _, _, _, he, _, _⟩)
      · cases he; exact ⟨h1, h2⟩
      · cases he
  | segment64 n va vs fo =>
    simp only [segmentContains, decide_eq_true_eq, SegmentHolds]
    constructor
    · rintro ⟨h1, h2⟩
      exact Or.inr ⟨n, va, vs, fo, rfl, h1, h2⟩
    · rintro (⟨_, _, _, _, he, _, _⟩ | ⟨_, _, _, _, he, h1, h2⟩)
      · cases he
      · cases he; exact ⟨h1, h2⟩
  | symtab a b c =>
    simp only [segmentContains, SegmentHolds]
    constructor
    · intro h; cases h
    · rintro (⟨_, _, _, _, he, _, _⟩ | ⟨_, _, _, _, he, _, _⟩) <;> cases he
  | uuid u =>
    simp only [segmentContains, SegmentHolds]
    constructor
    · intro h; cases h
    · rintro (⟨_, _, _, _, he, _, _⟩ | ⟨_, _, _, _, he, _, _⟩) <;> cases he
  | idDylib v =>
    simp only [segmentContains, SegmentHolds]
    constructor
    · intro h; cases h
    · rintro (⟨_, _, _, _, he, _, _⟩ | ⟨_, _, _, _, he, _, _⟩) <;> cases he
  | other c =>
    simp only [segmentContains, SegmentHolds]
    constructor
    · intro h; cases h
    · rintro (⟨_, _, _, _, he, _, _⟩ | ⟨_, _, _, _, he, _, _⟩) <;> cases he

/-- One step of the image loop: the image at `iImg` is returned exactly when it contains the
address. -/
theorem imageIndexLoop_step (cache : ImageCache) (address remaining iImg : Nat) :
    (ImageContains cache address iImg ∧
      imageIndexLoop cache address (remaining + 1) iImg = iImg) ∨
    (¬ ImageContains cache address iImg ∧
      imageIndexLoop cache address (remaining + 1) iImg =
        imageIndexLoop cache address remaining (iImg + 1)) := by
  cases hh : cache.imageHeader iImg with
  | none =>
    right
    refine ⟨?_, by simp [imageIndexLoop, hh]⟩
    rintro ⟨header, hhe, _⟩
    rw [hh] at hhe; cases hhe
  | some header =>
    cases hc : firstCmdAfterHeader header with
    | none =>
      right
      refine ⟨?_, by simp [imageIndexLoop, hh, hc]⟩
      rintro ⟨header', hhe, hv, _⟩
      rw [hh] at hhe
      cases hhe
      exact (firstCmdAfterHeader_eq_none header).mp hc hv
    | some cmds =>
      obtain ⟨hv, hcmds⟩ := (firstCmdAfterHeader_eq_some header cmds).mp hc
      subst hcmds
      by_cases hany : header.cmds.any
          (segmentContains (subPtr address (cache.imageVMAddrSlide iImg))) = true
      · left
        refine ⟨?_, by simp only [imageIndexLoop, hh, hc, hany, if_true]⟩
        obtain ⟨cmd, hmem, hcmd⟩ := List.any_eq_true.mp hany
        exact ⟨header, hh, hv, cmd, hmem, (segmentContains_iff _ _).mp hcmd⟩
      · right
        refine ⟨?_, by simp only [imageIndexLoop, hh, hc, hany, Bool.false_eq_true, if_false]⟩
        rintro ⟨header', hhe, _, cmd, hmem, hcmd⟩
        rw [hh] at hhe
        cases hhe
        exact hany (List.any_eq_true.mpr ⟨cmd, hmem, (segmentContains_iff _ _).mpr hcmd⟩)

/-- The image loop returns the first index in range whose image contains the address, and
`UINT_MAX` when there is none. -/
theorem imageIndexLoop_spec (cache : ImageCache) (address : Nat) :
    ∀ (remaining iImg : Nat),
      (∃ k, iImg ≤ k ∧ k < iImg + remaining ∧ ImageContains cache address k ∧
        (∀ j, iImg ≤ j → j < k → ¬ ImageContains cache address j) ∧
        imageIndexLoop cache address remaining iImg = k) ∨
      ((∀ j, iImg ≤ j → j < iImg + remaining → ¬ ImageContains cache address j) ∧
        imageIndexLoop cache address remaining iImg = UINT_MAX) := by
  intro remaining
  induction remaining with
  | zero =>
    intro iImg
    right
    exact ⟨fun j h1 h2 => by omega, rfl⟩
  | succ remaining ih =>
    intro iImg
    rcases imageIndexLoop_step cache address remaining iImg with ⟨hc, hrun⟩ | ⟨hnc, hrun⟩
    · left
      exact ⟨iImg, le_refl _, by omega, hc, fun j h1 h2 => by omega, hrun⟩
    · rcases ih (iImg + 1) with ⟨k, hk1, hk2, hck, hbefore, hrun2⟩ | ⟨hnone, hrun2⟩
      · left
        refine ⟨k, by omega, by omega, hck, fun j h1 h2 => ?_, by rw [hrun, hrun2]⟩
        by_cases hj : j = iImg
        · rw [hj]; exact hnc
        · exact hbefore j (by omega) h2
      · right
        refine ⟨fun j h1 h2 => ?_, by rw [hrun, hrun2]⟩
        by_cases hj : j = iImg
        · rw [hj]; exact hnc
        · exact hnone j (by omega) (by omega)

/-- The symbol lookup leaves the image fields of `Dl_info` alone. -/
theorem exposeSymbol_image (mem : ProcessMemory) (stringTable slide : Nat) (best : Nlist)
    (info : Dl_info) :
    (exposeSymbol mem stringTable slide best info).dli_fname = info.dli_fname ∧
    (exposeSymbol mem stringTable slide best info).dli_fbase = info.dli_fbase := by
  simp only [exposeSymbol]
  by_cases h1 : best.n_desc = 16
  · simp only [if_pos h1, and_self]
  · by_cases h2 : mem.byte (addPtr stringTable best.n_strx) = toChar 95
    · simp only [if_neg h1, if_pos h2, and_self]
    · simp only [if_neg h1, if_neg h2, and_self]

theorem dladdrLoop_image (mem : ProcessMemory) (segmentBase slide a : Nat) :
    ∀ (cmds : List LoadCommand) (st : Option Nat × Nat) (info : Dl_info),
      (dladdrLoop mem segmentBase slide a cmds st info).dli_fname = info.dli_fname ∧
      (dladdrLoop mem segmentBase slide a cmds st info).dli_fbase = info.dli_fbase := by
  intro cmds
  induction cmds with
  | nil => intro st info; exact ⟨rfl, rfl⟩
  | cons cmd rest ih =>
    intro st info
    cases cmd with
    | symtab symoff nsyms stroff =>
      simp only [dladdrLoop]
      split
      · exact exposeSymbol_image _ _ _ _ _
      · exact ih _ _
    | segment n va vs fo => simpa only [dladdrLoop] using ih st info
    | segment64 n va vs fo => simpa only [dladdrLoop] using ih st info
    | uuid u => simpa only [dladdrLoop] using ih st info
    | idDylib v => simpa only [dladdrLoop] using ih st info
    | other c => simpa only [dladdrLoop] using ih st info

/-- C6: `imageIndexContainingAddress` selects the image of lowest index that has a non-NULL
header with a valid magic and a segment command whose range holds `address - slide`; when
`ksdl_dladdr` returns true, `dli_fname` and `dli_fbase` are the name and header of that
image; and when no loaded image has a segment range holding the address, `ksdl_dladdr`
returns false with `dli_fname`, `dli_fbase`, `dli_sname`, `dli_saddr` all `NULL`. -/
theorem ksdl_dladdr_image_resolution (cache : ImageCache) (mem : ProcessMemory)
    (address : Nat) :
    (∀ i, i < cache.imageCount → ImageContains cache address i →
      (∀ j, j < i → ¬ ImageContains cache address j) →
      imageIndexContainingAddress cache address = i) ∧
    ((ksdl_dladdr cache mem address).1 = true →
      ∃ i, i < cache.imageCount ∧ ImageContains cache address i ∧
        (∀ j, j < i → ¬ ImageContains cache address j) ∧
        (ksdl_dladdr cache mem address).2.dli_fname = cache.imageName i ∧
        (ksdl_dladdr cache mem address).2.dli_fbase = cache.imageHeader i) ∧
    ((∀ i, i < cache.imageCount → ¬ ImageContains cache address i) →
      imageIndexContainingAddress cache address = UINT_MAX ∧
      ksdl_dladdr cache mem address =
        (false, { dli_fname := none, dli_fbase := none, dli_sname := 0, dli_saddr := 0 })) := by
  have hlt := cache.count_lt
  have hspec := imageIndexLoop_spec cache address cache.imageCount 0
  refine ⟨?_, ?_, ?_⟩
  · intro i hi hci hbefore
    rcases hspec with ⟨k, _, hk2, hck, hkbefore, hrun⟩ | ⟨hnone, _⟩
    · rw [imageIndexContainingAddress, hrun]
      rcases Nat.lt_trichotomy k i with h | h | h
      · exact absurd hck (hbefore k h)
      · exact h
      · exact absurd hci (hkbefore i (Nat.zero_le _) h)
    · exact absurd hci (hnone i (Nat.zero_le _) (by omega))
  · intro htrue
    rcases hspec with ⟨k, _, hk2, hck, hkbefore, hrun⟩ | ⟨_, hrun⟩
    · refine ⟨k, by omega, hck, fun j hj => hkbefore j (Nat.zero_le _) hj, ?_⟩
      have hidx : imageIndexContainingAddress cache address = k := hrun
      have hne : ¬ k = UINT_MAX := by simp only [UINT_MAX]; omega
      simp only [ksdl_dladdr, hidx, if_neg hne] at htrue ⊢
      split at htrue
      · simp at htrue
      · rename_i hsb
        simp only [if_neg hsb]
        split
        · simp
        · exact dladdrLoop_image _ _ _ _ _ _ _
    · have hidx : imageIndexContainingAddress cache address = UINT_MAX := hrun
      simp [ksdl_dladdr, hidx] at htrue
  · intro hnone
    rcases hspec with ⟨k, _, hk2, hck, _, _⟩ | ⟨_, hrun⟩
    · exact absurd hck (hnone k (by omega))
    · have hidx : imageIndexContainingAddress cache address = UINT_MAX := hrun
      exact ⟨hidx, by simp [ksdl_dladdr, hidx]⟩

/-! ### Symbol resolution -/

theorem subPtr_of_le (a b : Nat) (ha : a < PTR_MOD) (hb : b ≤ a) : subPtr a b = a - b := by
  simp only [subPtr, PTR_MOD] at *
  omega

theorem subPtr_lt (a b : Nat) : subPtr a b < PTR_MOD := by
  simp only [subPtr, PTR_MOD]
  omega

/-- The state of the symbol scan after the entries below `n` have been looked at. -/
theorem symbolScan_spec (mem : ProcessMemory) (table a : Nat) (ha : a < PTR_MOD) :
    ∀ (remaining iSym : Nat) (st : Option Nat × Nat),
      (st.1 = none → st.2 = ULONG_MAX ∧ ∀ j, j < iSym → ¬ Eligible a (mem.nlist table j)) →
      (∀ b, st.1 = some b → b < iSym ∧ Eligible a (mem.nlist table b) ∧
        st.2 = a - (mem.nlist table b).n_value ∧
        ∀ j, j < iSym → Eligible a (mem.nlist table j) →
          st.2 ≤ a - (mem.nlist table j).n_value ∧
          (a - (mem.nlist table j).n_value = st.2 → j ≤ b)) →
      ((symbolScan mem table a remaining iSym st).1 = none →
        ∀ j, j < iSym + remaining → ¬ Eligible a (mem.nlist table j)) ∧
      (∀ b, (symbolScan mem table a remaining iSym st).1 = some b →
        b < iSym + remaining ∧ Eligible a (mem.nlist table b) ∧
        ∀ j, j < iSym + remaining → Eligible a (mem.nlist table j) →
          a - (mem.nlist table b).n_value ≤ a - (mem.nlist table j).n_value ∧
          (a - (mem.nlist table j).n_value = a - (mem.nlist table b).n_value → j ≤ b)) := by
  intro remaining
  induction remaining with
  | zero =>
    intro iSym st hnone hsome
    refine ⟨fun h => (hnone h).2, fun b hb => ?_⟩
    obtain ⟨h1, h2, h3, h4⟩ := hsome b hb
    refine ⟨h1, h2, fun j hj hej => ?_⟩
    have := h4 j hj hej
    rw [h3] at this
    exact this
  | succ remaining ih =>
    intro iSym st hnone hsome
    have hadd : iSym + (remaining + 1) = (iSym + 1) + remaining := by omega
    rw [hadd]
    -- the cases in which the entry at `iSym` leaves the state alone
    have hskip : ¬ Eligible a (mem.nlist table iSym) ∨
        (Eligible a (mem.nlist table iSym) ∧ st.2 < a - (mem.nlist table iSym).n_value) →
        (st.1 = none → st.2 = ULONG_MAX ∧
          ∀ j, j < iSym + 1 → ¬ Eligible a (mem.nlist table j)) ∧
        (∀ b, st.1 = some b → b < iSym + 1 ∧ Eligible a (mem.nlist table b) ∧
          st.2 = a - (mem.nlist table b).n_value ∧
          ∀ j, j < iSym + 1 → Eligible a (mem.nlist table j) →
            st.2 ≤ a - (mem.nlist table j).n_value ∧
            (a - (mem.nlist table j).n_value = st.2 → j ≤ b)) := by
      intro hcase
      refine ⟨fun h => ⟨(hnone h).1, fun j hj hej => ?_⟩, fun b hb => ?_⟩
      · by_cases hji : j = iSym
        · subst hji
          rcases hcase with hne | ⟨_, hlt⟩
          · exact hne hej
          · have := (hnone h).1
            simp only [ULONG_MAX, PTR_MOD] at this ha
            omega
        · exact (hnone h).2 j (by omega) hej
      · obtain ⟨h1, h2, h3, h4⟩ := hsome b hb
        refine ⟨by omega, h2, h3, fun j hj hej => ?_⟩
        by_cases hji : j = iSym
        · subst hji
          rcases hcase with hne | ⟨_, hlt⟩
          · exact absurd hej hne
          · exact ⟨by omega, fun h => by omega⟩
        · exact h4 j (by omega) hej
    by_cases hstab : (mem.nlist table iSym).n_type &&& N_STAB ≠ 0
    · have hrun : symbolScan mem table a (remaining + 1) iSym st =
          symbolScan mem table a remaining (iSym + 1) st := by
        rw [symbolScan]; simp only [if_pos hstab]
      rw [hrun]
      obtain ⟨hn', hs'⟩ := hskip (Or.inl (fun he => hstab he.1))
      exact ih (iSym + 1) st hn' hs'
    · have hstab0 : (mem.nlist table iSym).n_type &&& N_STAB = 0 := by
        by_contra h; exact hstab h
      by_cases hval : (mem.nlist table iSym).n_value ≠ 0
      · by_cases hsel : a ≥ (mem.nlist table iSym).n_value ∧
            subPtr a (mem.nlist table iSym).n_value ≤ st.2
        · have hrun : symbolScan mem table a (remaining + 1) iSym st =
              symbolScan mem table a remaining (iSym + 1)
                (some iSym, subPtr a (mem.nlist table iSym).n_value) := by
            rw [symbolScan]; simp only [if_neg hstab, if_pos hval, if_pos hsel]
          rw [hrun]
          have hsub := subPtr_of_le a (mem.nlist table iSym).n_value ha hsel.1
          have hel : Eligible a (mem.nlist table iSym) := ⟨hstab0, hval, hsel.1⟩
          apply ih
          · intro h; cases h
          · intro b hb
            have hbi : b = iSym := by
              have := Option.some.inj hb; exact this.symm
            subst hbi
            refine ⟨by omega, hel, hsub, fun j hj hej => ?_⟩
            simp only [hsub]
            by_cases hji : j = b
            · subst hji; exact ⟨le_refl _, fun _ => le_refl _⟩
            · have hjlt : j < b := by omega
              refine ⟨?_, fun _ => by omega⟩
              cases hst : st.1 with
              | none => exact absurd hej ((hnone hst).2 j hjlt)
              | some b0 =>
                have := ((hsome b0 hst).2.2.2 j hjlt hej).1
                have h2 := hsel.2
                rw [hsub] at h2
                omega
        · have hrun : symbolScan mem table a (remaining + 1) iSym st =
              symbolScan mem table a remaining (iSym + 1) st := by
            rw [symbolScan]; simp only [if_neg hstab, if_pos hval, if_neg hsel]
          rw [hrun]
          have hcase : ¬ Eligible a (mem.nlist table iSym) ∨
              (Eligible a (mem.nlist table iSym) ∧
                st.2 < a - (mem.nlist table iSym).n_value) := by
            by_cases hge : a ≥ (mem.nlist table iSym).n_value
            · right
              refine ⟨⟨hstab0, hval, hge⟩, ?_⟩
              have hsub := subPtr_of_le a (mem.nlist table iSym).n_value ha hge
              have : ¬ subPtr a (mem.nlist table iSym).n_value ≤ st.2 := fun h => hsel ⟨hge, h⟩
              rw [hsub] at this
              omega
            · left
              exact fun he => hge he.2.2
          obtain ⟨hn', hs'⟩ := hskip hcase
          exact ih (iSym + 1) st hn' hs'
      · have hrun : symbolScan mem table a (remaining + 1) iSym st =
            symbolScan mem table a remaining (iSym + 1) st := by
          rw [symbolScan]; simp only [if_neg hstab, if_neg hval]
        rw [hrun]
        obtain ⟨hn', hs'⟩ := hskip (Or.inl (fun he => hval he.2.1))
        exact ih (iSym + 1) st hn' hs'

theorem dladdrLoop_no_symtab (mem : ProcessMemory) (segmentBase slide a : Nat) :
    ∀ (cmds : List LoadCommand) (st : Option Nat × Nat) (info : Dl_info),
      (∀ c ∈ cmds, c.isSymtab = false) →
      dladdrLoop mem segmentBase slide a cmds st info = info := by
  intro cmds
  induction cmds with
  | nil => intro st info _; rfl
  | cons cmd rest ih =>
    intro st info h
    have hrest : ∀ c ∈ rest, c.isSymtab = false := fun c hc => h c (List.mem_cons_of_mem _ hc)
    have hcmd := h cmd (List.mem_cons_self _ _)
    cases cmd with
    | symtab symoff nsyms stroff => simp [LoadCommand.isSymtab] at hcmd
    | segment n va vs fo => simpa only [dladdrLoop] using ih st info hrest
    | segment64 n va vs fo => simpa only [dladdrLoop] using ih st info hrest
    | uuid u => simpa only [dladdrLoop] using ih st info hrest
    | idDylib v => simpa only [dladdrLoop] using ih st info hrest
    | other c => simpa only [dladdrLoop] using ih st info hrest

theorem dladdrLoop_skip (mem : ProcessMemory) (segmentBase slide a : Nat) :
    ∀ (pre rest : List LoadCommand) (st : Option Nat × Nat) (info : Dl_info),
      (∀ c ∈ pre, c.isSymtab = false) →
      dladdrLoop mem segmentBase slide a (pre ++ rest) st info =
        dladdrLoop mem segmentBase slide a rest st info := by
  intro pre
  induction pre with
  | nil => intro rest st info _; rfl
  | cons cmd pre ih =>
    intro rest st info h
    have hpre : ∀ c ∈ pre, c.isSymtab = false := fun c hc => h c (List.mem_cons_of_mem _ hc)
    have hcmd := h cmd (List.mem_cons_self _ _)
    cases cmd with
    | symtab symoff nsyms stroff => simp [LoadCommand.isSymtab] at hcmd
    | segment n va vs fo => simpa only [dladdrLoop, List.cons_append] using ih rest st info hpre
    | segment64 n va vs fo => simpa only [dladdrLoop, List.cons_append] using ih rest st info hpre
    | uuid u => simpa only [dladdrLoop, List.cons_append] using ih rest st info hpre
    | idDylib v => simpa only [dladdrLoop, List.cons_append] using ih rest st info hpre
    | other c => simpa only [dladdrLoop, List.cons_append] using ih rest st info hpre

/-- The outcome of `ksdl_dladdr` on an image with one symbol table: without an eligible
symbol the image fields alone are reported; otherwise the eligible symbol at the least
distance, the last of them in table order, is the one exposed. -/
theorem ksdl_dladdr_symbol (cache : ImageCache) (mem : ProcessMemory) (address idx : Nat)
    (header : MachHeader) (pre : List LoadCommand) (symoff nsyms stroff : Nat)
    (post : List LoadCommand)
    (h : SymbolLookup cache address idx header pre symoff nsyms stroff post) :
    ((∀ j, j < nsyms →
        ¬ Eligible (lookupAddress cache address idx) (symbolAt cache mem idx symoff j)) →
      ksdl_dladdr cache mem address = (true, imageInfo cache idx)) ∧
    ((∃ j, j < nsyms ∧
        Eligible (lookupAddress cache address idx) (symbolAt cache mem idx symoff j)) →
      ∃ b, b < nsyms ∧
        Eligible (lookupAddress cache address idx) (symbolAt cache mem idx symoff b) ∧
        (∀ j, j < nsyms →
          Eligible (lookupAddress cache address idx) (symbolAt cache mem idx symoff j) →
          lookupAddress cache address idx - (symbolAt cache mem idx symoff b).n_value ≤
            lookupAddress cache address idx - (symbolAt cache mem idx symoff j).n_value ∧
          (lookupAddress cache address idx - (symbolAt cache mem idx symoff j).n_value =
            lookupAddress cache address idx - (symbolAt cache mem idx symoff b).n_value →
            j ≤ b)) ∧
        ksdl_dladdr cache mem address =
          (true, exposeSymbol mem (addPtr (lookupBase cache idx) stroff)
            (cache.imageVMAddrSlide idx) (symbolAt cache mem idx symoff b)
            (imageInfo cache idx))) := by
  obtain ⟨hidx, hfound, hheader, hbase, hcmds, hpre, hpost⟩ := h
  -- the header of the selected image has a valid magic
  have hvalid : firstCmdAfterHeader header = some header.cmds := by
    rcases imageIndexLoop_spec cache address cache.imageCount 0 with
      ⟨k, _, _, hck, _, hrun⟩ | ⟨_, hrun⟩
    · have hk : k = idx := by rw [← hrun]; exact hidx
      subst hk
      obtain ⟨header', hh', hv, _⟩ := hck
      rw [hheader] at hh'
      cases hh'
      exact (firstCmdAfterHeader_eq_some header header.cmds).mpr ⟨hv, rfl⟩
    · exact absurd (hidx.symm.trans hrun) hfound
  have hscan := symbolScan_spec mem (addPtr (lookupBase cache idx) symoff)
    (lookupAddress cache address idx) (subPtr_lt _ _) nsyms 0 (none, ULONG_MAX)
    (fun _ => ⟨rfl, fun j hj => by omega⟩) (fun b hb => by cases hb)
  simp only [Nat.zero_add] at hscan
  have hrun : ksdl_dladdr cache mem address =
      (true,
        match (symbolScan mem (addPtr (lookupBase cache idx) symoff)
            (lookupAddress cache address idx) nsyms 0 (none, ULONG_MAX)).1 with
        | some iBest => exposeSymbol mem (addPtr (lookupBase cache idx) stroff)
            (cache.imageVMAddrSlide idx)
            (mem.nlist (addPtr (lookupBase cache idx) symoff) iBest) (imageInfo cache idx)
        | none => imageInfo cache idx) := by
    have hbase' : ¬ addPtr (segmentBaseOfImageIndex cache idx) (cache.imageVMAddrSlide idx) = 0 :=
      hbase
    have hbind : ((some header).bind fun a => firstCmdAfterHeader a) = some header.cmds :=
      hvalid
    simp only [ksdl_dladdr, hidx, if_neg hfound, if_neg hbase', hheader, hbind, hcmds]
    rw [dladdrLoop_skip _ _ _ _ _ _ _ _ hpre]
    simp only [dladdrLoop, lookupBase, lookupAddress, imageInfo, hheader]
    congr 1
    split
    · rfl
    · exact dladdrLoop_no_symtab _ _ _ _ _ _ _ hpost
  refine ⟨fun hnone => ?_, fun hsome => ?_⟩
  · cases hb : (symbolScan mem (addPtr (lookupBase cache idx) symoff)
        (lookupAddress cache address idx) nsyms 0 (none, ULONG_MAX)).1 with
    | none => rw [hrun, hb]
    | some b =>
      obtain ⟨hb1, hb2, _⟩ := hscan.2 b hb
      exact absurd hb2 (hnone b hb1)
  · cases hb : (symbolScan mem (addPtr (lookupBase cache idx) symoff)
        (lookupAddress cache address idx) nsyms 0 (none, ULONG_MAX)).1 with
    | none =>
      obtain ⟨j, hj, hej⟩ := hsome
      exact absurd hej (hscan.1 hb j hj)
    | some b =>
      obtain ⟨hb1, hb2, hb3⟩ := hscan.2 b hb
      exact ⟨b, hb1, hb2, hb3, by rw [hrun, hb]; rfl⟩

theorem exposeSymbol_saddr (mem : ProcessMemory) (stringTable slide : Nat) (best : Nlist)
    (info : Dl_info) :
    (exposeSymbol mem stringTable slide best info).dli_saddr = addPtr best.n_value slide := by
  simp only [exposeSymbol]
  by_cases h1 : best.n_desc = 16
  · simp only [if_pos h1]
  · by_cases h2 : mem.byte (addPtr stringTable best.n_strx) = toChar 95
    · simp only [if_neg h1, if_pos h2]
    · simp only [if_neg h1, if_neg h2]

/-- The symbol `ksdl_dladdr` selects: the eligible symbol `i` at the least distance which
is the last such in table order is the one whose fields are exposed. -/
theorem ksdl_dladdr_selected (cache : ImageCache) (mem : ProcessMemory) (address idx : Nat)
    (header : MachHeader) (pre : List LoadCommand) (symoff nsyms stroff : Nat)
    (post : List LoadCommand)
    (h : SymbolLookup cache address idx header pre symoff nsyms stroff post)
    (i : Nat) (hi : i < nsyms)
    (hel : Eligible (lookupAddress cache address idx) (symbolAt cache mem idx symoff i))
    (hmin : ∀ j, j < nsyms →
      Eligible (lookupAddress cache address idx) (symbolAt cache mem idx symoff j) →
      lookupAddress cache address idx - (symbolAt cache mem idx symoff i).n_value ≤
        lookupAddress cache address idx - (symbolAt cache mem idx symoff j).n_value)
    (hlast : ∀ j, j < nsyms →
      Eligible (lookupAddress cache address idx) (symbolAt cache mem idx symoff j) →
      lookupAddress cache address idx - (symbolAt cache mem idx symoff j).n_value =
        lookupAddress cache address idx - (symbolAt cache mem idx symoff i).n_value →
      j ≤ i) :
    ksdl_dladdr cache mem address =
      (true, exposeSymbol mem (addPtr (lookupBase cache idx) stroff)
        (cache.imageVMAddrSlide idx) (symbolAt cache mem idx symoff i) (imageInfo cache idx)) := by
  obtain ⟨b, hb, hbel, hbmin, hrun⟩ :=
    (ksdl_dladdr_symbol cache mem address idx header pre symoff nsyms stroff post h).2
      ⟨i, hi, hel⟩
  have h1 := hbmin i hi hel
  have h2 := hmin b hb hbel
  have hbi : b = i := by
    have hle1 : b ≤ i := hlast b hb hbel (by omega)
    have hle2 : i ≤ b := h1.2 (by omega)
    omega
  rw [hrun, hbi]

/-- C7 (amended): on an image with one symbol table to which the address resolves (its
segment base being non-zero), with `a' = a - slide` and a symbol eligible when
`(n_type & N_STAB) == 0`, `n_value != 0` and `n_value <= a'`: if some symbol is eligible,
`ksdl_dladdr` returns true and `dli_saddr` is `n_value + slide` of an eligible symbol whose
distance `a' - n_value` is least among the eligible ones (so a symbol of value 0 or with an
`N_STAB` bit is never the one reported), and `dli_saddr <= a` provided the subtraction
`a - slide` did not wrap (`slide <= a`); if no symbol is eligible, the call returns true
with `dli_saddr` and `dli_sname` `NULL`. -/
theorem ksdl_dladdr_nearest_symbol (cache : ImageCache) (mem : ProcessMemory)
    (address idx : Nat) (header : MachHeader) (pre : List LoadCommand)
    (symoff nsyms stroff : Nat) (post : List LoadCommand)
    (h : SymbolLookup cache address idx header pre symoff nsyms stroff post) :
    ((∃ j, j < nsyms ∧
        Eligible (lookupAddress cache address idx) (symbolAt cache mem idx symoff j)) →
      ∃ b, b < nsyms ∧
        Eligible (lookupAddress cache address idx) (symbolAt cache mem idx symoff b) ∧
        (∀ j, j < nsyms →
          Eligible (lookupAddress cache address idx) (symbolAt cache mem idx symoff j) →
          lookupAddress cache address idx - (symbolAt cache mem idx symoff b).n_value ≤
            lookupAddress cache address idx - (symbolAt cache mem idx symoff j).n_value) ∧
        (ksdl_dladdr cache mem address).1 = true ∧
        (ksdl_dladdr cache mem address).2.dli_saddr =
          addPtr (symbolAt cache mem idx symoff b).n_value (cache.imageVMAddrSlide idx) ∧
        (address < PTR_MOD → cache.imageVMAddrSlide idx ≤ address →
          (ksdl_dladdr cache mem address).2.dli_saddr ≤ address)) ∧
    ((∀ j, j < nsyms →
        ¬ Eligible (lookupAddress cache address idx) (symbolAt cache mem idx symoff j)) →
      (ksdl_dladdr cache mem address).1 = true ∧
      (ksdl_dladdr cache mem address).2.dli_saddr = 0 ∧
      (ksdl_dladdr cache mem address).2.dli_sname = 0) := by
  obtain ⟨hnone, hsome⟩ :=
    ksdl_dladdr_symbol cache mem address idx header pre symoff nsyms stroff post h
  refine ⟨fun hex => ?_, fun hno => ?_⟩
  · obtain ⟨b, hb, hbel, hbmin, hrun⟩ := hsome hex
    refine ⟨b, hb, hbel, fun j hj hej => (hbmin j hj hej).1, by rw [hrun],
      by rw [hrun]; exact exposeSymbol_saddr _ _ _ _ _, fun ha hs => ?_⟩
    rw [hrun]
    simp only [exposeSymbol_saddr]
    have hle := hbel.2.2
    simp only [lookupAddress, subPtr, addPtr, PTR_MOD] at hle ha ⊢
    omega
  · rw [hnone hno]
    exact ⟨rfl, rfl, rfl⟩

/-- C7 at a concrete input: in `demoCache` the address `slide + 608` lies after the symbols
of value 256 and 512 and after a debug entry of value 592; `dli_saddr` is `slide + 512`. -/
theorem ksdl_dladdr_nearest_symbol_witness :
    ((∃ j, j < 6 ∧
        Eligible (lookupAddress demoCache 66144 0) (symbolAt demoCache demoMemory 0 256 j)) →
      ∃ b, b < 6 ∧
        Eligible (lookupAddress demoCache 66144 0) (symbolAt demoCache demoMemory 0 256 b) ∧
        (∀ j, j < 6 →
          Eligible (lookupAddress demoCache 66144 0) (symbolAt demoCache demoMemory 0 256 j) →
          lookupAddress demoCache 66144 0 - (symbolAt demoCache demoMemory 0 256 b).n_value ≤
            lookupAddress demoCache 66144 0 - (symbolAt demoCache demoMemory 0 256 j).n_value) ∧
        (ksdl_dladdr demoCache demoMemory 66144).1 = true ∧
        (ksdl_dladdr demoCache demoMemory 66144).2.dli_saddr =
          addPtr (symbolAt demoCache demoMemory 0 256 b).n_value
            (demoCache.imageVMAddrSlide 0) ∧
        (66144 < PTR_MOD → demoCache.imageVMAddrSlide 0 ≤ 66144 →
          (ksdl_dladdr demoCache demoMemory 66144).2.dli_saddr ≤ 66144)) ∧
    ((∀ j, j < 6 →
        ¬ Eligible (lookupAddress demoCache 66144 0) (symbolAt demoCache demoMemory 0 256 j)) →
      (ksdl_dladdr demoCache demoMemory 66144).1 = true ∧
      (ksdl_dladdr demoCache demoMemory 66144).2.dli_saddr = 0 ∧
      (ksdl_dladdr demoCache demoMemory 66144).2.dli_sname = 0) :=
  ksdl_dladdr_nearest_symbol demoCache demoMemory 66144 0 demoHeader
    [.segment64 ⟨bytesOf "__TEXT", by decide⟩ 0 4096 0, .segment64 SEG_LINKEDIT 16384 4096 8192]
    256 6 512 []
    ⟨by decide, by decide, by decide, by decide, by decide, by decide, by decide⟩

/-- C7 fails as stated in two ways.  With a slide of `-4` (as a `uintptr_t`) and the address
1, `a' = 5`, the symbol of value 2 is eligible and reported, and `dli_saddr` is
`2 + slide = 2^64 - 2`, which is not `<= 1`.  And an image that contains the address but
has no `__LINKEDIT` segment and no slide has segment base 0: `ksdl_dladdr` returns false
and reports no symbol although one is eligible. -/
theorem ksdl_dladdr_nearest_symbol_counterexample :
    (SymbolLookup lowCache 1 0 demoHeader
        [.segment64 ⟨bytesOf "__TEXT", by decide⟩ 0 4096 0,
          .segment64 SEG_LINKEDIT 16384 4096 8192] 256 6 512 [] ∧
      Eligible (lookupAddress lowCache 1 0) (symbolAt lowCache lowMemory 0 256 0) ∧
      (ksdl_dladdr lowCache lowMemory 1).1 = true ∧
      (ksdl_dladdr lowCache lowMemory 1).2.dli_saddr = 18446744073709551614 ∧
      ¬ (ksdl_dladdr lowCache lowMemory 1).2.dli_saddr ≤ 1) ∧
    (imageIndexContainingAddress bareCache 600 = 0 ∧
      Eligible (lookupAddress bareCache 600 0) (symbolAt bareCache lowMemory 0 256 0) ∧
      (ksdl_dladdr bareCache lowMemory 600).1 = false ∧
      (ksdl_dladdr bareCache lowMemory 600).2.dli_saddr = 0) :=
  ⟨⟨⟨by decide, by decide, by decide, by decide, by decide, by decide, by decide⟩,
      by decide, by decide, by decide, by decide⟩,
    ⟨by decide, by decide, by decide, by decide⟩⟩

/-- C8: when several eligible symbols of the symbol table are at the same least distance
from the target, the one chosen is the one of highest index: if `i` is eligible, at the
least distance, and no eligible symbol at that distance has a higher index, then the name,
`n_desc` and value that `ksdl_dladdr` exposes are those of symbol `i`. -/
theorem ksdl_dladdr_tie_break (cache : ImageCache) (mem : ProcessMemory) (address idx : Nat)
    (header : MachHeader) (pre : List LoadCommand) (symoff nsyms stroff : Nat)
    (post : List LoadCommand)
    (h : SymbolLookup cache address idx header pre symoff nsyms stroff post)
    (i : Nat) (hi : i < nsyms)
    (hel : Eligible (lookupAddress cache address idx) (symbolAt cache mem idx symoff i))
    (hmin : ∀ j, j < nsyms →
      Eligible (lookupAddress cache address idx) (symbolAt cache mem idx symoff j) →
      lookupAddress cache address idx - (symbolAt cache mem idx symoff i).n_value ≤
        lookupAddress cache address idx - (symbolAt cache mem idx symoff j).n_value)
    (hlast : ∀ j, j < nsyms →
      Eligible (lookupAddress cache address idx) (symbolAt cache mem idx symoff j) →
      lookupAddress cache address idx - (symbolAt cache mem idx symoff j).n_value =
        lookupAddress cache address idx - (symbolAt cache mem idx symoff i).n_value →
      j ≤ i) :
    ksdl_dladdr cache mem address =
      (true, exposeSymbol mem (addPtr (lookupBase cache idx) stroff)
        (cache.imageVMAddrSlide idx) (symbolAt cache mem idx symoff i) (imageInfo cache idx)) :=
  ksdl_dladdr_selected cache mem address idx header pre symoff nsyms stroff post h i hi hel
    hmin hlast

/-- C8 at a concrete input: in `demoCache` the symbols 1 (`"_a"`) and 2 (`"b"`) have the same
value 512; for the address `slide + 608` the later one, symbol 2, is exposed. -/
theorem ksdl_dladdr_tie_break_witness :
    (symbolAt demoCache demoMemory 0 256 1).n_value =
      (symbolAt demoCache demoMemory 0 256 2).n_value ∧
    ksdl_dladdr demoCache demoMemory 66144 =
      (true, exposeSymbol demoMemory (addPtr (lookupBase demoCache 0) 512)
        (demoCache.imageVMAddrSlide 0) (symbolAt demoCache demoMemory 0 256 2)
        (imageInfo demoCache 0)) ∧
    cstrAt demoMemory 10 (ksdl_dladdr demoCache demoMemory 66144).2.dli_sname = bytesOf "b" :=
  ⟨by decide,
    ksdl_dladdr_tie_break demoCache demoMemory 66144 0 demoHeader
      [.segment64 ⟨bytesOf "__TEXT", by decide⟩ 0 4096 0,
        .segment64 SEG_LINKEDIT 16384 4096 8192]
      256 6 512 []
      ⟨by decide, by decide, by decide, by decide, by decide, by decide, by decide⟩
      2 (by decide) (by decide) (by decide) (by decide),
    by decide⟩

/-- C9: for a lookup that selects the symbol `s` (symbol `i` of the table): if
`s.n_desc == 16` then `dli_sname` is `NULL` while `dli_saddr` is `s.n_value + slide`;
otherwise `dli_saddr` is the same and `dli_sname` points at the string-table entry at
`stroff + s.n_strx`, moved one byte forward if and only if the entry starts with `'_'`:
then the entry reads `'_'` followed by the exposed name (one underscore removed, a second
one kept), else the exposed name is the entry unchanged. -/
theorem ksdl_dladdr_exposed_name (cache : ImageCache) (mem : ProcessMemory)
    (address idx : Nat) (header : MachHeader) (pre : List LoadCommand)
    (symoff nsyms stroff : Nat) (post : List LoadCommand)
    (h : SymbolLookup cache address idx header pre symoff nsyms stroff post)
    (i : Nat) (hi : i < nsyms)
    (hel : Eligible (lookupAddress cache address idx) (symbolAt cache mem idx symoff i))
    (hmin : ∀ j, j < nsyms →
      Eligible (lookupAddress cache address idx) (symbolAt cache mem idx symoff j) →
      lookupAddress cache address idx - (symbolAt cache mem idx symoff i).n_value ≤
        lookupAddress cache address idx - (symbolAt cache mem idx symoff j).n_value)
    (hlast : ∀ j, j < nsyms →
      Eligible (lookupAddress cache address idx) (symbolAt cache mem idx symoff j) →
      lookupAddress cache address idx - (symbolAt cache mem idx symoff j).n_value =
        lookupAddress cache address idx - (symbolAt cache mem idx symoff i).n_value →
      j ≤ i) :
    (ksdl_dladdr cache mem address).1 = true ∧
    (ksdl_dladdr cache mem address).2.dli_saddr =
      addPtr (symbolAt cache mem idx symoff i).n_value (cache.imageVMAddrSlide idx) ∧
    ((symbolAt cache mem idx symoff i).n_desc = 16 →
      (ksdl_dladdr cache mem address).2.dli_sname = 0) ∧
    ((symbolAt cache mem idx symoff i).n_desc ≠ 16 →
      (mem.byte (addPtr (addPtr (lookupBase cache idx) stroff)
          (symbolAt cache mem idx symoff i).n_strx) = toChar 95 →
        (ksdl_dladdr cache mem address).2.dli_sname =
          addPtr (addPtr (lookupBase cache idx) stroff)
            (symbolAt cache mem idx symoff i).n_strx + 1 ∧
        ∀ n, cstrAt mem (n + 1) (addPtr (addPtr (lookupBase cache idx) stroff)
            (symbolAt cache mem idx symoff i).n_strx) =
          toChar 95 :: cstrAt mem n (ksdl_dladdr cache mem address).2.dli_sname) ∧
      (mem.byte (addPtr (addPtr (lookupBase cache idx) stroff)
          (symbolAt cache mem idx symoff i).n_strx) ≠ toChar 95 →
        (ksdl_dladdr cache mem address).2.dli_sname =
          addPtr (addPtr (lookupBase cache idx) stroff)
            (symbolAt cache mem idx symoff i).n_strx)) := by
  have hrun := ksdl_dladdr_selected cache mem address idx header pre symoff nsyms stroff post
    h i hi hel hmin hlast
  rw [hrun]
  refine ⟨rfl, exposeSymbol_saddr _ _ _ _ _, fun hd => ?_, fun hd => ⟨fun hu => ?_, fun hu => ?_⟩⟩
  · simp only [exposeSymbol, if_pos hd]
  · have hs : (exposeSymbol mem (addPtr (lookupBase cache idx) stroff)
        (cache.imageVMAddrSlide idx) (symbolAt cache mem idx symoff i)
        (imageInfo cache idx)).dli_sname =
        addPtr (addPtr (lookupBase cache idx) stroff)
          (symbolAt cache mem idx symoff i).n_strx + 1 := by
      simp only [exposeSymbol, if_neg hd, if_pos hu]
    refine ⟨hs, fun n => ?_⟩
    simp only [hs]
    have hnz : ¬ mem.byte (addPtr (addPtr (lookupBase cache idx) stroff)
        (symbolAt cache mem idx symoff i).n_strx) = 0 := by
      rw [hu]; decide
    rw [cstrAt, if_neg hnz, hu]
  · simp only [exposeSymbol, if_neg hd, if_neg hu]

/-- C9 at concrete inputs in `demoCache`: the entry `"__x"` of symbol 0 is exposed as `"_x"`
(address `slide + 336`), and for symbol 5, whose `n_desc` is 16, the name is withheld while
`dli_saddr` is `slide + 768` (address `slide + 784`). -/
theorem ksdl_dladdr_exposed_name_witness :
    ((ksdl_dladdr demoCache demoMemory 65872).1 = true ∧
      (ksdl_dladdr demoCache demoMemory 65872).2.dli_saddr =
        addPtr (symbolAt demoCache demoMemory 0 256 0).n_value (demoCache.imageVMAddrSlide 0) ∧
      ((symbolAt demoCache demoMemory 0 256 0).n_desc = 16 →
        (ksdl_dladdr demoCache demoMemory 65872).2.dli_sname = 0) ∧
      ((symbolAt demoCache demoMemory 0 256 0).n_desc ≠ 16 →
        (demoMemory.byte (addPtr (addPtr (lookupBase demoCache 0) 512)
            (symbolAt demoCache demoMemory 0 256 0).n_strx) = toChar 95 →
          (ksdl_dladdr demoCache demoMemory 65872).2.dli_sname =
            addPtr (addPtr (lookupBase demoCache 0) 512)
              (symbolAt demoCache demoMemory 0 256 0).n_strx + 1 ∧
          ∀ n, cstrAt demoMemory (n + 1) (addPtr (addPtr (lookupBase demoCache 0) 512)
              (symbolAt demoCache demoMemory 0 256 0).n_strx) =
            toChar 95 :: cstrAt demoMemory n (ksdl_dladdr demoCache demoMemory 65872).2.dli_sname) ∧
        (demoMemory.byte (addPtr (addPtr (lookupBase demoCache 0) 512)
            (symbolAt demoCache demoMemory 0 256 0).n_strx) ≠ toChar 95 →
          (ksdl_dladdr demoCache demoMemory 65872).2.dli_sname =
            addPtr (addPtr (lookupBase demoCache 0) 512)
              (symbolAt demoCache demoMemory 0 256 0).n_strx))) ∧
    cstrAt demoMemory 10 (addPtr (addPtr (lookupBase demoCache 0) 512)
      (symbolAt demoCache demoMemory 0 256 0).n_strx) = bytesOf "__x" ∧
    cstrAt demoMemory 10 (ksdl_dladdr demoCache demoMemory 65872).2.dli_sname = bytesOf "_x" ∧
    (symbolAt demoCache demoMemory 0 256 5).n_desc = 16 ∧
    (ksdl_dladdr demoCache demoMemory 66320).2.dli_sname = 0 ∧
    (ksdl_dladdr demoCache demoMemory 66320).2.dli_saddr = 65536 + 768 :=
  ⟨ksdl_dladdr_exposed_name demoCache demoMemory 65872 0 demoHeader
      [.segment64 ⟨bytesOf "__TEXT", by decide⟩ 0 4096 0,
        .segment64 SEG_LINKEDIT 16384 4096 8192]
      256 6 512 []
      ⟨by decide, by decide, by decide, by decide, by decide, by decide, by decide⟩
      0 (by decide) (by decide) (by decide) (by decide),
    by decide, by decide, by decide, by decide, by decide⟩

/-! ### Lookup by name -/

theorem strcmp_eq_zero_iff :
    ∀ (a b : List Byte), (∀ x ∈ a, x ≠ 0) → (∀ x ∈ b, x ≠ 0) → (strcmp a b = 0 ↔ a = b) := by
  intro a
  induction a with
  | nil =>
    intro b _ hb
    cases b with
    | nil => simp [strcmp]
    | cons y ys =>
      have hy : y ≠ 0 := hb y (List.mem_cons_self _ _)
      have hyv : (y.val : Int) ≠ 0 := by
        intro h
        apply hy
        apply Fin.ext
        simpa using h
      simp only [strcmp]
      constructor
      · intro h; omega
      · intro h; cases h
  | cons x xs ih =>
    intro b ha hb
    have hx : x ≠ 0 := ha x (List.mem_cons_self _ _)
    have hxv : (x.val : Int) ≠ 0 := by
      intro h
      apply hx
      apply Fin.ext
      simpa using h
    cases b with
    | nil =>
      simp only [strcmp]
      constructor
      · intro h; exact absurd h hxv
      · intro h; cases h
    | cons y ys =>
      simp only [strcmp]
      by_cases hxy : x = y
      · subst hxy
        rw [if_pos rfl, ih ys (fun z hz => ha z (List.mem_cons_of_mem _ hz))
          (fun z hz => hb z (List.mem_cons_of_mem _ hz))]
        simp
      · rw [if_neg hxy]
        constructor
        · intro h
          exfalso
          apply hxy
          apply Fin.ext
          omega
        · intro h
          cases h
          exact absurd rfl hxy

theorem startsWith_iff : ∀ (hay needle : List Byte),
    startsWith hay needle = true ↔ ∃ post, hay = needle ++ post := by
  intro hay
  induction hay with
  | nil =>
    intro needle
    cases needle with
    | nil => simp [startsWith]
    | cons n ns => simp [startsWith]
  | cons h hs ih =>
    intro needle
    cases needle with
    | nil => simp [startsWith]
    | cons n ns =>
      simp only [startsWith, Bool.and_eq_true, decide_eq_true_eq, ih ns, List.cons_append,
        List.cons.injEq]
      constructor
      · rintro ⟨rfl, post, rfl⟩
        exact ⟨post, rfl, rfl⟩
      · rintro ⟨post, rfl, rfl⟩
        exact ⟨rfl, post, rfl⟩

theorem strstr_isSome_iff : ∀ (hay needle : List Byte),
    (strstr hay needle).isSome = true ↔ ∃ pre post, hay = pre ++ needle ++ post := by
  intro hay
  induction hay with
  | nil =>
    intro needle
    simp only [strstr]
    by_cases hs : startsWith [] needle = true
    · rw [if_pos hs]
      obtain ⟨post, hpost⟩ := (startsWith_iff [] needle).mp hs
      simp only [Option.isSome_some, true_iff]
      exact ⟨[], post, by simpa using hpost⟩
    · rw [if_neg hs]
      simp only [Option.isSome_none, Bool.false_eq_true, false_iff]
      rintro ⟨pre, post, heq⟩
      apply hs
      apply (startsWith_iff [] needle).mpr
      have h1 : pre ++ needle ++ post = [] := heq.symm
      simp only [List.append_eq_nil] at h1
      exact ⟨[], by simp [h1.1.2]⟩
  | cons h hs ih =>
    intro needle
    simp only [strstr]
    by_cases hst : startsWith (h :: hs) needle = true
    · rw [if_pos hst]
      obtain ⟨post, hpost⟩ := (startsWith_iff _ needle).mp hst
      simp only [Option.isSome_some, true_iff]
      exact ⟨[], post, by simpa using hpost⟩
    · rw [if_neg hst]
      rw [Option.isSome_map', ih needle]
      constructor
      · rintro ⟨pre, post, heq⟩
        exact ⟨h :: pre, post, by simp [heq]⟩
      · rintro ⟨pre, post, heq⟩
        cases pre with
        | nil =>
          exfalso
          apply hst
          exact (startsWith_iff _ needle).mpr ⟨post, by simpa using heq⟩
        | cons p pre =>
          simp only [List.cons_append, List.cons.injEq] at heq
          exact ⟨pre, post, heq.2⟩

/-- One step of the name loop. -/
theorem imageNamedLoop_step (cache : ImageCache) (name : CStr) (exactMatch : Bool)
    (remaining iImg : Nat) :
    (NameMatches cache name exactMatch iImg ∧
      imageNamedLoop cache name exactMatch (remaining + 1) iImg = iImg) ∨
    (¬ NameMatches cache name exactMatch iImg ∧
      imageNamedLoop cache name exactMatch (remaining + 1) iImg =
        imageNamedLoop cache name exactMatch remaining (iImg + 1)) := by
  cases hn : cache.imageName iImg with
  | none =>
    right
    refine ⟨?_, by simp [imageNamedLoop, hn]⟩
    rintro ⟨p, hp, _⟩
    rw [hn] at hp; cases hp
  | some p =>
    cases exactMatch with
    | true =>
      by_cases hc : strcmp p.val name.val = 0
      · left
        refine ⟨⟨p, hn, ?_⟩, by simp [imageNamedLoop, hn, hc]⟩
        simp only [if_true]
        exact Subtype.ext ((strcmp_eq_zero_iff _ _ p.property name.property).mp hc)
      · right
        refine ⟨?_, by simp [imageNamedLoop, hn, hc]⟩
        rintro ⟨p', hp', hm⟩
        rw [hn] at hp'
        cases hp'
        simp only [if_true] at hm
        exact hc ((strcmp_eq_zero_iff _ _ p.property name.property).mpr (by rw [hm]))
    | false =>
      by_cases hc : (strstr p.val name.val).isSome = true
      · left
        refine ⟨⟨p, hn, ?_⟩, by simp [imageNamedLoop, hn, hc]⟩
        simp only [Bool.false_eq_true, if_false]
        exact (strstr_isSome_iff _ _).mp hc
      · right
        refine ⟨?_, by simp [imageNamedLoop, hn, hc]⟩
        rintro ⟨p', hp', hm⟩
        rw [hn] at hp'
        cases hp'
        simp only [Bool.false_eq_true, if_false] at hm
        exact hc ((strstr_isSome_iff _ _).mpr hm)

/-- The name loop returns the first index in range whose path matches, and `UINT32_MAX`
when there is none. -/
theorem imageNamedLoop_spec (cache : ImageCache) (name : CStr) (exactMatch : Bool) :
    ∀ (remaining iImg : Nat),
      (∃ k, iImg ≤ k ∧ k < iImg + remaining ∧ NameMatches cache name exactMatch k ∧
        (∀ j, iImg ≤ j → j < k → ¬ NameMatches cache name exactMatch j) ∧
        imageNamedLoop cache name exactMatch remaining iImg = k) ∨
      ((∀ j, iImg ≤ j → j < iImg + remaining → ¬ NameMatches cache name exactMatch j) ∧
        imageNamedLoop cache name exactMatch remaining iImg = UINT32_MAX) := by
  intro remaining
  induction remaining with
  | zero =>
    intro iImg
    right
    exact ⟨fun j h1 h2 => by omega, rfl⟩
  | succ remaining ih =>
    intro iImg
    rcases imageNamedLoop_step cache name exactMatch remaining iImg with
      ⟨hc, hrun⟩ | ⟨hnc, hrun⟩
    · left
      exact ⟨iImg, le_refl _, by omega, hc, fun j h1 h2 => by omega, hrun⟩
    · rcases ih (iImg + 1) with ⟨k, hk1, hk2, hck, hbefore, hrun2⟩ | ⟨hnone, hrun2⟩
      · left
        refine ⟨k, by omega, by omega, hck, fun j h1 h2 => ?_, by rw [hrun, hrun2]⟩
        by_cases hj : j = iImg
        · rw [hj]; exact hnc
        · exact hbefore j (by omega) h2
      · right
        refine ⟨fun j h1 h2 => ?_, by rw [hrun, hrun2]⟩
        by_cases hj : j = iImg
        · rw [hj]; exact hnc
        · exact hnone j (by omega) (by omega)

/-- C10: for a non-NULL name, `ksdl_imageNamed` returns the smallest index whose image has a
non-NULL path equal to the name (exact match) or containing it as a substring; it
returns `UINT32_MAX` when there is no such index or the name is `NULL`; and when the
exact search finds the index `e`, the substring search finds an index `<= e`. -/
theorem ksdl_imageNamed_spec (cache : ImageCache) :
    (∀ (name : CStr) (exactMatch : Bool) (i : Nat), i < cache.imageCount →
      NameMatches cache name exactMatch i →
      (∀ j, j < i → ¬ NameMatches cache name exactMatch j) →
      ksdl_imageNamed cache (some name) exactMatch = i) ∧
    (∀ (name : CStr) (exactMatch : Bool),
      (∀ i, i < cache.imageCount → ¬ NameMatches cache name exactMatch i) →
      ksdl_imageNamed cache (some name) exactMatch = UINT32_MAX) ∧
    (∀ exactMatch : Bool, ksdl_imageNamed cache none exactMatch = UINT32_MAX) ∧
    (∀ (name : CStr), ksdl_imageNamed cache (some name) true ≠ UINT32_MAX →
      ksdl_imageNamed cache (some name) false ≤ ksdl_imageNamed cache (some name) true) := by
  have hlt := cache.count_lt
  refine ⟨?_, ?_, fun _ => rfl, ?_⟩
  · intro name exactMatch i hi hm hbefore
    rcases imageNamedLoop_spec cache name exactMatch cache.imageCount 0 with
      ⟨k, _, _, hck, hkbefore, hrun⟩ | ⟨hnone, _⟩
    · show imageNamedLoop cache name exactMatch cache.imageCount 0 = i
      rw [hrun]
      rcases Nat.lt_trichotomy k i with h | h | h
      · exact absurd hck (hbefore k h)
      · exact h
      · exact absurd hm (hkbefore i (Nat.zero_le _) h)
    · exact absurd hm (hnone i (Nat.zero_le _) (by omega))
  · intro name exactMatch hnone
    rcases imageNamedLoop_spec cache name exactMatch cache.imageCount 0 with
      ⟨k, _, hk, hck, _, _⟩ | ⟨_, hrun⟩
    · exact absurd hck (hnone k (by omega))
    · exact hrun
  · intro name hne
    rcases imageNamedLoop_spec cache name true cache.imageCount 0 with
      ⟨e, _, he, hce, _, hrune⟩ | ⟨_, hrune⟩
    · have hsub : NameMatches cache name false e := by
        obtain ⟨p, hp, hm⟩ := hce
        simp only [if_true] at hm
        refine ⟨p, hp, ?_⟩
        simp only [Bool.false_eq_true, if_false]
        exact ⟨[], [], by rw [hm]; simp⟩
      rcases imageNamedLoop_spec cache name false cache.imageCount 0 with
        ⟨k, _, _, _, hkbefore, hrunk⟩ | ⟨hnone, _⟩
      · show imageNamedLoop cache name false cache.imageCount 0 ≤
          imageNamedLoop cache name true cache.imageCount 0
        rw [hrune, hrunk]
        by_contra hgt
        exact hkbefore e (Nat.zero_le _) (by omega) hsub
      · exact absurd hsub (hnone e (Nat.zero_le _) (by omega))
    · exact absurd hrune hne

/-- In `namedCache` the exact search for `"libfoo"` finds image 2, the substring search image
0, and `"libbar"` is found by neither. -/
theorem ksdl_imageNamed_examples :
    ksdl_imageNamed namedCache (some ⟨bytesOf "libfoo", by decide⟩) true = 2 ∧
    ksdl_imageNamed namedCache (some ⟨bytesOf "libfoo", by decide⟩) false = 0 ∧
    ksdl_imageNamed namedCache (some ⟨bytesOf "libbar", by decide⟩) false = UINT32_MAX := by
  decide

/-! ### Describing an image -/

theorem binaryImageLoop_append (l : List LoadCommand) (c : LoadCommand) :
    ∀ st : ImageScan, binaryImageLoop (l ++ [c]) st = binaryImageStep (binaryImageLoop l st) c := by
  induction l with
  | nil => intro st; rfl
  | cons a l ih =>
    intro st
    show binaryImageLoop (l ++ [c]) (binaryImageStep st a) = _
    exact ih _

/-- The walk over the load commands keeps, for each local, what the last command of the
relevant kind set, and the initial value when there is none. -/
theorem binaryImageLoop_spec (st : ImageScan) (cmds : List LoadCommand) :
    binaryImageLoop cmds st =
      { imageSize := ((textSegments cmds).getLast?.map Prod.snd).getD st.imageSize
        imageVmAddr := ((textSegments cmds).getLast?.map Prod.fst).getD st.imageVmAddr
        version := (dylibVersions cmds).getLast?.getD st.version
        uuid := (uuidPayloads cmds).getLast?.or st.uuid } := by
  induction cmds using List.reverseRecOn with
  | nil => simp [binaryImageLoop, textSegments, dylibVersions, uuidPayloads]
  | append_singleton l c ih =>
    rw [binaryImageLoop_append, ih]
    cases c with
    | segment n va vs fo =>
      by_cases hn : n = SEG_TEXT
      · simp [binaryImageStep, textSegments, dylibVersions, uuidPayloads, hn]
      · simp [binaryImageStep, textSegments, dylibVersions, uuidPayloads, hn]
    | segment64 n va vs fo =>
      by_cases hn : n = SEG_TEXT
      · simp [binaryImageStep, textSegments, dylibVersions, uuidPayloads, hn]
      · simp [binaryImageStep, textSegments, dylibVersions, uuidPayloads, hn]
    | symtab a b c => simp [binaryImageStep, textSegments, dylibVersions, uuidPayloads]
    | uuid u => simp [binaryImageStep, textSegments, dylibVersions, uuidPayloads]
    | idDylib v => simp [binaryImageStep, textSegments, dylibVersions, uuidPayloads]
    | other c => simp [binaryImageStep, textSegments, dylibVersions, uuidPayloads]

theorem storeCrashInfo_frame (mem : CrashInfoMemory) (record : crash_info_t)
    (buffer : KSBinaryImage) :
    (storeCrashInfo mem record buffer).address = buffer.address ∧
    (storeCrashInfo mem record buffer).vmAddress = buffer.vmAddress ∧
    (storeCrashInfo mem record buffer).size = buffer.size ∧
    (storeCrashInfo mem record buffer).name = buffer.name ∧
    (storeCrashInfo mem record buffer).uuid = buffer.uuid ∧
    (storeCrashInfo mem record buffer).cpuType = buffer.cpuType ∧
    (storeCrashInfo mem record buffer).cpuSubType = buffer.cpuSubType ∧
    (storeCrashInfo mem record buffer).majorVersion = buffer.majorVersion ∧
    (storeCrashInfo mem record buffer).minorVersion = buffer.minorVersion ∧
    (storeCrashInfo mem record buffer).revisionVersion = buffer.revisionVersion := by
  cases h1 : isValidCrashInfoMessage mem record.message <;>
  cases h2 : isValidCrashInfoMessage mem record.message2 <;>
  cases h3 : isValidCrashInfoMessage mem record.backtrace <;>
  cases h4 : isValidCrashInfoMessage mem record.signature <;>
  simp [storeCrashInfo, h1, h2, h3, h4]

/-- The crash-info extraction touches only the four crash-info fields. -/
theorem getCrashInfo_frame (mem : CrashInfoMemory) (header : MachHeader)
    (buffer : KSBinaryImage) :
    (getCrashInfo mem header buffer).address = buffer.address ∧
    (getCrashInfo mem header buffer).vmAddress = buffer.vmAddress ∧
    (getCrashInfo mem header buffer).size = buffer.size ∧
    (getCrashInfo mem header buffer).name = buffer.name ∧
    (getCrashInfo mem header buffer).uuid = buffer.uuid ∧
    (getCrashInfo mem header buffer).cpuType = buffer.cpuType ∧
    (getCrashInfo mem header buffer).cpuSubType = buffer.cpuSubType ∧
    (getCrashInfo mem header buffer).majorVersion = buffer.majorVersion ∧
    (getCrashInfo mem header buffer).minorVersion = buffer.minorVersion ∧
    (getCrashInfo mem header buffer).revisionVersion = buffer.revisionVersion := by
  unfold getCrashInfo
  split
  · simp
  · split
    · simp
    · split
      · simp
      · split
        · simp
        · split
          · simp
          · exact storeCrashInfo_frame _ _ _

theorem version_triple (v : Nat) :
    (v >>> 16) * 65536 + ((v >>> 8) &&& 0xff) * 256 + (v &&& 0xff) = v ∧
    (v >>> 8) &&& 0xff < 256 ∧ v &&& 0xff < 256 := by
  have h1 : ∀ x : Nat, x &&& 0xff = x % 256 := fun x => Nat.and_pow_two_sub_one_eq_mod x 8
  rw [h1, h1, Nat.shiftRight_eq_div_pow, Nat.shiftRight_eq_div_pow]
  omega

/-- C11: `ksdl_getBinaryImageForHeader` returns false if and only if the header magic is none
of the four known values.  When it returns true, `size` and `vmAddress` are the `vmsize`
and `vmaddr` of the last segment named `__TEXT` (0 if none), `uuid` is the payload of the
last `LC_UUID` command (`NULL` if none) and, with `v` the `current_version` of the last
`LC_ID_DYLIB` command (0 if none), `majorVersion = v >> 16`,
`minorVersion = (v >> 8) & 0xff`, `revisionVersion = v & 0xff`, so that
`majorVersion * 65536 + minorVersion * 256 + revisionVersion = v` with `minorVersion` and
`revisionVersion` below 256. -/
theorem ksdl_getBinaryImageForHeader_spec (mem : CrashInfoMemory) (header : MachHeader)
    (image_name : Option CStr) (buffer : KSBinaryImage) :
    ((ksdl_getBinaryImageForHeader mem header image_name buffer).1 = false ↔
      ¬ ValidMagic header) ∧
    ((ksdl_getBinaryImageForHeader mem header image_name buffer).1 = true →
      (ksdl_getBinaryImageForHeader mem header image_name buffer).2.size =
        ((textSegments header.cmds).getLast?.map Prod.snd).getD 0 ∧
      (ksdl_getBinaryImageForHeader mem header image_name buffer).2.vmAddress =
        ((textSegments header.cmds).getLast?.map Prod.fst).getD 0 ∧
      (ksdl_getBinaryImageForHeader mem header image_name buffer).2.uuid =
        (uuidPayloads header.cmds).getLast? ∧
      (ksdl_getBinaryImageForHeader mem header image_name buffer).2.majorVersion =
        (dylibVersions header.cmds).getLast?.getD 0 >>> 16 ∧
      (ksdl_getBinaryImageForHeader mem header image_name buffer).2.minorVersion =
        ((dylibVersions header.cmds).getLast?.getD 0 >>> 8) &&& 0xff ∧
      (ksdl_getBinaryImageForHeader mem header image_name buffer).2.revisionVersion =
        (dylibVersions header.cmds).getLast?.getD 0 &&& 0xff ∧
      (ksdl_getBinaryImageForHeader mem header image_name buffer).2.majorVersion * 65536 +
          (ksdl_getBinaryImageForHeader mem header image_name buffer).2.minorVersion * 256 +
          (ksdl_getBinaryImageForHeader mem header image_name buffer).2.revisionVersion =
        (dylibVersions header.cmds).getLast?.getD 0 ∧
      (ksdl_getBinaryImageForHeader mem header image_name buffer).2.minorVersion < 256 ∧
      (ksdl_getBinaryImageForHeader mem header image_name buffer).2.revisionVersion < 256) := by
  cases hc : firstCmdAfterHeader header with
  | none =>
    have hnv := (firstCmdAfterHeader_eq_none header).mp hc
    simp [ksdl_getBinaryImageForHeader, hc, hnv]
  | some cmds =>
    obtain ⟨hv, hcmds⟩ := (firstCmdAfterHeader_eq_some header cmds).mp hc
    subst hcmds
    have hloop := binaryImageLoop_spec
      { imageSize := 0, imageVmAddr := 0, version := 0, uuid := none } header.cmds
    have hrun : ksdl_getBinaryImageForHeader mem header image_name buffer =
        (true, getCrashInfo mem header
          { buffer with
            address := header.address
            vmAddress := (binaryImageLoop header.cmds
              { imageSize := 0, imageVmAddr := 0, version := 0, uuid := none }).imageVmAddr
            size := (binaryImageLoop header.cmds
              { imageSize := 0, imageVmAddr := 0, version := 0, uuid := none }).imageSize
            name := image_name
            uuid := (binaryImageLoop header.cmds
              { imageSize := 0, imageVmAddr := 0, version := 0, uuid := none }).uuid
            cpuType := header.cputype
            cpuSubType := header.cpusubtype
            majorVersion := (binaryImageLoop header.cmds
              { imageSize := 0, imageVmAddr := 0, version := 0, uuid := none }).version >>> 16
            minorVersion := ((binaryImageLoop header.cmds
              { imageSize := 0, imageVmAddr := 0, version := 0, uuid := none }).version >>> 8)
                &&& 0xff
            revisionVersion := (binaryImageLoop header.cmds
              { imageSize := 0, imageVmAddr := 0, version := 0, uuid := none }).version
                &&& 0xff }) := by
      simp only [ksdl_getBinaryImageForHeader, hc]
    rw [hrun]
    generalize binaryImageLoop header.cmds
      { imageSize := 0, imageVmAddr := 0, version := 0, uuid := none } = st at hloop ⊢
    have hs1 : st.imageSize = ((textSegments header.cmds).getLast?.map Prod.snd).getD 0 := by
      rw [hloop]
    have hs2 : st.imageVmAddr = ((textSegments header.cmds).getLast?.map Prod.fst).getD 0 := by
      rw [hloop]
    have hs3 : st.version = (dylibVersions header.cmds).getLast?.getD 0 := by
      rw [hloop]
    have hs4 : st.uuid = (uuidPayloads header.cmds).getLast? := by
      rw [hloop]; simp
    obtain ⟨_, f2, f3, _, f5, _, _, f8, f9, f10⟩ := getCrashInfo_frame mem header
      { buffer with
        address := header.address
        vmAddress := st.imageVmAddr
        size := st.imageSize
        name := image_name
        uuid := st.uuid
        cpuType := header.cputype
        cpuSubType := header.cpusubtype
        majorVersion := st.version >>> 16
        minorVersion := (st.version >>> 8) &&& 0xff
        revisionVersion := st.version &&& 0xff }
    simp only at f2 f3 f5 f8 f9 f10
    have ht := version_triple st.version
    refine ⟨by simp [hv], fun _ => ⟨by rw [f3, hs1], by rw [f2, hs2], by rw [f5, hs4],
      by rw [f8, hs3], by rw [f9, hs3], by rw [f10, hs3], ?_, ?_, ?_⟩⟩
    · rw [f8, f9, f10, ← hs3]; exact ht.1
    · rw [f9]; exact ht.2.1
    · rw [f10]; exact ht.2.2

/-- On `describedHeader` the second `__TEXT` segment, the second UUID and the version
`1.2.3` are reported. -/
theorem ksdl_getBinaryImageForHeader_examples :
    (ksdl_getBinaryImageForHeader (crashMemory 9) describedHeader none blankImage).1 = true ∧
    (ksdl_getBinaryImageForHeader (crashMemory 9) describedHeader none blankImage).2.size = 200 ∧
    (ksdl_getBinaryImageForHeader (crashMemory 9) describedHeader none blankImage).2.vmAddress =
      8192 ∧
    (ksdl_getBinaryImageForHeader (crashMemory 9) describedHeader none blankImage).2.uuid =
      some [3, 4] ∧
    (ksdl_getBinaryImageForHeader (crashMemory 9) describedHeader none blankImage).2.majorVersion =
      1 ∧
    (ksdl_getBinaryImageForHeader (crashMemory 9) describedHeader none blankImage).2.minorVersion =
      2 ∧
    (ksdl_getBinaryImageForHeader (crashMemory 9) describedHeader none
      blankImage).2.revisionVersion = 3 ∧
    (ksdl_getBinaryImageForHeader (crashMemory 9)
      { describedHeader with magic := 7 } none blankImage).1 = false := by
  decide

/-- C12: a `__crash_info` section smaller than the minimal record, or whose memory is not
readable, or whose record declares a version other than 4 and 5, is skipped: `getCrashInfo`
leaves the whole descriptor as it was, whatever the string pointers of the record are, so
that `ksdl_getBinaryImageForHeader` writes none of `crashInfoMessage`,
`crashInfoMessage2`, `crashInfoBacktrace`, `crashInfoSignature`. -/
theorem getCrashInfo_rejects (mem : CrashInfoMemory) (header : MachHeader)
    (crashInfo size : Nat) (hsec : mem.getsectiondata header = some (crashInfo, size))
    (hrej : size < minimalSize ∨ mem.isMemoryReadable crashInfo minimalSize = false ∨
      ((mem.crashInfoAt crashInfo).version ≠ 4 ∧ (mem.crashInfoAt crashInfo).version ≠ 5)) :
    (∀ buffer : KSBinaryImage, getCrashInfo mem header buffer = buffer) ∧
    (∀ (image_name : Option CStr) (buffer : KSBinaryImage),
      (ksdl_getBinaryImageForHeader mem header image_name buffer).2.crashInfoMessage =
        buffer.crashInfoMessage ∧
      (ksdl_getBinaryImageForHeader mem header image_name buffer).2.crashInfoMessage2 =
        buffer.crashInfoMessage2 ∧
      (ksdl_getBinaryImageForHeader mem header image_name buffer).2.crashInfoBacktrace =
        buffer.crashInfoBacktrace ∧
      (ksdl_getBinaryImageForHeader mem header image_name buffer).2.crashInfoSignature =
        buffer.crashInfoSignature) := by
  have hskip : ∀ buffer : KSBinaryImage, getCrashInfo mem header buffer = buffer := by
    intro buffer
    simp only [getCrashInfo, hsec]
    rcases hrej with h | h | h
    · rw [if_pos h]
    · by_cases h1 : size < minimalSize
      · rw [if_pos h1]
      · rw [if_neg h1, if_pos (by simp [h])]
    · by_cases h1 : size < minimalSize
      · rw [if_pos h1]
      · by_cases h2 : ¬ mem.isMemoryReadable crashInfo minimalSize = true
        · rw [if_neg h1, if_pos h2]
        · rw [if_neg h1, if_neg h2, if_pos h]
  refine ⟨hskip, fun image_name buffer => ?_⟩
  cases hc : firstCmdAfterHeader header with
  | none => simp [ksdl_getBinaryImageForHeader, hc]
  | some cmds => simp [ksdl_getBinaryImageForHeader, hc, hskip]

/-- C12 at a concrete input: a record of version 3 with valid strings leaves the four fields
of `usedImage` as they were. -/
theorem getCrashInfo_rejects_witness :
    (∀ buffer : KSBinaryImage, getCrashInfo (crashMemory 3) describedHeader buffer = buffer) ∧
    (∀ (image_name : Option CStr) (buffer : KSBinaryImage),
      (ksdl_getBinaryImageForHeader (crashMemory 3) describedHeader image_name
        buffer).2.crashInfoMessage = buffer.crashInfoMessage ∧
      (ksdl_getBinaryImageForHeader (crashMemory 3) describedHeader image_name
        buffer).2.crashInfoMessage2 = buffer.crashInfoMessage2 ∧
      (ksdl_getBinaryImageForHeader (crashMemory 3) describedHeader image_name
        buffer).2.crashInfoBacktrace = buffer.crashInfoBacktrace ∧
      (ksdl_getBinaryImageForHeader (crashMemory 3) describedHeader image_name
        buffer).2.crashInfoSignature = buffer.crashInfoSignature) :=
  getCrashInfo_rejects (crashMemory 3) describedHeader 4096 64 rfl
    (Or.inr (Or.inr (by decide)))

theorem terminatorScan_iff (byte : Nat → Byte) (str : Nat) :
    ∀ (remaining i : Nat), terminatorScan byte str remaining i = true ↔
      ∃ j, i ≤ j ∧ j < i + remaining ∧ byte (str + j) = 0 := by
  intro remaining
  induction remaining with
  | zero =>
    intro i
    simp only [terminatorScan, Bool.false_eq_true, false_iff]
    rintro ⟨j, h1, h2, _⟩
    omega
  | succ remaining ih =>
    intro i
    by_cases h0 : byte (str + i) = 0
    · simp only [terminatorScan, if_pos h0, true_iff]
      exact ⟨i, le_refl _, by omega, h0⟩
    · simp only [terminatorScan, if_neg h0, ih]
      constructor
      · rintro ⟨j, h1, h2, h3⟩
        exact ⟨j, by omega, by omega, h3⟩
      · rintro ⟨j, h1, h2, h3⟩
        have hne : j ≠ i := fun h => h0 (by rw [← h]; exact h3)
        exact ⟨j, by omega, by omega, h3⟩

/-- The value of `isValidCrashInfoMessage` in terms of the readable bytes. -/
theorem isValidCrashInfoMessage_iff (mem : CrashInfoMemory) (str : Nat) :
    isValidCrashInfoMessage mem str = true ↔
      str ≠ 0 ∧ 0 < mem.maxReadableBytes str 4097 ∧
      ∃ i : Nat, (i : Int) < mem.maxReadableBytes str 4097 ∧ mem.byte (str + i) = 0 := by
  have h4097 : KSDL_MaxCrashInfoStringLength + 1 = 4097 := by decide
  simp only [isValidCrashInfoMessage, h4097]
  by_cases hs : str = 0
  · simp [hs]
  · rw [if_neg hs]
    by_cases hr : mem.maxReadableBytes str 4097 = 0
    · rw [if_pos hr]
      simp [hr]
    · rw [if_neg hr, terminatorScan_iff]
      constructor
      · rintro ⟨j, _, h2, h3⟩
        exact ⟨hs, by omega, j, by omega, h3⟩
      · rintro ⟨_, hpos, j, hj, h3⟩
        exact ⟨j, Nat.zero_le _, by omega, h3⟩

/-- C13: `isValidCrashInfoMessage(str)` is true if and only if `str` is not `NULL`, the number
`r` of readable bytes at `str` (asked for with the cap 4097) is positive and some index
`i < r` has `str[i] == 0`; its value depends on no byte outside `str[0 .. r)`; and
`getCrashInfo` stores a field of the record into the descriptor only if the field is
valid in this sense: each of the four fields ends up either as it was or as the record's
pointer, and a field whose string has no terminator within the bound keeps its old
value. -/
theorem isValidCrashInfoMessage_spec (mem : CrashInfoMemory) :
    (∀ str : Nat, isValidCrashInfoMessage mem str = true ↔
      str ≠ 0 ∧ 0 < mem.maxReadableBytes str 4097 ∧
      ∃ i : Nat, (i : Int) < mem.maxReadableBytes str 4097 ∧ mem.byte (str + i) = 0) ∧
    (∀ (str : Nat) (mem' : CrashInfoMemory),
      mem'.maxReadableBytes str 4097 = mem.maxReadableBytes str 4097 →
      (∀ i : Nat, (i : Int) < mem.maxReadableBytes str 4097 →
        mem'.byte (str + i) = mem.byte (str + i)) →
      isValidCrashInfoMessage mem' str = isValidCrashInfoMessage mem str) ∧
    (∀ (header : MachHeader) (buffer : KSBinaryImage) (crashInfo size : Nat),
      mem.getsectiondata header = some (crashInfo, size) →
      (isValidCrashInfoMessage mem (mem.crashInfoAt crashInfo).message = false →
        (getCrashInfo mem header buffer).crashInfoMessage = buffer.crashInfoMessage) ∧
      (isValidCrashInfoMessage mem (mem.crashInfoAt crashInfo).message2 = false →
        (getCrashInfo mem header buffer).crashInfoMessage2 = buffer.crashInfoMessage2) ∧
      (isValidCrashInfoMessage mem (mem.crashInfoAt crashInfo).backtrace = false →
        (getCrashInfo mem header buffer).crashInfoBacktrace = buffer.crashInfoBacktrace) ∧
      (isValidCrashInfoMessage mem (mem.crashInfoAt crashInfo).signature = false →
        (getCrashInfo mem header buffer).crashInfoSignature = buffer.crashInfoSignature) ∧
      ((getCrashInfo mem header buffer).crashInfoMessage = buffer.crashInfoMessage ∨
        (getCrashInfo mem header buffer).crashInfoMessage =
          (mem.crashInfoAt crashInfo).message) ∧
      ((getCrashInfo mem header buffer).crashInfoMessage2 = buffer.crashInfoMessage2 ∨
        (getCrashInfo mem header buffer).crashInfoMessage2 =
          (mem.crashInfoAt crashInfo).message2) ∧
      ((getCrashInfo mem header buffer).crashInfoBacktrace = buffer.crashInfoBacktrace ∨
        (getCrashInfo mem header buffer).crashInfoBacktrace =
          (mem.crashInfoAt crashInfo).backtrace) ∧
      ((getCrashInfo mem header buffer).crashInfoSignature = buffer.crashInfoSignature ∨
        (getCrashInfo mem header buffer).crashInfoSignature =
          (mem.crashInfoAt crashInfo).signature)) := by
  refine ⟨isValidCrashInfoMessage_iff mem, ?_, ?_⟩
  · intro str mem' hr hbytes
    have h1 := isValidCrashInfoMessage_iff mem str
    have h2 := isValidCrashInfoMessage_iff mem' str
    rw [hr] at h2
    have hiff : isValidCrashInfoMessage mem' str = true ↔
        isValidCrashInfoMessage mem str = true := by
      rw [h1, h2]
      constructor
      · rintro ⟨a, b, i, hi, hz⟩
        exact ⟨a, b, i, hi, by rw [← hbytes i hi]; exact hz⟩
      · rintro ⟨a, b, i, hi, hz⟩
        exact ⟨a, b, i, hi, by rw [hbytes i hi]; exact hz⟩
    cases ha : isValidCrashInfoMessage mem' str <;>
      cases hb : isValidCrashInfoMessage mem str <;> simp_all
  · intro header buffer crashInfo size hsec
    have hstore : getCrashInfo mem header buffer = buffer ∨
        getCrashInfo mem header buffer =
          storeCrashInfo mem (mem.crashInfoAt crashInfo) buffer := by
      simp only [getCrashInfo, hsec]
      split
      · exact Or.inl rfl
      · split
        · exact Or.inl rfl
        · split
          · exact Or.inl rfl
          · split
            · exact Or.inl rfl
            · exact Or.inr rfl
    rcases hstore with h | h
    · rw [h]
      exact ⟨fun _ => rfl, fun _ => rfl, fun _ => rfl, fun _ => rfl, Or.inl rfl, Or.inl rfl,
        Or.inl rfl, Or.inl rfl⟩
    · rw [h]
      cases h1 : isValidCrashInfoMessage mem (mem.crashInfoAt crashInfo).message <;>
      cases h2 : isValidCrashInfoMessage mem (mem.crashInfoAt crashInfo).message2 <;>
      cases h3 : isValidCrashInfoMessage mem (mem.crashInfoAt crashInfo).backtrace <;>
      cases h4 : isValidCrashInfoMessage mem (mem.crashInfoAt crashInfo).signature <;>
      simp [storeCrashInfo, h1, h2, h3, h4]

/-- In `crashMemory 5` the message `"ok"` at 8192 is valid and stored; the three other
strings have no NUL among their 16 readable bytes and are not stored. -/
theorem getCrashInfo_examples :
    isValidCrashInfoMessage (crashMemory 5) 8192 = true ∧
    isValidCrashInfoMessage (crashMemory 5) 8200 = false ∧
    isValidCrashInfoMessage (crashMemory 5) 0 = false ∧
    (getCrashInfo (crashMemory 5) describedHeader usedImage).crashInfoMessage = 8192 ∧
    (getCrashInfo (crashMemory 5) describedHeader usedImage).crashInfoMessage2 = 12 ∧
    (getCrashInfo (crashMemory 5) describedHeader usedImage).crashInfoBacktrace = 13 ∧
    (getCrashInfo (crashMemory 5) describedHeader usedImage).crashInfoSignature = 14 := by
  decide

/-! ### The signal monitor -/

theorem sigaction_refused (env : MonitorEnv) (sigNum : Int) (act : Option SigAction)
    (oldact : Option Nat) (st : SignalState) (h : env.refused sigNum = true) :
    sigaction env sigNum act oldact st =
      (-1, { st with log := st.log ++ [Call.sigaction sigNum act] }) := by
  simp [sigaction, h]

theorem sigaction_install (env : MonitorEnv) (sigNum : Int) (action : SigAction) (i : Nat)
    (st : SignalState) (h : env.refused sigNum = false) :
    sigaction env sigNum (some action) (some i) st =
      (0, { st with
            log := st.log ++ [Call.sigaction sigNum (some action)]
            g_previousSignalHandlers :=
              st.g_previousSignalHandlers.map
                (fun slots => Function.update slots i (st.handlers sigNum))
            handlers := Function.update st.handlers sigNum action }) := by
  simp [sigaction, h]

theorem sigaction_restore (env : MonitorEnv) (sigNum : Int) (action : SigAction)
    (st : SignalState) (h : env.refused sigNum = false) :
    sigaction env sigNum (some action) none st =
      (0, { st with
            log := st.log ++ [Call.sigaction sigNum (some action)]
            handlers := Function.update st.handlers sigNum action }) := by
  simp [sigaction, h]

theorem sigaction_restore_frame (env : MonitorEnv) (sigNum : Int) (act : Option SigAction)
    (st : SignalState) :
    (sigaction env sigNum act none st).2.g_previousSignalHandlers =
        st.g_previousSignalHandlers ∧
    (sigaction env sigNum act none st).2.log = st.log ++ [Call.sigaction sigNum act] ∧
    (sigaction env sigNum act none st).2.g_isEnabled = st.g_isEnabled ∧
    (sigaction env sigNum act none st).2.g_sigterm_monitoringEnabled =
        st.g_sigterm_monitoringEnabled := by
  unfold sigaction
  by_cases h : env.refused sigNum = true
  · simp [h]
  · cases act <;> simp [h]

theorem restoreBelow_handlers (env : MonitorEnv) (table : Int → SigAction) :
    ∀ (i : Nat) (st : SignalState), InstallInv env table i st →
      (restoreBelow env i st).handlers = table := by
  intro i
  induction i with
  | zero =>
    intro st h
    exact h.1
  | succ i ih =>
    intro st h
    obtain ⟨hT, hacc, slots, hslots, hsaved⟩ := h
    have hrun : restoreBelow env (i + 1) st =
        restoreBelow env i
          (sigaction env (fatalSignal env i) (some (slots i)) none st).2 := by
      simp [restoreBelow, hslots]
    rw [hrun, sigaction_restore env _ _ _ (hacc i (Nat.lt_succ_self i))]
    apply ih
    refine ⟨?_, fun j hj => hacc j (Nat.lt_succ_of_lt hj), slots, hslots,
      fun j hj => hsaved j (Nat.lt_succ_of_lt hj)⟩
    show Function.update st.handlers (fatalSignal env i) (slots i) = installedTable env table i
    rw [hT, hsaved i (Nat.lt_succ_self i)]
    show Function.update (Function.update (installedTable env table i) (fatalSignal env i)
      monitorAction) (fatalSignal env i) (installedTable env table i (fatalSignal env i)) = _
    rw [Function.update_idem, Function.update_eq_self]

theorem installFrom_failed (env : MonitorEnv) (table : Int → SigAction) :
    ∀ (remaining i : Nat) (st : SignalState), InstallInv env table i st →
      (installFrom env remaining i st).1 = false →
      (installFrom env remaining i st).2.handlers = table := by
  intro remaining
  induction remaining with
  | zero =>
    intro i st _ hres
    simp [installFrom] at hres
  | succ remaining ih =>
    intro i st hinv hres
    by_cases href : env.refused (fatalSignal env i) = true
    · have hrun : installFrom env (remaining + 1) i st =
          (false, restoreBelow env i
            { st with log := st.log ++ [Call.sigaction (fatalSignal env i) (some monitorAction)] }) := by
        simp [installFrom, sigaction_refused env _ _ _ _ href]
      rw [hrun]
      exact restoreBelow_handlers env table i _ hinv
    · have hacc : env.refused (fatalSignal env i) = false := by
        cases h : env.refused (fatalSignal env i)
        · rfl
        · exact absurd h href
      have hrun : installFrom env (remaining + 1) i st =
          installFrom env remaining (i + 1)
            (sigaction env (fatalSignal env i) (some monitorAction) (some i) st).2 := by
        simp [installFrom, sigaction_install env _ _ _ _ hacc]
      rw [hrun] at hres ⊢
      apply ih _ _ _ hres
      rw [sigaction_install env _ _ _ _ hacc]
      obtain ⟨hT, haccs, slots, hslots, hsaved⟩ := hinv
      refine ⟨?_, ?_, Function.update slots i (st.handlers (fatalSignal env i)), ?_, ?_⟩
      · show Function.update st.handlers (fatalSignal env i) monitorAction = _
        rw [hT]
        rfl
      · intro j hj
        rcases Nat.lt_succ_iff_lt_or_eq.mp hj with h | h
        · exact haccs j h
        · rw [h]; exact hacc
      · show Option.map _ st.g_previousSignalHandlers = _
        rw [hslots]
        rfl
      · intro j hj
        rcases Nat.lt_succ_iff_lt_or_eq.mp hj with h | h
        · rw [Function.update_noteq (Nat.ne_of_lt h)]
          exact hsaved j h
        · rw [h, Function.update_same, hT]

theorem installFrom_refusal (env : MonitorEnv) :
    ∀ (remaining i : Nat) (st : SignalState) (k : Nat), i ≤ k → k < i + remaining →
      env.refused (fatalSignal env k) = true → (installFrom env remaining i st).1 = false := by
  intro remaining
  induction remaining with
  | zero =>
    intro i st k h1 h2 _
    omega
  | succ remaining ih =>
    intro i st k h1 h2 hk
    by_cases href : env.refused (fatalSignal env i) = true
    · simp [installFrom, sigaction_refused env _ _ _ _ href]
    · have hacc : env.refused (fatalSignal env i) = false := by
        cases h : env.refused (fatalSignal env i)
        · rfl
        · exact absurd h href
      have hne : k ≠ i := fun h => href (by rw [← h]; exact hk)
      have hrun : installFrom env (remaining + 1) i st =
          installFrom env remaining (i + 1)
            (sigaction env (fatalSignal env i) (some monitorAction) (some i) st).2 := by
        simp [installFrom, sigaction_install env _ _ _ _ hacc]
      rw [hrun]
      exact ih _ _ k (by omega) (by omega) hk

theorem installFrom_failed_zero (env : MonitorEnv) (remaining : Nat) (st : SignalState)
    (slots : Nat → SigAction) (hslots : st.g_previousSignalHandlers = some slots)
    (hres : (installFrom env remaining 0 st).1 = false) :
    (installFrom env remaining 0 st).2.handlers = st.handlers :=
  installFrom_failed env st.handlers remaining 0 st
    ⟨rfl, fun j hj => absurd hj (Nat.not_lt_zero j), slots, hslots,
      fun j hj => absurd hj (Nat.not_lt_zero j)⟩ hres

theorem installSignalHandler_failed (env : MonitorEnv) (st : SignalState)
    (hres : (installSignalHandler env st).1 = false) :
    (installSignalHandler env st).2.handlers = st.handlers := by
  by_cases hz : st.g_signalStack.ss_size = 0 <;>
  by_cases hf : env.sigaltstackFails st.log.length = true <;>
  cases hp : st.g_previousSignalHandlers <;>
  simp only [installSignalHandler, sigaltstack, hz, hf, hp, if_true, if_false, ne_eq,
    Int.reduceNeg, Int.neg_eq_zero, one_ne_zero, not_false_eq_true, not_true_eq_false,
    Bool.false_eq_true] at hres ⊢ <;>
  first
    | rfl
    | exact installFrom_failed_zero env _ _ _ rfl hres

theorem installSignalHandler_refusal (env : MonitorEnv) (st : SignalState) (k : Nat)
    (hk : k < env.fatalSignals.length) (hfail : env.refused (fatalSignal env k) = true) :
    (installSignalHandler env st).1 = false := by
  by_cases hz : st.g_signalStack.ss_size = 0 <;>
  by_cases hf : env.sigaltstackFails st.log.length = true <;>
  cases hp : st.g_previousSignalHandlers <;>
  simp only [installSignalHandler, sigaltstack, hz, hf, hp, if_true, if_false, ne_eq,
    Int.reduceNeg, Int.neg_eq_zero, one_ne_zero, not_false_eq_true, not_true_eq_false,
    Bool.false_eq_true] <;>
  exact installFrom_refusal env _ 0 _ k (Nat.zero_le k) (by omega) hfail

/-- C14, evaluated: from the disabled initial state, `setEnabled(true)` with a failing
`sigaltstack` leaves `isEnabled()` true although `installSignalHandler` returned false
and no handler was replaced; the same holds when `sigaction` fails on the second fatal
signal.  The claim asks for `isEnabled()` to be false. -/
theorem setEnabled_failed_enable_flag :
    isEnabled demoSignalState = false ∧
    (installSignalHandler noStackEnv
      { demoSignalState with g_isEnabled := true, g_eventID := [0],
                             log := [Call.ksid_generate] }).1 = false ∧
    isEnabled (setEnabled noStackEnv true demoSignalState) = true ∧
    (setEnabled noStackEnv true demoSignalState).log =
      [Call.ksid_generate, Call.sigaltstack ⟨65536, SIGSTKSZ⟩] ∧
    isEnabled (setEnabled refusingEnv true demoSignalState) = true ∧
    (setEnabled refusingEnv true demoSignalState).handlers 6 = demoHandlers 6 ∧
    (setEnabled refusingEnv true demoSignalState).handlers 9 = demoHandlers 9 ∧
    (setEnabled refusingEnv true demoSignalState).handlers 11 = demoHandlers 11 := by
  decide

/-- C15: if `installSignalHandler` meets a fatal signal `fatalSignals[k]` for which
`sigaction` fails, it returns false and on return the handler table is the table of
before the call: every fatal signal (and every other signal) has the handler it had, the
handlers already replaced having been restored from the saved slots, and no fatal signal
is left with the monitor's hook unless it had it before.  The fatal signals need not
be distinct for this, the slots being restored in reverse order. -/
theorem installSignalHandler_all_or_nothing (env : MonitorEnv) (st : SignalState) (k : Nat)
    (hk : k < env.fatalSignals.length) (hfail : env.refused (fatalSignal env k) = true) :
    (installSignalHandler env st).1 = false ∧
    (∀ s : Int, (installSignalHandler env st).2.handlers s = st.handlers s) ∧
    (∀ s ∈ env.fatalSignals, st.handlers s ≠ monitorAction →
      (installSignalHandler env st).2.handlers s ≠ monitorAction) := by
  have hres := installSignalHandler_refusal env st k hk hfail
  have htab := installSignalHandler_failed env st hres
  refine ⟨hres, fun s => by rw [htab], fun s _ hs => by rw [htab]; exact hs⟩

/-- C15 at a concrete input: with the fatal signals 6, 9, 11 and signal 9 refused, the
second call fails after the first replaced the handler of signal 6. -/
theorem installSignalHandler_all_or_nothing_witness :
    (installSignalHandler refusingEnv demoSignalState).1 = false ∧
    (∀ s : Int, (installSignalHandler refusingEnv demoSignalState).2.handlers s =
      demoSignalState.handlers s) ∧
    (∀ s ∈ refusingEnv.fatalSignals, demoSignalState.handlers s ≠ monitorAction →
      (installSignalHandler refusingEnv demoSignalState).2.handlers s ≠ monitorAction) :=
  installSignalHandler_all_or_nothing refusingEnv demoSignalState 1 (by decide) (by decide)

/-- The calls of the failed install of the witness: one hook installed, one refusal, one
restore from slot 0. -/
theorem installSignalHandler_failed_calls :
    (installSignalHandler refusingEnv demoSignalState).2.log =
      [Call.sigaltstack ⟨65536, SIGSTKSZ⟩,
       Call.sigaction 6 (some monitorAction),
       Call.sigaction 9 (some monitorAction),
       Call.sigaction 6 (some defaultAction)] := by
  decide

/-- C16, evaluated: with the fatal signals 6, 9, 11 and `sigaction` refusing signal 9,
`setEnabled(true)` fails after saving slot 0 only and leaves the flag set, so that the
following `setEnabled(false)` registers for signal 11 the never written slot 2: the
handler of signal 11 is then neither the application's handler of before the first
`setEnabled(true)` nor the monitor's.  The claim asks for the handler of before. -/
theorem setEnabled_round_trip_broken :
    demoSignalState.handlers 11 = { sa_sigaction := SigHandler.other 4096, sa_flags := 0 } ∧
    (setEnabled refusingEnv true demoSignalState).handlers 11 = demoSignalState.handlers 11 ∧
    (setEnabled refusingEnv false (setEnabled refusingEnv true demoSignalState)).handlers 11 =
      refusingEnv.freshHandlers 2 ∧
    (setEnabled refusingEnv false (setEnabled refusingEnv true demoSignalState)).handlers 11 ≠
      demoSignalState.handlers 11 ∧
    (setEnabled refusingEnv false (setEnabled refusingEnv true demoSignalState)).log =
      [Call.ksid_generate,
       Call.sigaltstack ⟨65536, SIGSTKSZ⟩,
       Call.sigaction 6 (some monitorAction),
       Call.sigaction 9 (some monitorAction),
       Call.sigaction 6 (some defaultAction),
       Call.sigaction 6 (some defaultAction),
       Call.sigaction 9 (some (refusingEnv.freshHandlers 1)),
       Call.sigaction 11 (some (refusingEnv.freshHandlers 2))] := by
  decide

/-- Without a failure the round trip of the same state holds: every fatal signal of
`demoEnv` has its handler of before. -/
theorem setEnabled_round_trip_example :
    ∀ s ∈ demoEnv.fatalSignals,
      (setEnabled demoEnv false (setEnabled demoEnv true demoSignalState)).handlers s =
        demoSignalState.handlers s := by
  decide

theorem SameFlags.trans {a b c : SignalState} (h1 : SameFlags a b) (h2 : SameFlags b c) :
    SameFlags a c :=
  ⟨h1.1.trans h2.1, h1.2.trans h2.2⟩

theorem sigaction_flags (env : MonitorEnv) (sigNum : Int) (act : Option SigAction)
    (oldact : Option Nat) (st : SignalState) :
    SameFlags (sigaction env sigNum act oldact st).2 st := by
  unfold sigaction
  by_cases h : env.refused sigNum = true
  · simp [h, SameFlags]
  · cases act <;> cases oldact <;> simp [h, SameFlags]

theorem sigaltstack_flags (env : MonitorEnv) (st : SignalState) :
    SameFlags (sigaltstack env st).2 st := by
  unfold sigaltstack
  by_cases h : env.sigaltstackFails st.log.length = true <;> simp [h, SameFlags]

theorem restoreBelow_flags (env : MonitorEnv) :
    ∀ (i : Nat) (st : SignalState), SameFlags (restoreBelow env i st) st := by
  intro i
  induction i with
  | zero => exact fun st => ⟨rfl, rfl⟩
  | succ i ih =>
    intro st
    exact (ih _).trans (sigaction_flags env _ _ _ st)

theorem installFrom_flags (env : MonitorEnv) :
    ∀ (remaining i : Nat) (st : SignalState),
      SameFlags (installFrom env remaining i st).2 st := by
  intro remaining
  induction remaining with
  | zero => exact fun _ st => ⟨rfl, rfl⟩
  | succ remaining ih =>
    intro i st
    unfold installFrom
    by_cases h : (sigaction env (fatalSignal env i) (some monitorAction) (some i) st).1 ≠ 0
    · simp only [if_pos h]
      exact (restoreBelow_flags env i _).trans (sigaction_flags env _ _ _ st)
    · simp only [if_neg h]
      exact (ih _ _).trans (sigaction_flags env _ _ _ st)

theorem uninstallFrom_flags (env : MonitorEnv) :
    ∀ (remaining i : Nat) (st : SignalState),
      SameFlags (uninstallFrom env remaining i st).2 st := by
  intro remaining
  induction remaining with
  | zero => exact fun _ st => ⟨rfl, rfl⟩
  | succ remaining ih =>
    intro i st
    rw [uninstallFrom]
    split
    · exact (ih _ _).trans (sigaction_flags env _ _ _ st)
    · by_cases hi : i = 0
      · rw [if_pos hi]
        exact (ih _ _).trans (sigaction_flags env _ _ _ st)
      · rw [if_neg hi]
        exact ⟨rfl, rfl⟩

theorem installSignalHandler_flags (env : MonitorEnv) (st : SignalState) :
    SameFlags (installSignalHandler env st).2 st := by
  unfold installSignalHandler
  have h1 : ∀ st1 : SignalState, SameFlags st1 st →
      SameFlags (if (sigaltstack env st1).1 ≠ 0 then (false, (sigaltstack env st1).2)
        else installFrom env env.fatalSignals.length 0
          (match (sigaltstack env st1).2.g_previousSignalHandlers with
            | none => { (sigaltstack env st1).2 with
                        g_previousSignalHandlers := some env.freshHandlers }
            | some _ => (sigaltstack env st1).2)).2 st := by
    intro st1 hst1
    have hs := (sigaltstack_flags env st1).trans hst1
    by_cases h : (sigaltstack env st1).1 ≠ 0
    · simp only [if_pos h]
      exact hs
    · simp only [if_neg h]
      refine (installFrom_flags env _ _ _).trans ?_
      cases (sigaltstack env st1).2.g_previousSignalHandlers <;> exact hs
  apply h1
  by_cases hz : st.g_signalStack.ss_size = 0
  · simp only [if_pos hz]
    exact ⟨rfl, rfl⟩
  · simp only [if_neg hz]
    exact ⟨rfl, rfl⟩

theorem uninstallSignalHandler_flags (env : MonitorEnv) (st : SignalState) :
    SameFlags (uninstallSignalHandler env st).2 st := by
  have h := uninstallFrom_flags env env.fatalSignals.length 0 st
  unfold uninstallSignalHandler
  by_cases hr : (uninstallFrom env env.fatalSignals.length 0 st).1 = true
  · simp only [if_pos hr]
    exact h
  · simp only [if_neg hr]
    exact h

theorem setEnabled_flag (env : MonitorEnv) (b : Bool) (st : SignalState) :
    (setEnabled env b st).g_isEnabled = b := by
  unfold setEnabled
  by_cases h : b ≠ st.g_isEnabled
  · rw [if_pos h]
    cases b
    · exact (uninstallSignalHandler_flags env _).1
    · exact (installSignalHandler_flags env _).1
  · rw [if_neg h]
    exact (not_not.mp h).symm

theorem setEnabled_sigterm_flag (env : MonitorEnv) (b : Bool) (st : SignalState) :
    (setEnabled env b st).g_sigterm_monitoringEnabled = st.g_sigterm_monitoringEnabled := by
  unfold setEnabled
  by_cases h : b ≠ st.g_isEnabled
  · rw [if_pos h]
    cases b
    · exact (uninstallSignalHandler_flags env _).2
    · exact (installSignalHandler_flags env _).2
  · rw [if_neg h]

/-- C17: calling `setEnabled(b)` while `isEnabled()` is already `b` returns the state
as it is: the log of calls gains no `sigaction`, `sigaltstack` or `ksid_generate`
entry, and `g_eventID`, the flag, the saved slots and the handler table are the same.
Hence `setEnabled(b); setEnabled(b)` leaves the state of a single `setEnabled(b)`, from
every state. -/
theorem setEnabled_idempotent (env : MonitorEnv) (b : Bool) (st : SignalState) :
    (isEnabled st = b →
      setEnabled env b st = st ∧
      (setEnabled env b st).log = st.log ∧
      (setEnabled env b st).g_eventID = st.g_eventID ∧
      (setEnabled env b st).g_isEnabled = st.g_isEnabled ∧
      (setEnabled env b st).g_previousSignalHandlers = st.g_previousSignalHandlers ∧
      (setEnabled env b st).handlers = st.handlers) ∧
    setEnabled env b (setEnabled env b st) = setEnabled env b st := by
  have hnoop : ∀ st1 : SignalState, isEnabled st1 = b → setEnabled env b st1 = st1 := by
    intro st1 h
    unfold isEnabled at h
    unfold setEnabled
    rw [if_neg (by rw [h]; exact fun hne => hne rfl)]
  refine ⟨fun h => ?_, hnoop _ (setEnabled_flag env b st)⟩
  rw [hnoop st h]
  exact ⟨rfl, rfl, rfl, rfl, rfl, rfl⟩

/-- C17 at concrete inputs: a second `setEnabled(true)` changes nothing, and
`setEnabled(false)` on the disabled initial state is the identity. -/
theorem setEnabled_idempotent_witness :
    setEnabled demoEnv true (setEnabled demoEnv true demoSignalState) =
      setEnabled demoEnv true demoSignalState ∧
    setEnabled demoEnv false demoSignalState = demoSignalState :=
  ⟨(setEnabled_idempotent demoEnv true demoSignalState).2,
    ((setEnabled_idempotent demoEnv false demoSignalState).1 rfl).1⟩

/-- C18: when `handleSignal` is entered for `sigNum` with the monitor enabled and the signal
not excluded, it adds to the log exactly these calls, each once and in this order:
`ksmc_suspendEnvironment`, `kscm_notifyFatalExceptionCaptured(false)`,
`ksmc_getContextForSignal` from the `userContext` of the fault into the local machine
context, `kssc_initWithMachineContext` of `g_stackCursor` on that machine context,
`kscm_handleException` on an event, `ksmc_resumeEnvironment` with the array and count that
the suspension produced, and `raise(sigNum)`.  The event has the `si_signo`, `si_code` and
`si_addr` of the fault, the `userContext`, the identifier in `g_eventID`, and refers to
the machine context and the stack cursor just filled; it is also what `g_monitorContext`
holds afterwards. -/
theorem handleSignal_capture_path (env : MonitorEnv) (sigNum : Int) (signalInfo : siginfo_t)
    (userContext : Nat) (st : SignalState) (henabled : isEnabled st = true)
    (hsignal : shouldHandleSignal st sigNum = true) :
    ∃ event : KSCrash_MonitorContext,
      (handleSignal env sigNum signalInfo userContext st).log =
        st.log ++
          [Call.ksmc_suspendEnvironment,
           Call.kscm_notifyFatalExceptionCaptured false,
           Call.ksmc_getContextForSignal userContext ObjRef.machineContext,
           Call.kssc_initWithMachineContext ObjRef.g_stackCursor env.KSSC_MAX_STACK_DEPTH
             ObjRef.machineContext,
           Call.kscm_handleException event,
           Call.ksmc_resumeEnvironment (env.ksmc_suspendEnvironment st.log.length).1
             (env.ksmc_suspendEnvironment st.log.length).2,
           Call.raise sigNum] ∧
      event.signal_signum = signalInfo.si_signo ∧
      event.signal_sigcode = signalInfo.si_code ∧
      event.faultAddress = signalInfo.si_addr ∧
      event.signal_userContext = userContext ∧
      event.eventID = some st.g_eventID ∧
      event.offendingMachineContext = some ObjRef.machineContext ∧
      event.stackCursor = some ObjRef.g_stackCursor ∧
      event.registersAreValid = true ∧
      (handleSignal env sigNum signalInfo userContext st).g_monitorContext = event ∧
      (handleSignal env sigNum signalInfo userContext st).handlers = st.handlers := by
  unfold isEnabled at henabled
  have hcond : (st.g_isEnabled && shouldHandleSignal st sigNum) = true := by
    rw [henabled, hsignal]; rfl
  refine ⟨(handleSignal env sigNum signalInfo userContext st).g_monitorContext, ?_⟩
  unfold handleSignal
  simp only [hcond, if_true]
  simp

/-- C18 at a concrete input: a `SIGSEGV` delivered to the enabled monitor of `demoEnv`. -/
theorem handleSignal_capture_path_witness :
    ∃ event : KSCrash_MonitorContext,
      (handleSignal demoEnv 11 demoSiginfo 99 (setEnabled demoEnv true demoSignalState)).log =
        (setEnabled demoEnv true demoSignalState).log ++
          [Call.ksmc_suspendEnvironment,
           Call.kscm_notifyFatalExceptionCaptured false,
           Call.ksmc_getContextForSignal 99 ObjRef.machineContext,
           Call.kssc_initWithMachineContext ObjRef.g_stackCursor demoEnv.KSSC_MAX_STACK_DEPTH
             ObjRef.machineContext,
           Call.kscm_handleException event,
           Call.ksmc_resumeEnvironment
             (demoEnv.ksmc_suspendEnvironment
               (setEnabled demoEnv true demoSignalState).log.length).1
             (demoEnv.ksmc_suspendEnvironment
               (setEnabled demoEnv true demoSignalState).log.length).2,
           Call.raise 11] ∧
      event.signal_signum = demoSiginfo.si_signo ∧
      event.signal_sigcode = demoSiginfo.si_code ∧
      event.faultAddress = demoSiginfo.si_addr ∧
      event.signal_userContext = 99 ∧
      event.eventID = some (setEnabled demoEnv true demoSignalState).g_eventID ∧
      event.offendingMachineContext = some ObjRef.machineContext ∧
      event.stackCursor = some ObjRef.g_stackCursor ∧
      event.registersAreValid = true ∧
      (handleSignal demoEnv 11 demoSiginfo 99
        (setEnabled demoEnv true demoSignalState)).g_monitorContext = event ∧
      (handleSignal demoEnv 11 demoSiginfo 99 (setEnabled demoEnv true demoSignalState)).handlers =
        (setEnabled demoEnv true demoSignalState).handlers :=
  handleSignal_capture_path demoEnv 11 demoSiginfo 99 (setEnabled demoEnv true demoSignalState)
    (by decide) (by decide)

theorem uninstallFrom_allocated (env : MonitorEnv) (saved : Nat → SigAction) :
    ∀ (remaining i : Nat) (st : SignalState), st.g_previousSignalHandlers = some saved →
      (uninstallFrom env remaining i st).1 = true ∧
      (uninstallFrom env remaining i st).2.log =
        st.log ++ (List.range' i remaining).map
          (fun j => Call.sigaction (fatalSignal env j) (some (saved j))) := by
  intro remaining
  induction remaining with
  | zero =>
    intro i st _
    simp [uninstallFrom]
  | succ remaining ih =>
    intro i st hslots
    obtain ⟨hkeep, hlog, _, _⟩ := sigaction_restore_frame env (fatalSignal env i)
      (some (saved i)) st
    obtain ⟨h1, h2⟩ := ih (i + 1)
      (sigaction env (fatalSignal env i) (some (saved i)) none st).2 (hkeep.trans hslots)
    rw [uninstallFrom]
    simp only [hslots]
    refine ⟨h1, ?_⟩
    rw [h2, hlog, List.range'_succ]
    simp

theorem uninstallFrom_calls (env : MonitorEnv) :
    ∀ (remaining i : Nat) (st : SignalState),
      ∃ calls : List Call, (uninstallFrom env remaining i st).2.log = st.log ++ calls ∧
        ∀ c ∈ calls, (∃ s a, c = Call.sigaction s a) ∨ (∃ s, c = Call.sigactionFault s) := by
  intro remaining
  induction remaining with
  | zero =>
    intro i st
    exact ⟨[], by simp [uninstallFrom], fun c hc => absurd hc (List.not_mem_nil c)⟩
  | succ remaining ih =>
    intro i st
    have hstep : ∀ act : Option SigAction,
        ∃ calls : List Call,
          (uninstallFrom env remaining (i + 1)
            (sigaction env (fatalSignal env i) act none st).2).2.log = st.log ++ calls ∧
          ∀ c ∈ calls, (∃ s a, c = Call.sigaction s a) ∨ (∃ s, c = Call.sigactionFault s) := by
      intro act
      obtain ⟨calls, hlog, hkind⟩ := ih (i + 1) (sigaction env (fatalSignal env i) act none st).2
      refine ⟨Call.sigaction (fatalSignal env i) act :: calls, ?_, ?_⟩
      · rw [hlog, (sigaction_restore_frame env _ _ st).2.1]
        simp
      · intro c hc
        rcases List.mem_cons.mp hc with rfl | hc
        · exact Or.inl ⟨_, _, rfl⟩
        · exact hkind c hc
    rw [uninstallFrom]
    split
    · exact hstep _
    · by_cases hi : i = 0
      · rw [if_pos hi]
        exact hstep none
      · rw [if_neg hi]
        refine ⟨[Call.sigactionFault (fatalSignal env i)], rfl, fun c hc => ?_⟩
        rw [List.mem_singleton] at hc
        exact Or.inr ⟨_, hc⟩

theorem uninstallFrom_null (env : MonitorEnv) (st : SignalState) (remaining : Nat)
    (hslots : st.g_previousSignalHandlers = none) :
    (uninstallFrom env (remaining + 2) 0 st).1 = false ∧
    (uninstallFrom env (remaining + 2) 0 st).2.log =
      st.log ++ [Call.sigaction (fatalSignal env 0) none,
        Call.sigactionFault (fatalSignal env 1)] := by
  obtain ⟨hkeep, hlog, _, _⟩ := sigaction_restore_frame env (fatalSignal env 0) none st
  rw [uninstallFrom]
  simp only [hslots, if_true]
  rw [uninstallFrom]
  simp only [hkeep.trans hslots, Nat.zero_add, one_ne_zero, if_false, hlog, true_and]
  simp

theorem uninstallSignalHandler_eq (env : MonitorEnv) (st : SignalState) :
    (uninstallSignalHandler env st).1 = (uninstallFrom env env.fatalSignals.length 0 st).1 ∧
    (uninstallSignalHandler env st).2.log =
      (uninstallFrom env env.fatalSignals.length 0 st).2.log ∧
    (uninstallSignalHandler env st).2.handlers =
      (uninstallFrom env env.fatalSignals.length 0 st).2.handlers := by
  by_cases hr : (uninstallFrom env env.fatalSignals.length 0 st).1 = true
  · simp [uninstallSignalHandler, hr]
  · simp [uninstallSignalHandler, hr]

/-- The log and the table after `handleSignal` took the path that uninstalls. -/
theorem handleSignal_other_eq (env : MonitorEnv) (sigNum : Int) (signalInfo : siginfo_t)
    (userContext : Nat) (st : SignalState)
    (hcond : (st.g_isEnabled && shouldHandleSignal st sigNum) = false) :
    (handleSignal env sigNum signalInfo userContext st).log =
      (uninstallFrom env env.fatalSignals.length 0 st).2.log ++
        (if (uninstallFrom env env.fatalSignals.length 0 st).1 = true then
          [Call.ksmemory_notifyUnhandledFatalSignal, Call.raise sigNum]
        else []) ∧
    (handleSignal env sigNum signalInfo userContext st).handlers =
      (uninstallFrom env env.fatalSignals.length 0 st).2.handlers := by
  obtain ⟨e1, e2, e3⟩ := uninstallSignalHandler_eq env st
  unfold handleSignal
  simp only [hcond, Bool.false_eq_true, if_false]
  by_cases hr : (uninstallFrom env env.fatalSignals.length 0 st).1 = true
  · have hu : (uninstallSignalHandler env st).1 = true := e1.trans hr
    simp only [hu, if_true, hr]
    rw [e2, e3]
    simp
  · have hu : ¬ (uninstallSignalHandler env st).1 = true := fun h => hr (e1.symm.trans h)
    simp only [if_neg hu, if_neg hr]
    rw [e2, e3]
    simp

theorem handleSignal_log_capture (env : MonitorEnv) (sigNum : Int) (signalInfo : siginfo_t)
    (userContext : Nat) (st : SignalState)
    (hcond : (st.g_isEnabled && shouldHandleSignal st sigNum) = true) :
    handleSignalCalls env sigNum signalInfo userContext st =
      [Call.ksmc_suspendEnvironment,
       Call.kscm_notifyFatalExceptionCaptured false,
       Call.ksmc_getContextForSignal userContext ObjRef.machineContext,
       Call.kssc_initWithMachineContext ObjRef.g_stackCursor env.KSSC_MAX_STACK_DEPTH
         ObjRef.machineContext,
       Call.kscm_handleException
         (handleSignal env sigNum signalInfo userContext st).g_monitorContext,
       Call.ksmc_resumeEnvironment (env.ksmc_suspendEnvironment st.log.length).1
         (env.ksmc_suspendEnvironment st.log.length).2,
       Call.raise sigNum] := by
  unfold handleSignalCalls handleSignal
  simp only [hcond, if_true]
  simp

theorem handleSignal_log_other (env : MonitorEnv) (sigNum : Int) (signalInfo : siginfo_t)
    (userContext : Nat) (st : SignalState) (saved : Nat → SigAction)
    (hcond : (st.g_isEnabled && shouldHandleSignal st sigNum) = false)
    (hslots : st.g_previousSignalHandlers = some saved) :
    handleSignalCalls env sigNum signalInfo userContext st =
      restoreCalls env (some saved) ++
        [Call.ksmemory_notifyUnhandledFatalSignal, Call.raise sigNum] := by
  obtain ⟨h1, h2⟩ := uninstallFrom_allocated env saved env.fatalSignals.length 0 st hslots
  unfold handleSignalCalls
  rw [(handleSignal_other_eq env sigNum signalInfo userContext st hcond).1, h2, if_pos h1,
    List.append_assoc, List.drop_left]
  unfold restoreCalls
  rw [List.range_eq_range']
  rfl

theorem handleSignal_log_null (env : MonitorEnv) (sigNum : Int) (signalInfo : siginfo_t)
    (userContext : Nat) (st : SignalState)
    (hcond : (st.g_isEnabled && shouldHandleSignal st sigNum) = false)
    (hslots : st.g_previousSignalHandlers = none) (hcount : 2 ≤ env.fatalSignals.length) :
    handleSignalCalls env sigNum signalInfo userContext st =
      [Call.sigaction (fatalSignal env 0) none, Call.sigactionFault (fatalSignal env 1)] := by
  obtain ⟨k, hk⟩ : ∃ k, env.fatalSignals.length = k + 2 := ⟨env.fatalSignals.length - 2, by omega⟩
  obtain ⟨h1, h2⟩ := uninstallFrom_null env st k hslots
  unfold handleSignalCalls
  rw [(handleSignal_other_eq env sigNum signalInfo userContext st hcond).1, hk, h2,
    if_neg (by rw [h1]; exact Bool.false_ne_true), List.append_nil, List.drop_left]

theorem handleSignal_calls_other (env : MonitorEnv) (sigNum : Int) (signalInfo : siginfo_t)
    (userContext : Nat) (st : SignalState)
    (hcond : (st.g_isEnabled && shouldHandleSignal st sigNum) = false) :
    ∀ c ∈ handleSignalCalls env sigNum signalInfo userContext st,
      c ≠ Call.ksmc_suspendEnvironment ∧ ∀ event, c ≠ Call.kscm_handleException event := by
  obtain ⟨calls, hlog, hkind⟩ := uninstallFrom_calls env env.fatalSignals.length 0 st
  intro c hc
  unfold handleSignalCalls at hc
  rw [(handleSignal_other_eq env sigNum signalInfo userContext st hcond).1, hlog,
    List.append_assoc, List.drop_left, List.mem_append] at hc
  rcases hc with hc | hc
  · rcases hkind c hc with ⟨s, a, rfl⟩ | ⟨s, rfl⟩
    · exact ⟨fun h => Call.noConfusion h, fun _ h => Call.noConfusion h⟩
    · exact ⟨fun h => Call.noConfusion h, fun _ h => Call.noConfusion h⟩
  · split at hc
    · simp only [List.mem_cons, List.mem_singleton, List.not_mem_nil, or_false] at hc
      rcases hc with rfl | rfl
      · exact ⟨fun h => Call.noConfusion h, fun _ h => Call.noConfusion h⟩
      · exact ⟨fun h => Call.noConfusion h, fun _ h => Call.noConfusion h⟩
    · exact absurd hc (List.not_mem_nil c)

theorem handleSignal_flags (env : MonitorEnv) (sigNum : Int) (signalInfo : siginfo_t)
    (userContext : Nat) (st : SignalState) :
    SameFlags (handleSignal env sigNum signalInfo userContext st) st := by
  unfold handleSignal
  by_cases hcond : (st.g_isEnabled && shouldHandleSignal st sigNum) = true
  · simp only [hcond, if_true]
    exact ⟨rfl, rfl⟩
  · simp only [hcond, Bool.false_eq_true, if_false]
    by_cases hu : (uninstallSignalHandler env st).1 = true
    · simp only [hu, if_true]
      exact uninstallSignalHandler_flags env st
    · simp only [if_neg hu]
      exact uninstallSignalHandler_flags env st

theorem shouldHandleSignal_iff (st : SignalState) (sigNum : Int) :
    shouldHandleSignal st sigNum = true ↔
      ¬ (sigNum = SIGTERM ∧ st.g_sigterm_monitoringEnabled = false) := by
  unfold shouldHandleSignal
  by_cases h : sigNum = SIGTERM <;> cases st.g_sigterm_monitoringEnabled <;> simp [h]

theorem sigaction_handlers_other (env : MonitorEnv) (sigNum : Int) (act : Option SigAction)
    (oldact : Option Nat) (st : SignalState) (x : Int) (hx : sigNum ≠ x) :
    (sigaction env sigNum act oldact st).2.handlers x = st.handlers x := by
  unfold sigaction
  by_cases h : env.refused sigNum = true
  · simp [h]
  · cases act <;> cases oldact <;> simp [h, Function.update_noteq (Ne.symm hx)]

theorem uninstallFrom_handlers_other (env : MonitorEnv) (x : Int) :
    ∀ (remaining i : Nat) (st : SignalState),
      (∀ j, i ≤ j → j < i + remaining → fatalSignal env j ≠ x) →
      (uninstallFrom env remaining i st).2.handlers x = st.handlers x := by
  intro remaining
  induction remaining with
  | zero => exact fun _ _ _ => rfl
  | succ remaining ih =>
    intro i st hne
    have hstep : ∀ act : Option SigAction,
        (uninstallFrom env remaining (i + 1)
          (sigaction env (fatalSignal env i) act none st).2).2.handlers x = st.handlers x := by
      intro act
      rw [ih _ _ (fun j h1 h2 => hne j (by omega) (by omega))]
      exact sigaction_handlers_other env _ _ _ st x (hne i (le_refl i) (by omega))
    rw [uninstallFrom]
    split
    · exact hstep _
    · by_cases hi : i = 0
      · rw [if_pos hi]
        exact hstep none
      · rw [if_neg hi]

theorem uninstallFrom_restores (env : MonitorEnv) (saved : Nat → SigAction) (m : Nat)
    (hacc : env.refused (fatalSignal env m) = false) :
    ∀ (remaining i : Nat) (st : SignalState), st.g_previousSignalHandlers = some saved →
      i ≤ m → m < i + remaining →
      (∀ j, m < j → j < i + remaining → fatalSignal env j ≠ fatalSignal env m) →
      (uninstallFrom env remaining i st).2.handlers (fatalSignal env m) = saved m := by
  intro remaining
  induction remaining with
  | zero =>
    intro i st _ h1 h2 _
    omega
  | succ remaining ih =>
    intro i st hslots h1 h2 hlast
    rw [uninstallFrom]
    simp only [hslots]
    by_cases hm : m = i
    · rw [uninstallFrom_handlers_other env _ _ _ _
        (fun j hj1 hj2 => hlast j (by omega) (by omega))]
      rw [← hm, sigaction_restore env _ _ _ hacc]
      exact Function.update_same _ _ _
    · apply ih _ _ _ (by omega) (by omega) (fun j hj1 hj2 => hlast j hj1 (by omega))
      rw [(sigaction_restore_frame env _ _ st).1]
      exact hslots

/-- C19: `handleSignal` takes the capture path (it calls `ksmc_suspendEnvironment` and
`kscm_handleException`) if and only if `g_isEnabled` is true and not
(`sigNum == SIGTERM` and `g_sigterm_monitoringEnabled` is false).  That flag is false
initially, is what `kscm_signal_sigterm_setMonitoringEnabled` last stored, and is changed
neither by `setEnabled` nor by `handleSignal`; the setter does not change `g_isEnabled`.
On the other path the handler makes neither of the two calls.  With the array of saved
handlers allocated, as it is whenever the handler is installed, it calls `sigaction`
for each fatal signal, in list order, with the action of its slot, then
`ksmemory_notifyUnhandledFatalSignal`, then `raise(sigNum)`, and a fatal signal that
`sigaction` accepts and that does not occur again later in the list is left with the
action saved in its slot.  With the array still `NULL` and two or more fatal signals, the
second `sigaction` call is given a pointer into unmapped memory and nothing follows it. -/
theorem handleSignal_path_selection (env : MonitorEnv) (sigNum : Int) (signalInfo : siginfo_t)
    (userContext : Nat) (st : SignalState) :
    ((∃ event, Call.kscm_handleException event ∈
        handleSignalCalls env sigNum signalInfo userContext st) ↔
      (isEnabled st = true ∧
        ¬ (sigNum = SIGTERM ∧ st.g_sigterm_monitoringEnabled = false))) ∧
    (Call.ksmc_suspendEnvironment ∈ handleSignalCalls env sigNum signalInfo userContext st ↔
      (isEnabled st = true ∧
        ¬ (sigNum = SIGTERM ∧ st.g_sigterm_monitoringEnabled = false))) ∧
    (¬ (isEnabled st = true ∧
        ¬ (sigNum = SIGTERM ∧ st.g_sigterm_monitoringEnabled = false)) →
      ∀ saved : Nat → SigAction, st.g_previousSignalHandlers = some saved →
        handleSignalCalls env sigNum signalInfo userContext st =
          restoreCalls env (some saved) ++
            [Call.ksmemory_notifyUnhandledFatalSignal, Call.raise sigNum] ∧
        ∀ m : Nat, m < env.fatalSignals.length → env.refused (fatalSignal env m) = false →
          (∀ j, m < j → j < env.fatalSignals.length → fatalSignal env j ≠ fatalSignal env m) →
          (handleSignal env sigNum signalInfo userContext st).handlers (fatalSignal env m) =
            saved m) ∧
    (¬ (isEnabled st = true ∧
        ¬ (sigNum = SIGTERM ∧ st.g_sigterm_monitoringEnabled = false)) →
      st.g_previousSignalHandlers = none → 2 ≤ env.fatalSignals.length →
      handleSignalCalls env sigNum signalInfo userContext st =
        [Call.sigaction (fatalSignal env 0) none,
          Call.sigactionFault (fatalSignal env 1)]) ∧
    (∀ handlers, (SignalState.initial handlers).g_sigterm_monitoringEnabled = false) ∧
    (∀ enabled, (kscm_signal_sigterm_setMonitoringEnabled enabled
        st).g_sigterm_monitoringEnabled = enabled ∧
      isEnabled (kscm_signal_sigterm_setMonitoringEnabled enabled st) = isEnabled st) ∧
    (∀ b, (setEnabled env b st).g_sigterm_monitoringEnabled =
      st.g_sigterm_monitoringEnabled) ∧
    (handleSignal env sigNum signalInfo userContext st).g_sigterm_monitoringEnabled =
      st.g_sigterm_monitoringEnabled := by
  have hiff : (st.g_isEnabled && shouldHandleSignal st sigNum) = true ↔
      (isEnabled st = true ∧
        ¬ (sigNum = SIGTERM ∧ st.g_sigterm_monitoringEnabled = false)) := by
    rw [Bool.and_eq_true, shouldHandleSignal_iff]
    rfl
  refine ⟨?_, ?_, ?_, ?_, fun _ => rfl, fun _ => ⟨rfl, rfl⟩,
    fun b => setEnabled_sigterm_flag env b st, (handleSignal_flags env _ _ _ st).2⟩
  · rw [← hiff]
    constructor
    · rintro ⟨event, hev⟩
      by_contra hcond
      rw [Bool.not_eq_true] at hcond
      exact (handleSignal_calls_other env _ _ _ _ hcond _ hev).2 event rfl
    · intro hcond
      refine ⟨(handleSignal env sigNum signalInfo userContext st).g_monitorContext, ?_⟩
      rw [handleSignal_log_capture env _ _ _ _ hcond]
      simp
  · rw [← hiff]
    constructor
    · intro hev
      by_contra hcond
      rw [Bool.not_eq_true] at hcond
      exact (handleSignal_calls_other env _ _ _ _ hcond _ hev).1 rfl
    · intro hcond
      rw [handleSignal_log_capture env _ _ _ _ hcond]
      simp
  · intro hnot saved hslots
    rw [← hiff, Bool.not_eq_true] at hnot
    refine ⟨handleSignal_log_other env _ _ _ _ saved hnot hslots, ?_⟩
    intro m hm hacc hlast
    rw [(handleSignal_other_eq env sigNum signalInfo userContext st hnot).2]
    exact uninstallFrom_restores env saved m hacc _ 0 st hslots (Nat.zero_le m)
      (by rw [Nat.zero_add]; exact hm) (fun j h1 h2 => hlast j h1 (by rw [Nat.zero_add] at h2; exact h2))
  · intro hnot hslots hcount
    rw [← hiff, Bool.not_eq_true] at hnot
    exact handleSignal_log_null env _ _ _ _ hnot hslots hcount

/-- C19 at concrete inputs: `SIGTERM` delivered to the enabled monitor of `demoEnv` with
the `SIGTERM` flag off is not captured and the saved handlers are registered again; with
the flag on it is captured.  On a state whose array of saved handlers is still `NULL`
the second `sigaction` call faults. -/
theorem handleSignal_path_examples :
    handleSignalCalls demoEnv 15 ⟨15, 0, 0⟩ 99 (setEnabled demoEnv true demoSignalState) =
      [Call.sigaction 6 (some defaultAction),
       Call.sigaction 10 (some defaultAction),
       Call.sigaction 11 (some (demoHandlers 11)),
       Call.sigaction 15 (some defaultAction),
       Call.ksmemory_notifyUnhandledFatalSignal,
       Call.raise 15] ∧
    (handleSignal demoEnv 15 ⟨15, 0, 0⟩ 99
      (setEnabled demoEnv true demoSignalState)).handlers 11 = demoHandlers 11 ∧
    (handleSignalCalls demoEnv 15 ⟨15, 0, 0⟩ 99
      (kscm_signal_sigterm_setMonitoringEnabled true
        (setEnabled demoEnv true demoSignalState))).length = 7 ∧
    handleSignalCalls demoEnv 11 demoSiginfo 99 demoSignalState =
      [Call.sigaction 6 none, Call.sigactionFault 10] ∧
    (setEnabled noStackEnv false (setEnabled noStackEnv true demoSignalState)).log =
      [Call.ksid_generate, Call.sigaltstack ⟨65536, SIGSTKSZ⟩, Call.sigaction 6 none,
       Call.sigactionFault 10] := by
  decide

/-! ### The user monitor -/

/-- C20: with the user monitor's flag false, `kscm_reportUserException` returns the state
as it is, whatever its arguments: no call is made, so no thread is suspended or resumed,
`kscm_handleException` is not invoked and `abort` is not called.  With the flag true the
calls added are, in order: `ksmc_suspendEnvironment` if and only if `logAllThreads`;
`kscm_notifyFatalExceptionCaptured(false)` if and only if `terminateProgram`;
`ksid_generate`, `ksmc_getContextForThread` and `kssc_initSelfThread`;
`kscm_handleException`, once, on an event carrying the arguments; then
`ksmc_resumeEnvironment` with the result of the suspension if and only if `logAllThreads`;
then `abort` if and only if `terminateProgram`. -/
theorem kscm_reportUserException_spec (env : MonitorEnv)
    (name reason language lineOfCode stackTrace : Option CStr)
    (logAllThreads terminateProgram : Bool) (st : UserState) :
    (userIsEnabled st = false →
      kscm_reportUserException env name reason language lineOfCode stackTrace logAllThreads
        terminateProgram st = st) ∧
    (userIsEnabled st = true →
      ∃ event : KSCrash_MonitorContext,
        (kscm_reportUserException env name reason language lineOfCode stackTrace logAllThreads
          terminateProgram st).log =
          st.log ++
            (if logAllThreads then [Call.ksmc_suspendEnvironment] else []) ++
            (if terminateProgram then [Call.kscm_notifyFatalExceptionCaptured false]
              else []) ++
            [Call.ksid_generate,
             Call.ksmc_getContextForThread env.ksthread_self ObjRef.machineContext true,
             Call.kssc_initSelfThread ObjRef.stackCursor 3,
             Call.kscm_handleException event] ++
            (if logAllThreads then
              [Call.ksmc_resumeEnvironment (env.ksmc_suspendEnvironment st.log.length).1
                (env.ksmc_suspendEnvironment st.log.length).2]
              else []) ++
            (if terminateProgram then [Call.abort] else []) ∧
        event.crashReason = reason ∧
        event.userException_name = name ∧
        event.userException_language = language ∧
        event.userException_lineOfCode = lineOfCode ∧
        event.userException_customStackTrace = stackTrace ∧
        event.registersAreValid = false ∧
        event.currentSnapshotUserReported = true ∧
        event.offendingMachineContext = some ObjRef.machineContext ∧
        event.stackCursor = some ObjRef.stackCursor ∧
        (kscm_reportUserException env name reason language lineOfCode stackTrace logAllThreads
          terminateProgram st).g_isEnabled = true) := by
  unfold userIsEnabled
  constructor
  · intro h
    simp [kscm_reportUserException, h]
  · intro h
    cases logAllThreads <;> cases terminateProgram
    · exact ⟨userEvent env name reason language lineOfCode stackTrace st.log.length,
        by simp [kscm_reportUserException, userEvent, h], rfl, rfl, rfl, rfl, rfl, rfl, rfl,
        rfl, rfl, by simp [kscm_reportUserException, h]⟩
    · exact ⟨userEvent env name reason language lineOfCode stackTrace (st.log.length + 1),
        by simp [kscm_reportUserException, userEvent, h], rfl, rfl, rfl, rfl, rfl, rfl, rfl,
        rfl, rfl, by simp [kscm_reportUserException, h]⟩
    · exact ⟨userEvent env name reason language lineOfCode stackTrace (st.log.length + 1),
        by simp [kscm_reportUserException, userEvent, h], rfl, rfl, rfl, rfl, rfl, rfl, rfl,
        rfl, rfl, by simp [kscm_reportUserException, h]⟩
    · exact ⟨userEvent env name reason language lineOfCode stackTrace (st.log.length + 2),
        by simp [kscm_reportUserException, userEvent, h], rfl, rfl, rfl, rfl, rfl, rfl, rfl,
        rfl, rfl, by simp [kscm_reportUserException, h]⟩

/-- C20 at concrete inputs: a report with `logAllThreads` and `terminateProgram` to the
disabled monitor changes nothing; to the enabled monitor it makes the seven calls. -/
theorem kscm_reportUserException_spec_witness :
    kscm_reportUserException demoEnv none none none none none true true disabledUser =
      disabledUser ∧
    ∃ event : KSCrash_MonitorContext,
      (kscm_reportUserException demoEnv none none none none none true true enabledUser).log =
        enabledUser.log ++
          (if true = true then [Call.ksmc_suspendEnvironment] else []) ++
          (if true = true then [Call.kscm_notifyFatalExceptionCaptured false] else []) ++
          [Call.ksid_generate,
           Call.ksmc_getContextForThread demoEnv.ksthread_self ObjRef.machineContext true,
           Call.kssc_initSelfThread ObjRef.stackCursor 3,
           Call.kscm_handleException event] ++
          (if true = true then
            [Call.ksmc_resumeEnvironment
              (demoEnv.ksmc_suspendEnvironment enabledUser.log.length).1
              (demoEnv.ksmc_suspendEnvironment enabledUser.log.length).2]
            else []) ++
          (if true = true then [Call.abort] else []) ∧
      event.crashReason = none ∧
      event.userException_name = none ∧
      event.userException_language = none ∧
      event.userException_lineOfCode = none ∧
      event.userException_customStackTrace = none ∧
      event.registersAreValid = false ∧
      event.currentSnapshotUserReported = true ∧
      event.offendingMachineContext = some ObjRef.machineContext ∧
      event.stackCursor = some ObjRef.stackCursor ∧
      (kscm_reportUserException demoEnv none none none none none true true
        enabledUser).g_isEnabled = true :=
  ⟨(kscm_reportUserException_spec demoEnv none none none none none true true disabledUser).1 rfl,
    (kscm_reportUserException_spec demoEnv none none none none none true true enabledUser).2 rfl⟩

/-- The calls of four reports to the enabled user monitor of `demoEnv`, by kind. -/
theorem kscm_reportUserException_examples :
    ((kscm_reportUserException demoEnv none none none none none false false
      enabledUser).log.map (fun c => match c with
        | Call.ksmc_suspendEnvironment => 1
        | Call.kscm_handleException _ => 2
        | Call.ksmc_resumeEnvironment _ _ => 3
        | Call.abort => 4
        | _ => 0)) = [0, 0, 0, 2] ∧
    ((kscm_reportUserException demoEnv none none none none none true false
      enabledUser).log.map (fun c => match c with
        | Call.ksmc_suspendEnvironment => 1
        | Call.kscm_handleException _ => 2
        | Call.ksmc_resumeEnvironment _ _ => 3
        | Call.abort => 4
        | _ => 0)) = [1, 0, 0, 0, 2, 3] ∧
    ((kscm_reportUserException demoEnv none none none none none false true
      enabledUser).log.map (fun c => match c with
        | Call.ksmc_suspendEnvironment => 1
        | Call.kscm_handleException _ => 2
        | Call.ksmc_resumeEnvironment _ _ => 3
        | Call.abort => 4
        | _ => 0)) = [0, 0, 0, 0, 2, 4] ∧
    (kscm_reportUserException demoEnv none none none none none true true
      disabledUser).log = [] := by
  decide

/-! ### The buffered writer, step by step -/

theorem ksfu_writeBytesToFD_prefix (oracle : Nat → Nat → Int) (fd : Int) :
    ∀ (fuel : Nat) (os : WriteOS) (pos : List Byte) (length : Int)
      (res : Bool × WriteOS),
      ksfu_writeBytesToFD oracle fuel os fd pos length = some res →
      ∃ k : Nat, res.2.delivered = os.delivered ++ pos.take k := by
  intro fuel
  induction fuel with
  | zero =>
    intro os pos length res hrun
    rw [ksfu_writeBytesToFD] at hrun
    by_cases hl : length > 0
    · simp [hl] at hrun
    · simp only [if_neg hl, Option.some.injEq] at hrun
      exact ⟨0, by rw [← hrun]; simp⟩
  | succ fuel ih =>
    intro os pos length res hrun
    rw [ksfu_writeBytesToFD] at hrun
    by_cases hl : length > 0
    · simp only [if_pos hl] at hrun
      by_cases hneg : oracle os.calls length.toNat < 0
      · have hstep : sysWrite oracle os pos length.toNat =
            (-1, { os with calls := os.calls + 1 }) := by
          simp only [sysWrite]
          rw [if_pos hneg]
        rw [hstep] at hrun
        simp only [if_true, Option.some.injEq] at hrun
        exact ⟨0, by rw [← hrun]; simp⟩
      · generalize hm : min (oracle os.calls length.toNat).toNat length.toNat = m at hrun
        have hstep : sysWrite oracle os pos length.toNat =
            (((pos.take m).length : Int),
              { delivered := os.delivered ++ pos.take m, calls := os.calls + 1 }) := by
          simp only [sysWrite]
          rw [if_neg hneg, hm]
        rw [hstep] at hrun
        have hne : ¬ (((pos.take m).length : Int) = -1) := by omega
        simp only [if_neg hne, Int.toNat_ofNat] at hrun
        obtain ⟨k, hk⟩ := ih _ _ _ _ hrun
        refine ⟨(pos.take m).length + k, ?_⟩
        rw [hk, List.take_add, List.append_assoc]
        congr 2
        rw [List.length_take]
        exact (take_min_length pos m).symm
    · simp only [if_neg hl, Option.some.injEq] at hrun
      exact ⟨0, by rw [← hrun]; simp⟩

/-- C25: one `ksfu_writeBufferedWriter` call on a writer with `fd > 0`, capacity `C` and
position `p`, `0 <= p <= C`, for `N` bytes.  If `N <= C - p` the descriptor is not touched,
the bytes go to `buffer[p ..]` and `position` becomes `p + N`.  If `C - p < N <= C` and the
writes succeed, the `p` buffered bytes are delivered to the descriptor, once, the `N`
bytes are buffered at index 0 and `position` becomes `N`.  If `N > C` and the writes
succeed, the `p` buffered bytes are delivered first, then the `N` bytes, the buffer is
left as it was and `position` becomes 0.  If the flush fails, the call returns false, the
writer is unchanged and the descriptor has received nothing but a part of the bytes
already buffered. -/
theorem ksfu_writeBufferedWriter_step (oracle : Nat → Nat → Int) (fuel : Nat)
    (w : KSBufferedWriter) (os : WriteOS) (data : List Byte)
    (hfd : 0 < w.fd) (hp : 0 ≤ w.position) (hpc : w.position ≤ w.bufferLength) :
    ((data.length : Int) ≤ w.bufferLength - w.position →
      ksfu_writeBufferedWriter oracle fuel w os data =
        some (true,
          { w with buffer := writeMem w.buffer w.position.toNat data
                   position := w.position + (data.length : Int) }, os)) ∧
    (w.bufferLength - w.position < (data.length : Int) → (data.length : Int) ≤ w.bufferLength →
      (∀ i n, 0 < oracle i n) → w.position.toNat ≤ fuel →
      ∃ os', ksfu_writeBufferedWriter oracle fuel w os data =
          some (true,
            { w with buffer := writeMem w.buffer 0 data, position := (data.length : Int) },
            os') ∧
        os'.delivered = os.delivered ++ readMem w.buffer 0 w.position.toNat) ∧
    (w.bufferLength < (data.length : Int) →
      (∀ i n, 0 < oracle i n) → w.position.toNat ≤ fuel → data.length ≤ fuel →
      ∃ os', ksfu_writeBufferedWriter oracle fuel w os data =
          some (true, { w with position := 0 }, os') ∧
        os'.delivered = os.delivered ++ readMem w.buffer 0 w.position.toNat ++ data) ∧
    (w.bufferLength - w.position < (data.length : Int) →
      ∀ (w1 : KSBufferedWriter) (os1 : WriteOS),
        ksfu_flushBufferedWriter oracle fuel w os = some (false, w1, os1) →
        ksfu_writeBufferedWriter oracle fuel w os data = some (false, w, os1) ∧
        ∃ k : Nat, os1.delivered = os.delivered ++ (readMem w.buffer 0 w.position.toNat).take k) := by
  refine ⟨?_, ?_, ?_, ?_⟩
  · intro hfit
    have h1 : ¬ (data.length : Int) > w.bufferLength - w.position := by omega
    have h2 : ¬ (data.length : Int) > w.bufferLength := by omega
    simp only [ksfu_writeBufferedWriter, if_neg h1, if_neg h2]
  · intro hfit hcap hor hfuel
    obtain ⟨os1, hflush, hdel1⟩ := ksfu_flushBufferedWriter_delivers oracle hor fuel w os hfd hp
      hfuel
    have h2 : ¬ (data.length : Int) > w.bufferLength := by omega
    refine ⟨os1, ?_, hdel1⟩
    simp only [ksfu_writeBufferedWriter, if_pos (show (data.length : Int) >
      w.bufferLength - w.position from hfit), hflush, if_neg h2]
    simp
  · intro hbig hor hfuel hdata
    have hfit : (data.length : Int) > w.bufferLength - w.position := by omega
    obtain ⟨os1, hflush, hdel1⟩ := ksfu_flushBufferedWriter_delivers oracle hor fuel w os hfd hp
      hfuel
    obtain ⟨os2, hrun, hdel2⟩ := ksfu_writeBytesToFD_delivers oracle hor w.fd fuel os1
      data data.length (le_refl _) hdata
    refine ⟨os2, ?_, ?_⟩
    · simp only [ksfu_writeBufferedWriter, if_pos hfit, hflush,
        if_pos (show (data.length : Int) > w.bufferLength from hbig), hrun]
    · rw [hdel2, hdel1, List.take_length]
  · intro hfit w1 os1 hflush
    have hw1 : w1 = w ∧ ∃ k : Nat,
        os1.delivered = os.delivered ++ (readMem w.buffer 0 w.position.toNat).take k := by
      unfold ksfu_flushBufferedWriter at hflush
      by_cases hc : w.fd > 0 ∧ w.position > 0
      · rw [if_pos hc] at hflush
        cases hrun : ksfu_writeBytesToFD oracle fuel os w.fd
            (readMem w.buffer 0 w.position.toNat) w.position with
        | none => rw [hrun] at hflush; simp at hflush
        | some res =>
          obtain ⟨ok, os2⟩ := res
          rw [hrun] at hflush
          obtain ⟨k, hk⟩ := ksfu_writeBytesToFD_prefix oracle w.fd fuel os _ _ _ hrun
          cases ok
          · simp only [Option.some.injEq, Prod.mk.injEq, true_and] at hflush
            obtain ⟨h1, h2⟩ := hflush
            exact ⟨h1.symm, k, by rw [← h2]; exact hk⟩
          · simp at hflush
      · rw [if_neg hc] at hflush
        simp at hflush
    obtain ⟨hw, hk⟩ := hw1
    subst hw
    refine ⟨?_, hk⟩
    simp only [ksfu_writeBufferedWriter, if_pos (show (data.length : Int) >
      w1.bufferLength - w1.position from hfit), hflush]

/-- C25 at concrete inputs: on `demoWriter` (capacity 4, position 3) one byte is buffered
without a write, two bytes force the flush of the three pending bytes. -/
theorem ksfu_writeBufferedWriter_step_witness :
    ksfu_writeBufferedWriter threeAtATime 5 demoWriter demoWriteOS [1] =
      some (true,
        { demoWriter with buffer := writeMem demoWriter.buffer demoWriter.position.toNat [1]
                          position := demoWriter.position + (([1] : List Byte).length : Int) },
        demoWriteOS) ∧
    ∃ os', ksfu_writeBufferedWriter threeAtATime 5 demoWriter demoWriteOS [1, 2] =
        some (true,
          { demoWriter with buffer := writeMem demoWriter.buffer 0 [1, 2]
                            position := (([1, 2] : List Byte).length : Int) }, os') ∧
      os'.delivered = demoWriteOS.delivered ++ readMem demoWriter.buffer 0 demoWriter.position.toNat :=
  ⟨(ksfu_writeBufferedWriter_step threeAtATime 5 demoWriter demoWriteOS [1]
      (by decide) (by decide) (by decide)).1 (by decide),
    (ksfu_writeBufferedWriter_step threeAtATime 5 demoWriter demoWriteOS [1, 2]
      (by decide) (by decide) (by decide)).2.1 (by decide) (by decide)
      (fun _ _ => (by decide : (0 : Int) < 3)) (by decide)⟩

/-- The four cases of C25 on `demoWriter`, by what the descriptor received and where
`position` ends; in the last one every `write` fails. -/
theorem ksfu_writeBufferedWriter_examples :
    (ksfu_writeBufferedWriter threeAtATime 9 demoWriter demoWriteOS [1]).map
      (fun r => (r.1, r.2.1.position, r.2.2.delivered, r.2.2.calls)) =
      some (true, 4, [], 0) ∧
    (ksfu_writeBufferedWriter threeAtATime 9 demoWriter demoWriteOS [1, 2]).map
      (fun r => (r.1, r.2.1.position, r.2.2.delivered, readMem r.2.1.buffer 0 2)) =
      some (true, 2, bytesOf "abc", [1, 2]) ∧
    (ksfu_writeBufferedWriter threeAtATime 9 demoWriter demoWriteOS [1, 2, 3, 4, 5]).map
      (fun r => (r.1, r.2.1.position, r.2.2.delivered, readMem r.2.1.buffer 0 3)) =
      some (true, 0, bytesOf "abc" ++ [1, 2, 3, 4, 5], bytesOf "abc") ∧
    (ksfu_writeBufferedWriter alwaysFailing 9 demoWriter demoWriteOS [1, 2]).map
      (fun r => (r.1, r.2.1.position, r.2.2.delivered, readMem r.2.1.buffer 0 3)) =
      some (false, 3, [], bytesOf "abc") := by
  refine ⟨?_, ?_, ?_, ?_⟩ <;> decide

/-- C30, evaluated: `ksfu_openBufferedWriter` returns true for the descriptor 0, but
`ksfu_flushBufferedWriter` acts only on `fd > 0`.  On that writer, with capacity 4, two
writes of three bytes return true without a `write` call, the second `memcpy` stores at the
indices 3, 4 and 5, and `position` ends at 6.  The claim asks for `position <= C` and
for stores below index `C`. -/
theorem writer_position_overflow :
    (ksfu_openBufferedWriter (fun _ => 0) 4 0).1 = true ∧
    stdinWriter.bufferLength = 4 ∧ stdinWriter.position = 0 ∧ stdinWriter.fd = 0 ∧
    (writeChunks threeAtATime 9 stdinWriter demoWriteOS [[1, 2, 3], [4, 5, 6]]).map
      (fun r => (r.1, r.2.1.position, readMem r.2.1.buffer 0 6, r.2.2.delivered,
        r.2.2.calls)) =
      some (true, 6, [1, 2, 3, 4, 5, 6], [], 0) := by
  decide

/-- The refills of the examples.  `refillReader` is the state that reading three bytes
leaves behind, and its refill puts `"\nde"` into the window `[0, 3)`; when the `read`
fails the window is empty at index 0.  On `shiftReader`, whose window holds `"def"`, the
refill moves `"def"` to the front and appends `"xyz"`. -/
theorem fillReadBuffer_refill_examples :
    refillRun.map (fun res => (res.1, res.2.1)) = some (3, bytesOf "abc") ∧
    refillRun.map (fun res => (res.2.2.1.dataStartPos, res.2.2.1.dataEndPos,
        res.2.2.1.bufferLength)) =
      some (refillReader.dataStartPos, refillReader.dataEndPos, refillReader.bufferLength) ∧
    refillRun.map (fun res => readMem res.2.2.1.buffer 0 9) =
      some (readMem refillReader.buffer 0 9) ∧
    refillRun.map (fun res => (res.2.2.2.file, res.2.2.2.offset, res.2.2.2.log)) =
      some (refillReaderOS.file, refillReaderOS.offset, refillReaderOS.log) ∧
    (fillReadBuffer threeAtATime refillReader refillReaderOS).1 = true ∧
    (fillReadBuffer threeAtATime refillReader refillReaderOS).2.1.dataEndPos = 3 ∧
    readMem (fillReadBuffer threeAtATime refillReader refillReaderOS).2.1.buffer 0 4 =
      bytesOf "\nde" ++ [0] ∧
    (fillReadBuffer alwaysFailing refillReader refillReaderOS).1 = false ∧
    (fillReadBuffer alwaysFailing refillReader refillReaderOS).2.1.dataEndPos = 0 ∧
    readMem shiftReader.buffer shiftReader.dataStartPos.toNat 3 = bytesOf "def" ∧
    (fillReadBuffer threeAtATime shiftReader ⟨bytesOf "xyz", 0, []⟩).2.1.dataEndPos = 6 ∧
    readMem (fillReadBuffer threeAtATime shiftReader ⟨bytesOf "xyz", 0, []⟩).2.1.buffer 0 7 =
      bytesOf "defxyz" ++ [0] := by
  refine ⟨?_, ?_, ?_, ?_, ?_, ?_, ?_, ?_, ?_, ?_, ?_, ?_⟩ <;> decide

/-- C29, evaluated: a reader opened on the seven bytes of `sampleFile` with a five-byte
buffer and drained by a read of four bytes has `dataStartPos = dataEndPos = 4`.  The refill
that the next read starts then runs `memmove(buffer, buffer + 4, 4)`, which reads the
indices 4, 5, 6, 7 of a buffer whose last index is 4: the byte next stored at index 1 is
the one found at index 5, behind the buffer (7 in one run, 9 in the other).  The claim
asks for every index to be below `readBufferLength`. -/
theorem fillReadBuffer_out_of_bounds :
    ∃ res7 res9 : Int × List Byte × KSBufferedReader × ReadOS,
      drainedRun 7 = some res7 ∧ drainedRun 9 = some res9 ∧
      ReaderReachable onceThenFail sampleFile (0 + res7.1.toNat) res7.2.2.1 res7.2.2.2 ∧
      ReaderReachable onceThenFail sampleFile (0 + res9.1.toNat) res9.2.2.1 res9.2.2.2 ∧
      res7.2.2.1.bufferLength + 1 = 5 ∧
      res7.2.2.1.dataStartPos = 4 ∧ res7.2.2.1.dataEndPos = 4 ∧
      fillReadBufferAccesses onceThenFail res7.2.2.1 res7.2.2.2 = [4, 5, 6, 7, 0, 1, 2, 3, 0] ∧
      ¬ (7 < 5) ∧
      readMem res7.2.2.1.buffer 0 5 = readMem res9.2.2.1.buffer 0 5 ∧
      (fillReadBuffer onceThenFail res7.2.2.1 res7.2.2.2).2.1.buffer 1 = 7 ∧
      (fillReadBuffer onceThenFail res9.2.2.1 res9.2.2.2).2.1.buffer 1 = 9 := by
  refine ⟨(drainedRun 7).get (by decide), (drainedRun 9).get (by decide),
    (Option.some_get _).symm, (Option.some_get _).symm, ?_, ?_, ?_⟩
  · exact ReaderReachable.afterRead 0 _ _ 4 4 _
      (ReaderReachable.opened (fun i => if i < 5 then 7 else 7) 5 3 (by decide) (by decide))
      (Option.some_get _).symm
  · exact ReaderReachable.afterRead 0 _ _ 4 4 _
      (ReaderReachable.opened (fun i => if i < 5 then 7 else 9) 5 3 (by decide) (by decide))
      (Option.some_get _).symm
  · refine ⟨?_, ?_, ?_, ?_, ?_, ?_, ?_, ?_⟩ <;> decide

theorem ReaderSession.reachable {oracle : Nat → Nat → Int} {L : Int} {r : KSBufferedReader}
    {os : ReadOS} (h : ReaderSession oracle L r os) :
    (∃ file p, ReaderReachable oracle file p r os) ∧ r.bufferLength = L - 1 := by
  induction h with
  | opened readBuffer fd file h1 hfd =>
    exact ⟨⟨file, 0, ReaderReachable.opened readBuffer L fd h1 hfd⟩,
      (ksfu_openBufferedReader_inv oracle readBuffer L fd file h1 hfd).2.2.2⟩
  | afterRead reader os fuel byteCount res _ hrun ih =>
    obtain ⟨⟨file, p, hreach⟩, hlen⟩ := ih
    refine ⟨⟨file, _, ReaderReachable.afterRead p reader os fuel byteCount res hreach hrun⟩, ?_⟩
    obtain ⟨c, r', os', _, hbl, _, _, _, _, hres, _⟩ :=
      readBufferedLoop_spec oracle fuel reader os [] byteCount 0 hreach.inv.1
    rw [hres res hrun]
    exact hbl.trans hlen
  | afterReadUntilChar reader os fuel ch length res _ hrun ih =>
    obtain ⟨⟨file, p, hreach⟩, hlen⟩ := ih
    refine ⟨⟨file, _, ReaderReachable.afterReadUntilChar p reader os fuel ch length res hreach
      hrun⟩, ?_⟩
    obtain ⟨b, c, r', os', _, hbl, _, _, _, _, hres, _⟩ :=
      readUntilCharLoop_spec oracle ch fuel reader os [] length 0 hreach.inv.1
    rw [hres res hrun]
    exact hbl.trans hlen

/-- C28: in every state of a reader opened with success on a buffer of
`readBufferLength >= 1` bytes, after the open and after every later
`ksfu_readBufferedReader` or `ksfu_readBufferedReaderUntilChar` call, whatever the bounds
and whatever the `read` calls return, `0 <= dataStartPos <= dataEndPos <= bufferLength`,
`bufferLength = readBufferLength - 1` and `buffer[dataEndPos] == 0`.  From such a state
both calls return, a bound of `n` needing no more than `n + 1` iterations. -/
theorem reader_window_invariant (oracle : Nat → Nat → Int) (readBufferLength : Int)
    (reader : KSBufferedReader) (os : ReadOS)
    (h : ReaderSession oracle readBufferLength reader os) :
    0 ≤ reader.dataStartPos ∧ reader.dataStartPos ≤ reader.dataEndPos ∧
    reader.dataEndPos ≤ reader.bufferLength ∧
    reader.bufferLength = readBufferLength - 1 ∧
    reader.buffer reader.dataEndPos.toNat = 0 ∧
    (∀ (byteCount : Int) (fuel : Nat), byteCount.toNat ≤ fuel →
      ∃ res, ksfu_readBufferedReader oracle fuel reader os byteCount = some res) ∧
    (∀ (ch length : Int) (fuel : Nat), length.toNat + 1 ≤ fuel →
      ∃ res, ksfu_readBufferedReaderUntilChar oracle fuel reader os ch length = some res) := by
  obtain ⟨⟨file, p, hreach⟩, hlen⟩ := h.reachable
  have hinv := hreach.inv.1
  refine ⟨hinv.start_nonneg, hinv.start_le_end, hinv.end_le_cap, hlen, hinv.terminated, ?_, ?_⟩
  · intro byteCount fuel hfuel
    obtain ⟨c, r', os', _, _, _, _, _, _, _, htotal⟩ :=
      readBufferedLoop_spec oracle fuel reader os [] byteCount 0 hinv
    exact ⟨_, (htotal hfuel).1⟩
  · intro ch length fuel hfuel
    obtain ⟨b, c, r', os', _, _, _, _, _, _, _, htotal⟩ :=
      readUntilCharLoop_spec oracle ch fuel reader os [] length 0 hinv
    refine ⟨_, (htotal ?_).1⟩
    split <;> omega

/-- C28 at a concrete input: the reader opened on `sampleFile` with a five-byte buffer,
after a read of two bytes. -/
theorem reader_window_invariant_witness :
    ∃ res : Int × List Byte × KSBufferedReader × ReadOS,
      ksfu_readBufferedReader threeAtATime 9 sampleReader sampleReaderOS 2 = some res ∧
      0 ≤ res.2.2.1.dataStartPos ∧ res.2.2.1.dataStartPos ≤ res.2.2.1.dataEndPos ∧
      res.2.2.1.dataEndPos ≤ res.2.2.1.bufferLength ∧
      res.2.2.1.bufferLength = 5 - 1 ∧
      res.2.2.1.buffer res.2.2.1.dataEndPos.toNat = 0 ∧
      (∀ (byteCount : Int) (fuel : Nat), byteCount.toNat ≤ fuel →
        ∃ res1, ksfu_readBufferedReader threeAtATime fuel res.2.2.1 res.2.2.2 byteCount =
          some res1) ∧
      (∀ (ch length : Int) (fuel : Nat), length.toNat + 1 ≤ fuel →
        ∃ res1, ksfu_readBufferedReaderUntilChar threeAtATime fuel res.2.2.1 res.2.2.2 ch
          length = some res1) :=
  ⟨(ksfu_readBufferedReader threeAtATime 9 sampleReader sampleReaderOS 2).get (by decide),
    (Option.some_get _).symm,
    reader_window_invariant threeAtATime 5 _ _
      (ReaderSession.afterRead sampleReader sampleReaderOS 9 2 _
        (ReaderSession.opened (fun _ => 7) 3 sampleFile (by decide) (by decide))
        (Option.some_get _).symm)⟩

/-! ### Reserved threads, thread lists and machine contexts -/

theorem addReservedThreads_spec :
    ∀ (threads : List Nat) (st : ThreadState),
      0 ≤ st.g_reservedThreadsCount → st.g_reservedThreadsCount ≤ 10 →
      (addReservedThreads threads st).g_reservedThreadsCount =
        min (st.g_reservedThreadsCount + (threads.length : Int)) 10 ∧
      (∀ i, i < st.g_reservedThreadsCount.toNat →
        (addReservedThreads threads st).g_reservedThreads i = st.g_reservedThreads i) ∧
      (∀ j, st.g_reservedThreadsCount.toNat + j < 10 →
        ∀ t, threads[j]? = some t →
          (addReservedThreads threads st).g_reservedThreads
            (st.g_reservedThreadsCount.toNat + j) = t) ∧
      (∀ i, 10 ≤ i →
        (addReservedThreads threads st).g_reservedThreads i = st.g_reservedThreads i) := by
  intro threads
  induction threads with
  | nil =>
    intro st h0 h10
    refine ⟨?_, fun _ _ => rfl, fun j _ t ht => ?_, fun _ _ => rfl⟩
    · show st.g_reservedThreadsCount = _
      simp only [List.length_nil, Int.Nat.cast_ofNat_Int, add_zero]
      omega
    · simp at ht
  | cons thread rest ih =>
    intro st h0 h10
    show (addReservedThreads rest (ksmc_addReservedThread thread st)).g_reservedThreadsCount = _ ∧
      (∀ i, i < st.g_reservedThreadsCount.toNat →
        (addReservedThreads rest (ksmc_addReservedThread thread st)).g_reservedThreads i = _) ∧
      (∀ j, st.g_reservedThreadsCount.toNat + j < 10 → ∀ t, (thread :: rest)[j]? = some t →
        (addReservedThreads rest (ksmc_addReservedThread thread st)).g_reservedThreads
          (st.g_reservedThreadsCount.toNat + j) = t) ∧
      (∀ i, 10 ≤ i →
        (addReservedThreads rest (ksmc_addReservedThread thread st)).g_reservedThreads i = _)
    by_cases hfull : st.g_reservedThreadsCount > g_reservedThreadsMaxIndex
    · have hstep : ksmc_addReservedThread thread st = { st with errors := st.errors + 1 } := by
        simp only [ksmc_addReservedThread, if_pos hfull]
      have hc : st.g_reservedThreadsCount = 10 := by
        unfold g_reservedThreadsMaxIndex at hfull
        omega
      rw [hstep]
      obtain ⟨i1, i2, _, i4⟩ := ih { st with errors := st.errors + 1 } h0 h10
      refine ⟨?_, i2, fun j hj => ?_, i4⟩
      · rw [i1]
        show min (st.g_reservedThreadsCount + _) 10 = min (st.g_reservedThreadsCount + _) 10
        rw [hc]
        simp only [List.length_cons]
        omega
      · rw [hc] at hj
        simp at hj
    · have hstep : ksmc_addReservedThread thread st =
          { st with
            g_reservedThreads :=
              Function.update st.g_reservedThreads st.g_reservedThreadsCount.toNat thread
            g_reservedThreadsCount := st.g_reservedThreadsCount + 1 } := by
        simp only [ksmc_addReservedThread, if_neg hfull]
      have hc : st.g_reservedThreadsCount ≤ 9 := by
        unfold g_reservedThreadsMaxIndex at hfull
        omega
      rw [hstep]
      obtain ⟨i1, i2, i3, i4⟩ := ih
        { st with
          g_reservedThreads :=
            Function.update st.g_reservedThreads st.g_reservedThreadsCount.toNat thread
          g_reservedThreadsCount := st.g_reservedThreadsCount + 1 } (by show 0 ≤ _ + 1; omega)
        (by show _ + 1 ≤ 10; omega)
      have hnext : (st.g_reservedThreadsCount + 1).toNat = st.g_reservedThreadsCount.toNat + 1 := by
        omega
      refine ⟨?_, fun i hi => ?_, fun j hj t ht => ?_, fun i hi => ?_⟩
      · rw [i1]
        show min (st.g_reservedThreadsCount + 1 + _) 10 = _
        simp only [List.length_cons]
        omega
      · rw [i2 i (by show i < (st.g_reservedThreadsCount + 1).toNat; omega)]
        exact Function.update_noteq (Nat.ne_of_lt hi) _ _
      · cases j with
        | zero =>
          simp only [List.getElem?_cons_zero, Option.some.injEq] at ht
          rw [Nat.add_zero, i2 _ (by show _ < (st.g_reservedThreadsCount + 1).toNat; omega), ← ht]
          exact Function.update_same _ _ _
        | succ j =>
          simp only [List.getElem?_cons_succ] at ht
          have := i3 j (by show (st.g_reservedThreadsCount + 1).toNat + j < 10; omega) t ht
          rw [show st.g_reservedThreadsCount.toNat + (j + 1) =
            (st.g_reservedThreadsCount + 1).toNat + j by omega]
          exact this
      · rw [i4 i hi]
        exact Function.update_noteq (by omega) _ _

/-- C27: after any sequence of `ksmc_addReservedThread` calls from the initial state,
`g_reservedThreadsCount` is the number of calls or 10, whichever is smaller, so never more
than 10; the slots below the count hold the threads of the first calls in call order; no
slot of index 10 or more has been written; and once ten threads are stored, a further call
leaves the array and the count as they are. -/
theorem ksmc_addReservedThread_bound (threads : List Nat) :
    (addReservedThreads threads ThreadState.initial).g_reservedThreadsCount =
      min (threads.length : Int) 10 ∧
    (addReservedThreads threads ThreadState.initial).g_reservedThreadsCount ≤ 10 ∧
    (∀ i : Nat, (i : Int) < (addReservedThreads threads ThreadState.initial).g_reservedThreadsCount →
      threads[i]? = some ((addReservedThreads threads ThreadState.initial).g_reservedThreads i)) ∧
    (∀ i, 10 ≤ i →
      (addReservedThreads threads ThreadState.initial).g_reservedThreads i =
        ThreadState.initial.g_reservedThreads i) ∧
    (10 ≤ threads.length → ∀ thread,
      (ksmc_addReservedThread thread
        (addReservedThreads threads ThreadState.initial)).g_reservedThreads =
        (addReservedThreads threads ThreadState.initial).g_reservedThreads ∧
      (ksmc_addReservedThread thread
        (addReservedThreads threads ThreadState.initial)).g_reservedThreadsCount =
        (addReservedThreads threads ThreadState.initial).g_reservedThreadsCount) := by
  obtain ⟨h1, _, h3, h4⟩ := addReservedThreads_spec threads ThreadState.initial
    (le_refl _) (by decide)
  have h1' : (addReservedThreads threads ThreadState.initial).g_reservedThreadsCount =
      min (threads.length : Int) 10 := by
    rw [h1]
    show min (0 + (threads.length : Int)) 10 = _
    rw [Int.zero_add]
  refine ⟨h1', by rw [h1']; omega, fun i hi => ?_, h4, fun hlen thread => ?_⟩
  · rw [h1'] at hi
    have hlt : i < threads.length := by omega
    have h := h3 i (by show (0 : Int).toNat + i < 10; simp; omega) threads[i]
      (List.getElem?_eq_getElem hlt)
    rw [show (ThreadState.initial.g_reservedThreadsCount).toNat + i = i by
      show (0 : Int).toNat + i = i; simp] at h
    rw [h]
    exact List.getElem?_eq_getElem hlt
  · have hfull : (addReservedThreads threads ThreadState.initial).g_reservedThreadsCount >
        g_reservedThreadsMaxIndex := by
      rw [h1']
      unfold g_reservedThreadsMaxIndex
      omega
    simp only [ksmc_addReservedThread, if_pos hfull, and_self]

/-- Twelve calls of `ksmc_addReservedThread`: the first ten threads are stored. -/
theorem ksmc_addReservedThread_examples :
    (addReservedThreads [21, 22, 23, 24, 25, 26, 27, 28, 29, 30, 31, 32]
      ThreadState.initial).g_reservedThreadsCount = 10 ∧
    reservedList (addReservedThreads [21, 22, 23, 24, 25, 26, 27, 28, 29, 30, 31, 32]
      ThreadState.initial) = [21, 22, 23, 24, 25, 26, 27, 28, 29, 30] ∧
    (addReservedThreads [21, 22, 23, 24, 25, 26, 27, 28, 29, 30, 31, 32]
      ThreadState.initial).g_reservedThreads 10 = 0 ∧
    (addReservedThreads [21, 22, 23, 24, 25, 26, 27, 28, 29, 30, 31, 32]
      ThreadState.initial).errors = 2 := by
  decide

theorem keepCrashedThread_spec (thisThread maxThreadCount : Nat) (threads : List Nat) :
    ∀ (remaining idx : Nat), idx + remaining = threads.length →
      keepCrashedThread thisThread maxThreadCount threads remaining idx =
        if thisThread ∈ threads.drop idx then
          threads.set ((maxThreadCount + U32_MOD - 1) % U32_MOD) thisThread
        else threads := by
  intro remaining
  induction remaining with
  | zero =>
    intro idx hlen
    have hdrop : threads.drop idx = [] := List.drop_eq_nil_of_le (by omega)
    simp [keepCrashedThread, hdrop]
  | succ remaining ih =>
    intro idx hlen
    have hidx : idx < threads.length := by omega
    have hdrop : threads.drop idx = threads[idx] :: threads.drop (idx + 1) :=
      List.drop_eq_getElem_cons hidx
    have hget : threads[idx]? = some threads[idx] := List.getElem?_eq_getElem hidx
    unfold keepCrashedThread
    rw [hget, hdrop]
    by_cases heq : threads[idx] = thisThread
    · simp only [if_pos heq, List.mem_cons]
      rw [if_pos (Or.inl heq.symm), heq]
    · simp only [if_neg heq]
      rw [ih (idx + 1) (by omega)]
      have hne : ¬ thisThread = threads[idx] := fun h => heq h.symm
      simp only [List.mem_cons, hne, false_or]

theorem copyThreads_spec (threads : List Nat) :
    ∀ (remaining i : Nat) (allThreads : Nat → Nat) (j : Nat),
      copyThreads threads remaining i allThreads j =
        if i ≤ j ∧ j < i + remaining then threads.getD j 0 else allThreads j := by
  intro remaining
  induction remaining with
  | zero =>
    intro i a j
    have : ¬ (i ≤ j ∧ j < i + 0) := by omega
    simp only [copyThreads, if_neg this]
  | succ remaining ih =>
    intro i a j
    unfold copyThreads
    rw [ih]
    by_cases hj : j = i
    · subst hj
      have h1 : ¬ (j + 1 ≤ j ∧ j < j + 1 + remaining) := by omega
      have h2 : j ≤ j ∧ j < j + (remaining + 1) := by omega
      rw [if_neg h1, if_pos h2, Function.update_same]
    · by_cases hin : i + 1 ≤ j ∧ j < i + 1 + remaining
      · have h2 : i ≤ j ∧ j < i + (remaining + 1) := by omega
        rw [if_pos hin, if_pos h2]
      · have h2 : ¬ (i ≤ j ∧ j < i + (remaining + 1)) := by omega
        rw [if_neg hin, if_neg h2, Function.update_noteq hj]

theorem indexOfThreadFrom_found (allThreads : Nat → Nat) (thread : Nat) :
    ∀ (remaining i j : Nat), i ≤ j → j < i + remaining → allThreads j = thread →
      ∃ k : Nat, indexOfThreadFrom allThreads thread remaining i = (k : Int) ∧ i ≤ k ∧
        k < i + remaining ∧ allThreads k = thread := by
  intro remaining
  induction remaining with
  | zero =>
    intro i j h1 h2 _
    omega
  | succ remaining ih =>
    intro i j h1 h2 hj
    unfold indexOfThreadFrom
    by_cases hi : allThreads i = thread
    · rw [if_pos hi]
      exact ⟨i, rfl, le_refl i, by omega, hi⟩
    · rw [if_neg hi]
      have hne : j ≠ i := fun h => hi (by rw [← h]; exact hj)
      obtain ⟨k, hk, h3, h4, h5⟩ := ih (i + 1) j (by omega) (by omega) hj
      exact ⟨k, hk, by omega, by omega, h5⟩

/-- The result of `getThreadList` when `task_threads` succeeds with the array `T`. -/
theorem getThreadList_eq (env : ThreadEnv) (context : KSMachineContext) (st : ThreadState)
    (T : List Nat) (hT : env.task_threads st.log.length = some T) :
    (getThreadList env context st).1 = true ∧
    (getThreadList env context st).2.1.thisThread = context.thisThread ∧
    (getThreadList env context st).2.1.threadCount = ((min T.length env.maxThreadCount : Nat) : Int) ∧
    ∀ j, (getThreadList env context st).2.1.allThreads j =
      if j < min T.length env.maxThreadCount then
        (if env.maxThreadCount < T.length ∧ context.thisThread ∈ T.drop env.maxThreadCount then
          T.set ((env.maxThreadCount + U32_MOD - 1) % U32_MOD) context.thisThread
        else T).getD j 0
      else context.allThreads j := by
  unfold getThreadList
  rw [hT]
  by_cases hbig : T.length > env.maxThreadCount
  · have hmin : min T.length env.maxThreadCount = env.maxThreadCount := by omega
    simp only [if_pos hbig, hmin, true_and]
    intro j
    rw [copyThreads_spec, keepCrashedThread_spec _ _ _ _ _ (by omega)]
    have hlt : env.maxThreadCount < T.length := hbig
    simp only [Nat.zero_le, true_and, Nat.zero_add, hlt]
  · have hmin : min T.length env.maxThreadCount = T.length := by omega
    have hnot : ¬ (env.maxThreadCount < T.length) := hbig
    simp only [if_neg hbig, hmin, true_and]
    intro j
    rw [copyThreads_spec]
    simp only [Nat.zero_le, true_and, Nat.zero_add, hnot, false_and, if_false]

theorem getD_set_ne (l : List Nat) (m i a : Nat) (h : m ≠ i) :
    (l.set m a).getD i 0 = l.getD i 0 := by
  simp [List.getD_eq_getElem?_getD, List.getElem?_set_ne h]

theorem getD_set_self (l : List Nat) (m a : Nat) (h : m < l.length) :
    (l.set m a).getD m 0 = a := by
  simp [List.getD_eq_getElem?_getD, h]

theorem getElem?_eq_some_getD (l : List Nat) (i : Nat) (h : i < l.length) :
    l[i]? = some (l.getD i 0) := by
  simp [List.getD_eq_getElem?_getD, h]

/-- C22: when `task_threads` returns the list `T` of `n` threads and `allThreads` has
`M >= 1` entries, `getThreadList` returns true with `threadCount = min(n, M)` and
`allThreads[i] = T[i]` for every `i < threadCount`, except that when `n > M` and the
thread of the context occurs in `T` at an index `>= M`, `allThreads[M - 1]` is that thread.
No entry of index `>= M` is written.  Hence, when the thread of the context is in `T`,
`ksmc_indexOfThread` returns for it an index `k` with `0 <= k < threadCount` and
`allThreads[k]` equal to it, not -1. -/
theorem getThreadList_spec (env : ThreadEnv) (context : KSMachineContext) (st : ThreadState)
    (T : List Nat) (hM : 0 < env.maxThreadCount) (hM32 : env.maxThreadCount < U32_MOD)
    (hT : env.task_threads st.log.length = some T) :
    (getThreadList env context st).1 = true ∧
    (getThreadList env context st).2.1.threadCount =
      ((min T.length env.maxThreadCount : Nat) : Int) ∧
    (∀ i, i < min T.length env.maxThreadCount →
      ¬ (env.maxThreadCount < T.length ∧ context.thisThread ∈ T.drop env.maxThreadCount ∧
        i = env.maxThreadCount - 1) →
      T[i]? = some ((getThreadList env context st).2.1.allThreads i)) ∧
    (env.maxThreadCount < T.length → context.thisThread ∈ T.drop env.maxThreadCount →
      (getThreadList env context st).2.1.allThreads (env.maxThreadCount - 1) =
        context.thisThread) ∧
    (∀ i, env.maxThreadCount ≤ i →
      (getThreadList env context st).2.1.allThreads i = context.allThreads i) ∧
    (context.thisThread ∈ T →
      ∃ k : Nat,
        ksmc_indexOfThread (getThreadList env context st).2.1 context.thisThread = (k : Int) ∧
        (k : Int) < (getThreadList env context st).2.1.threadCount ∧
        (getThreadList env context st).2.1.allThreads k = context.thisThread) := by
  obtain ⟨hres, _, hcount, hall⟩ := getThreadList_eq env context st T hT
  have hm : (env.maxThreadCount + U32_MOD - 1) % U32_MOD = env.maxThreadCount - 1 := by
    unfold U32_MOD at hM32 ⊢
    omega
  rw [hm] at hall
  have hkept : env.maxThreadCount < T.length → context.thisThread ∈ T.drop env.maxThreadCount →
      (getThreadList env context st).2.1.allThreads (env.maxThreadCount - 1) =
        context.thisThread := by
    intro hbig hmem
    rw [hall, if_pos (by omega), if_pos ⟨hbig, hmem⟩]
    exact getD_set_self T _ _ (by omega)
  have hcopy : ∀ i, i < min T.length env.maxThreadCount →
      ¬ (env.maxThreadCount < T.length ∧ context.thisThread ∈ T.drop env.maxThreadCount ∧
        i = env.maxThreadCount - 1) →
      T[i]? = some ((getThreadList env context st).2.1.allThreads i) := by
    intro i hi hnot
    rw [hall, if_pos hi]
    by_cases hc : env.maxThreadCount < T.length ∧ context.thisThread ∈ T.drop env.maxThreadCount
    · rw [if_pos hc, getD_set_ne T _ i _ (fun h => hnot ⟨hc.1, hc.2, h.symm⟩)]
      exact getElem?_eq_some_getD T i (by omega)
    · rw [if_neg hc]
      exact getElem?_eq_some_getD T i (by omega)
  refine ⟨hres, hcount, hcopy, hkept, fun i hi => ?_, fun hmem => ?_⟩
  · rw [hall, if_neg (by omega)]
  · have hfound : ∃ j, j < min T.length env.maxThreadCount ∧
        (getThreadList env context st).2.1.allThreads j = context.thisThread := by
      obtain ⟨j, hj, hTj⟩ := List.mem_iff_getElem.mp hmem
      by_cases hc : env.maxThreadCount < T.length ∧
          context.thisThread ∈ T.drop env.maxThreadCount
      · exact ⟨env.maxThreadCount - 1, by omega, hkept hc.1 hc.2⟩
      · have hjlt : j < min T.length env.maxThreadCount := by
          by_contra hge
          apply hc
          have hbig : env.maxThreadCount < T.length := by omega
          have hadd : env.maxThreadCount + (j - env.maxThreadCount) = j := by omega
          have hdrop : (T.drop env.maxThreadCount)[j - env.maxThreadCount]? =
              some context.thisThread := by
            rw [List.getElem?_drop, hadd, List.getElem?_eq_getElem hj, hTj]
          exact ⟨hbig, List.getElem?_mem hdrop⟩
        refine ⟨j, hjlt, ?_⟩
        have h := hcopy j hjlt (fun h => hc ⟨h.1, h.2.1⟩)
        rw [List.getElem?_eq_getElem hj, hTj] at h
        exact (Option.some.inj h).symm
    obtain ⟨j, hj, hjt⟩ := hfound
    have hcnat : (getThreadList env context st).2.1.threadCount.toNat =
        min T.length env.maxThreadCount := by
      rw [hcount]
      exact Int.toNat_ofNat _
    obtain ⟨k, hk, _, hk2, hk3⟩ := indexOfThreadFrom_found
      (getThreadList env context st).2.1.allThreads context.thisThread
      (getThreadList env context st).2.1.threadCount.toNat 0 j (Nat.zero_le j)
      (by rw [hcnat]; omega) hjt
    refine ⟨k, hk, ?_, hk3⟩
    rw [hcount]
    rw [hcnat] at hk2
    omega

/-- C22 at a concrete input: five threads, room for three, the thread of the context at
index 3. -/
theorem getThreadList_spec_witness :
    (getThreadList demoThreadEnv { KSMachineContext.zero with thisThread := 14 }
      ThreadState.initial).1 = true ∧
    (getThreadList demoThreadEnv { KSMachineContext.zero with thisThread := 14 }
      ThreadState.initial).2.1.threadCount = ((min 5 3 : Nat) : Int) ∧
    (getThreadList demoThreadEnv { KSMachineContext.zero with thisThread := 14 }
      ThreadState.initial).2.1.allThreads 0 = 11 ∧
    (getThreadList demoThreadEnv { KSMachineContext.zero with thisThread := 14 }
      ThreadState.initial).2.1.allThreads 2 = 14 ∧
    (getThreadList demoThreadEnv { KSMachineContext.zero with thisThread := 14 }
      ThreadState.initial).2.1.allThreads 3 = 0 :=
  have h := getThreadList_spec demoThreadEnv { KSMachineContext.zero with thisThread := 14 }
    ThreadState.initial [11, 12, 13, 14, 15] (by decide) (by simp [demoThreadEnv, U32_MOD]) rfl
  ⟨h.1, h.2.1, (Option.some.inj (h.2.2.1 0 (by decide) (by decide))).symm,
    h.2.2.2.1 (by decide) (by decide), h.2.2.2.2.1 3 (by decide)⟩

/-- The thread list of the witness, the index found for the thread of the context, and the
calls made. -/
theorem getThreadList_examples :
    (List.range 4).map (getThreadList demoThreadEnv { KSMachineContext.zero with thisThread := 14 }
      ThreadState.initial).2.1.allThreads = [11, 12, 14, 0] ∧
    ksmc_indexOfThread (getThreadList demoThreadEnv
      { KSMachineContext.zero with thisThread := 14 } ThreadState.initial).2.1 14 = 2 ∧
    ksmc_indexOfThread (getThreadList demoThreadEnv
      { KSMachineContext.zero with thisThread := 14 } ThreadState.initial).2.1 15 = -1 ∧
    (getThreadList demoThreadEnv { KSMachineContext.zero with thisThread := 14 }
      ThreadState.initial).2.2.log =
      [MachCall.task_threads, MachCall.mach_port_deallocate 11,
       MachCall.mach_port_deallocate 12, MachCall.mach_port_deallocate 14,
       MachCall.mach_port_deallocate 14, MachCall.mach_port_deallocate 15,
       MachCall.vm_deallocate 5] := by
  decide

theorem isThreadInListFrom_iff (thread : Nat) (list : Nat → Nat) :
    ∀ (remaining i : Nat), isThreadInListFrom thread list remaining i = true ↔
      ∃ j, i ≤ j ∧ j < i + remaining ∧ list j = thread := by
  intro remaining
  induction remaining with
  | zero =>
    intro i
    simp only [isThreadInListFrom, Bool.false_eq_true, false_iff]
    rintro ⟨j, h1, h2, _⟩
    omega
  | succ remaining ih =>
    intro i
    by_cases h0 : list i = thread
    · simp only [isThreadInListFrom, if_pos h0, true_iff]
      exact ⟨i, le_refl _, by omega, h0⟩
    · simp only [isThreadInListFrom, if_neg h0, ih]
      constructor
      · rintro ⟨j, h1, h2, h3⟩
        exact ⟨j, by omega, by omega, h3⟩
      · rintro ⟨j, h1, h2, h3⟩
        have hne : j ≠ i := fun h => h0 (by rw [← h]; exact h3)
        exact ⟨j, by omega, by omega, h3⟩

theorem isThreadInList_iff (thread : Nat) (st : ThreadState) :
    isThreadInList thread st.g_reservedThreads st.g_reservedThreadsCount = true ↔
      thread ∈ reservedList st := by
  unfold isThreadInList reservedList
  rw [isThreadInListFrom_iff, List.mem_map]
  constructor
  · rintro ⟨j, _, h2, h3⟩
    exact ⟨j, List.mem_range.mpr (by omega), h3⟩
  · rintro ⟨j, h1, h2⟩
    exact ⟨j, Nat.zero_le j, by have := List.mem_range.mp h1; omega, h2⟩

theorem actedOn_cons (env : ThreadEnv) (st : ThreadState) (thread : Nat) (rest : List Nat) :
    actedOn env st (thread :: rest) =
      if thread ≠ env.ksthread_self ∧
          ¬ isThreadInList thread st.g_reservedThreads st.g_reservedThreadsCount then
        thread :: actedOn env st rest
      else actedOn env st rest := by
  unfold actedOn
  rw [List.filter_cons]
  by_cases h : thread ≠ env.ksthread_self ∧
      ¬ isThreadInList thread st.g_reservedThreads st.g_reservedThreadsCount
  · rw [if_pos h, if_pos]
    rw [isThreadInList_iff] at h
    simp [h.1, h.2]
  · rw [if_neg h, if_neg]
    rw [isThreadInList_iff] at h
    simp only [Bool.and_eq_true, decide_eq_true_eq, Bool.not_eq_true', decide_eq_false_iff_not]
    exact h

theorem suspendLoop_spec (env : ThreadEnv) :
    ∀ (threads : List Nat) (st : ThreadState),
      (suspendLoop env threads st).g_reservedThreads = st.g_reservedThreads ∧
      (suspendLoop env threads st).g_reservedThreadsCount = st.g_reservedThreadsCount ∧
      (suspendLoop env threads st).log =
        st.log ++ (actedOn env st threads).map MachCall.thread_suspend := by
  intro threads
  induction threads with
  | nil =>
    intro st
    simp [suspendLoop, actedOn]
  | cons thread rest ih =>
    intro st
    rw [actedOn_cons]
    unfold suspendLoop
    by_cases h : thread ≠ env.ksthread_self ∧
        ¬ isThreadInList thread st.g_reservedThreads st.g_reservedThreadsCount
    · simp only [if_pos h]
      by_cases hkr : env.thread_suspend st.log.length thread ≠ KERN_SUCCESS
      · simp only [if_pos hkr]
        obtain ⟨i1, i2, i3⟩ := ih
          { st with log := st.log ++ [MachCall.thread_suspend thread], errors := st.errors + 1 }
        refine ⟨i1, i2, ?_⟩
        rw [i3]
        show st.log ++ [MachCall.thread_suspend thread] ++
          (actedOn env st rest).map MachCall.thread_suspend = _
        simp
      · simp only [if_neg hkr]
        obtain ⟨i1, i2, i3⟩ := ih
          { st with log := st.log ++ [MachCall.thread_suspend thread] }
        refine ⟨i1, i2, ?_⟩
        rw [i3]
        show st.log ++ [MachCall.thread_suspend thread] ++
          (actedOn env st rest).map MachCall.thread_suspend = _
        simp
    · simp only [if_neg h]
      exact ih st

theorem resumeLoop_spec (env : ThreadEnv) :
    ∀ (threads : List Nat) (st : ThreadState),
      (resumeLoop env threads st).g_reservedThreads = st.g_reservedThreads ∧
      (resumeLoop env threads st).g_reservedThreadsCount = st.g_reservedThreadsCount ∧
      (resumeLoop env threads st).log =
        st.log ++ (actedOn env st threads).map MachCall.thread_resume := by
  intro threads
  induction threads with
  | nil =>
    intro st
    simp [resumeLoop, actedOn]
  | cons thread rest ih =>
    intro st
    rw [actedOn_cons]
    unfold resumeLoop
    by_cases h : thread ≠ env.ksthread_self ∧
        ¬ isThreadInList thread st.g_reservedThreads st.g_reservedThreadsCount
    · simp only [if_pos h]
      by_cases hkr : env.thread_resume st.log.length thread ≠ KERN_SUCCESS
      · simp only [if_pos hkr]
        obtain ⟨i1, i2, i3⟩ := ih
          { st with log := st.log ++ [MachCall.thread_resume thread], errors := st.errors + 1 }
        refine ⟨i1, i2, ?_⟩
        rw [i3]
        show st.log ++ [MachCall.thread_resume thread] ++
          (actedOn env st rest).map MachCall.thread_resume = _
        simp
      · simp only [if_neg hkr]
        obtain ⟨i1, i2, i3⟩ := ih
          { st with log := st.log ++ [MachCall.thread_resume thread] }
        refine ⟨i1, i2, ?_⟩
        rw [i3]
        show st.log ++ [MachCall.thread_resume thread] ++
          (actedOn env st rest).map MachCall.thread_resume = _
        simp
    · simp only [if_neg h]
      exact ih st

/-- C23: when `task_threads` returns the list `T`, `ksmc_suspendEnvironment` hands `T` and
its length back and calls `thread_suspend`, in list order, on exactly the entries of `T`
that are neither the calling thread nor in the reserved list, whatever the single
`thread_suspend` calls return.  `ksmc_resumeEnvironment` with the same array and count
and an unchanged reserved list calls `thread_resume` on exactly the same entries, in the
same order, before it releases the array; with a `NULL` array or a count of 0 it makes no
call at all. -/
theorem ksmc_suspend_resume_spec (env : ThreadEnv) (st : ThreadState) (T : List Nat)
    (suspendedThreads : Option (List Nat)) (numSuspendedThreads : Nat)
    (hT : env.task_threads st.log.length = some T) :
    (ksmc_suspendEnvironment env suspendedThreads numSuspendedThreads st).1 =
      (some T, T.length) ∧
    (ksmc_suspendEnvironment env suspendedThreads numSuspendedThreads st).2.log =
      st.log ++ [MachCall.task_threads] ++ (actedOn env st T).map MachCall.thread_suspend ∧
    (∀ t, t ∈ actedOn env st T ↔ t ∈ T ∧ t ≠ env.ksthread_self ∧ t ∉ reservedList st) ∧
    reservedList (ksmc_suspendEnvironment env suspendedThreads numSuspendedThreads st).2 =
      reservedList st ∧
    (∀ st2 : ThreadState, reservedList st2 = reservedList st → T ≠ [] →
      (ksmc_resumeEnvironment env (some T) T.length st2).log =
        st2.log ++ (actedOn env st T).map MachCall.thread_resume ++
          T.map MachCall.mach_port_deallocate ++ [MachCall.vm_deallocate T.length]) ∧
    (∀ (st2 : ThreadState) (numThreads : Nat),
      (ksmc_resumeEnvironment env none numThreads st2).log = st2.log) ∧
    (∀ (st2 : ThreadState) (threads : Option (List Nat)),
      (ksmc_resumeEnvironment env threads 0 st2).log = st2.log) := by
  have hrun : ksmc_suspendEnvironment env suspendedThreads numSuspendedThreads st =
      ((some T, T.length),
        suspendLoop env T { st with log := st.log ++ [MachCall.task_threads] }) := by
    unfold ksmc_suspendEnvironment
    rw [hT]
  obtain ⟨s1, s2, s3⟩ := suspendLoop_spec env T
    { st with log := st.log ++ [MachCall.task_threads] }
  refine ⟨by rw [hrun], ?_, ?_, ?_, ?_, ?_, ?_⟩
  · rw [hrun]
    exact s3
  · intro t
    unfold actedOn
    rw [List.mem_filter]
    simp
  · rw [hrun]
    unfold reservedList
    rw [s1, s2]
  · intro st2 hsame hne
    have hlen : T.length ≠ 0 := fun h => hne (List.length_eq_zero.mp h)
    obtain ⟨_, _, r3⟩ := resumeLoop_spec env T st2
    have hacted : actedOn env st2 T = actedOn env st T := by
      unfold actedOn
      rw [hsame]
    unfold ksmc_resumeEnvironment
    simp only [if_neg hlen, List.take_length]
    rw [r3, hacted]
  · intro st2 numThreads
    rfl
  · intro st2 threads
    cases threads with
    | none => rfl
    | some array => simp [ksmc_resumeEnvironment]

/-- C23 at a concrete input: the threads 11 to 15, the caller being 14 and 13 reserved;
`thread_suspend` fails on thread 12. -/
theorem ksmc_suspend_resume_spec_witness :
    (ksmc_suspendEnvironment demoThreadEnv none 0 demoThreadState).1 =
      (some [11, 12, 13, 14, 15], [11, 12, 13, 14, 15].length) ∧
    (ksmc_suspendEnvironment demoThreadEnv none 0 demoThreadState).2.log =
      demoThreadState.log ++ [MachCall.task_threads] ++
        (actedOn demoThreadEnv demoThreadState [11, 12, 13, 14, 15]).map
          MachCall.thread_suspend ∧
    (ksmc_resumeEnvironment demoThreadEnv (some [11, 12, 13, 14, 15])
        [11, 12, 13, 14, 15].length
        (ksmc_suspendEnvironment demoThreadEnv none 0 demoThreadState).2).log =
      (ksmc_suspendEnvironment demoThreadEnv none 0 demoThreadState).2.log ++
        (actedOn demoThreadEnv demoThreadState [11, 12, 13, 14, 15]).map
          MachCall.thread_resume ++
        [11, 12, 13, 14, 15].map MachCall.mach_port_deallocate ++
        [MachCall.vm_deallocate [11, 12, 13, 14, 15].length] :=
  have h := ksmc_suspend_resume_spec demoThreadEnv demoThreadState [11, 12, 13, 14, 15]
    none 0 rfl
  ⟨h.1, h.2.1, h.2.2.2.2.1 _ h.2.2.2.1 (by decide)⟩

/-- The calls of the witness: the failure on thread 12 is logged and thread 15 is still
suspended; a resume without an array or with a count of zero makes no call. -/
theorem ksmc_suspend_resume_examples :
    actedOn demoThreadEnv demoThreadState [11, 12, 13, 14, 15] = [11, 12, 15] ∧
    (ksmc_suspendEnvironment demoThreadEnv none 0 demoThreadState).2.log =
      [MachCall.task_threads, MachCall.thread_suspend 11, MachCall.thread_suspend 12,
       MachCall.thread_suspend 15] ∧
    (ksmc_suspendEnvironment demoThreadEnv none 0 demoThreadState).2.errors = 1 ∧
    (ksmc_resumeEnvironment demoThreadEnv (some [11, 12, 13, 14, 15]) 5 demoThreadState).log =
      [MachCall.thread_resume 11, MachCall.thread_resume 12, MachCall.thread_resume 15,
       MachCall.mach_port_deallocate 11, MachCall.mach_port_deallocate 12,
       MachCall.mach_port_deallocate 13, MachCall.mach_port_deallocate 14,
       MachCall.mach_port_deallocate 15, MachCall.vm_deallocate 5] ∧
    (ksmc_resumeEnvironment demoThreadEnv none 5 demoThreadState).log = [] ∧
    (ksmc_resumeEnvironment demoThreadEnv (some [11, 12]) 0 demoThreadState).log = [] := by
  decide

theorem getThreadList_frame (env : ThreadEnv) (context : KSMachineContext) (st : ThreadState) :
    (getThreadList env context st).2.1.thisThread = context.thisThread ∧
    (getThreadList env context st).2.1.isCrashedContext = context.isCrashedContext ∧
    (getThreadList env context st).2.1.isCurrentThread = context.isCurrentThread ∧
    (getThreadList env context st).2.1.isStackOverflow = context.isStackOverflow ∧
    (getThreadList env context st).2.1.isSignalContext = context.isSignalContext ∧
    (getThreadList env context st).2.1.machineContext = context.machineContext ∧
    ∃ tail : List MachCall,
      (getThreadList env context st).2.2.log = st.log ++ MachCall.task_threads :: tail ∧
      ∀ c ∈ tail, (∃ t, c = MachCall.mach_port_deallocate t) ∨
        (∃ n, c = MachCall.vm_deallocate n) := by
  unfold getThreadList
  cases h : env.task_threads st.log.length with
  | none =>
    exact ⟨rfl, rfl, rfl, rfl, rfl, rfl, [], rfl, fun c hc => absurd hc (List.not_mem_nil c)⟩
  | some threads =>
    refine ⟨rfl, rfl, rfl, rfl, rfl, rfl,
      (if threads.length > env.maxThreadCount then
        keepCrashedThread context.thisThread env.maxThreadCount threads
          (threads.length - env.maxThreadCount) env.maxThreadCount
      else threads).map MachCall.mach_port_deallocate ++
        [MachCall.vm_deallocate threads.length], ?_, ?_⟩
    · simp
    intro c hc
    rw [List.mem_append] at hc
    rcases hc with hc | hc
    · rw [List.mem_map] at hc
      obtain ⟨t, _, ht⟩ := hc
      exact Or.inl ⟨t, ht.symm⟩
    · rw [List.mem_singleton] at hc
      exact Or.inr ⟨_, hc⟩

/-- C21: `ksmc_getContextForThread` returns true with a context that does not depend on
what the struct held before; `thisThread` is the thread, `isCurrentThread` is
(`thread == ksthread_self()`), `isSignalContext` is false and `isCrashedContext` is the
flag given.  The calls added to the log are `kscpu_getState` if and only if the thread is
not the calling thread, and then, if and only if the flag is true, the cursor walk of
`isStackOverflow`, `task_threads` and the release of the thread array; without the
register capture the registers are all zero, and with the flag false `threadCount` is 0,
`isStackOverflow` is false and `allThreads` is all zero.  Every context filled by
`ksmc_getContextForSignal` has `isCrashedContext` and `isSignalContext` true, and
`ksmc_hasValidExceptionRegisters` is true of it. -/
theorem ksmc_getContextForThread_spec (env : ThreadEnv) (thread : Nat)
    (destinationContext : KSMachineContext) (isCrashedContext : Bool) (st : ThreadState) :
    (ksmc_getContextForThread env thread destinationContext isCrashedContext st).1 = true ∧
    (∀ other : KSMachineContext,
      ksmc_getContextForThread env thread other isCrashedContext st =
        ksmc_getContextForThread env thread destinationContext isCrashedContext st) ∧
    (ksmc_getContextForThread env thread destinationContext isCrashedContext st).2.1.thisThread =
      thread ∧
    (ksmc_getContextForThread env thread destinationContext isCrashedContext
      st).2.1.isCurrentThread = decide (thread = env.ksthread_self) ∧
    (ksmc_getContextForThread env thread destinationContext isCrashedContext
      st).2.1.isSignalContext = false ∧
    (ksmc_getContextForThread env thread destinationContext isCrashedContext
      st).2.1.isCrashedContext = isCrashedContext ∧
    (ksmc_getContextForThread env thread destinationContext isCrashedContext
      st).2.1.machineContext =
      (if thread ≠ env.ksthread_self then env.kscpu_getState thread else fun _ => 0) ∧
    (∃ tail : List MachCall,
      (ksmc_getContextForThread env thread destinationContext isCrashedContext st).2.2.log =
        st.log ++ (if thread ≠ env.ksthread_self then [MachCall.kscpu_getState thread] else []) ++
          (if isCrashedContext = true then
            MachCall.kssc_initWithMachineContext env.KSSC_STACK_OVERFLOW_THRESHOLD ::
              MachCall.task_threads :: tail
          else []) ∧
      ∀ c ∈ tail, (∃ t, c = MachCall.mach_port_deallocate t) ∨
        (∃ n, c = MachCall.vm_deallocate n)) ∧
    (isCrashedContext = false →
      (ksmc_getContextForThread env thread destinationContext isCrashedContext
        st).2.1.threadCount = 0 ∧
      (ksmc_getContextForThread env thread destinationContext isCrashedContext
        st).2.1.isStackOverflow = false ∧
      (ksmc_getContextForThread env thread destinationContext isCrashedContext
        st).2.1.allThreads = fun _ => 0) ∧
    (∀ (sourceContext : Nat → Nat) (destination : KSMachineContext) (st1 : ThreadState),
      (ksmc_getContextForSignal env sourceContext destination st1).2.1.isCrashedContext = true ∧
      (ksmc_getContextForSignal env sourceContext destination st1).2.1.isSignalContext = true ∧
      ksmc_hasValidExceptionRegisters
        (ksmc_getContextForSignal env sourceContext destination st1).2.1 = true) := by
  have hsignal : ∀ (sourceContext : Nat → Nat) (destination : KSMachineContext)
      (st1 : ThreadState),
      (ksmc_getContextForSignal env sourceContext destination st1).2.1.isCrashedContext = true ∧
      (ksmc_getContextForSignal env sourceContext destination st1).2.1.isSignalContext = true ∧
      ksmc_hasValidExceptionRegisters
        (ksmc_getContextForSignal env sourceContext destination st1).2.1 = true := by
    intro sourceContext destination st1
    unfold ksmc_getContextForSignal
    obtain ⟨_, f2, _, _, f5, _, _⟩ := getThreadList_frame env
      { destination with
        machineContext := sourceContext, thisThread := env.ksthread_self,
        isCrashedContext := true, isSignalContext := true,
        isStackOverflow := (isStackOverflow env
          { destination with
            machineContext := sourceContext, thisThread := env.ksthread_self,
            isCrashedContext := true, isSignalContext := true } st1).1 }
      (isStackOverflow env
          { destination with
            machineContext := sourceContext, thisThread := env.ksthread_self,
            isCrashedContext := true, isSignalContext := true } st1).2
    refine ⟨f2, f5, ?_⟩
    unfold ksmc_hasValidExceptionRegisters ksmc_canHaveCPUState ksmc_isCrashedContext
      isSignalContext
    rw [f2, f5]
    simp
  by_cases hself : thread = env.ksthread_self <;> cases isCrashedContext
  · refine ⟨?_, fun _ => rfl, ?_, ?_, ?_, ?_, ?_,
      ⟨[], ?_, fun c hc => absurd hc (List.not_mem_nil c)⟩, ?_, hsignal⟩ <;>
      simp [ksmc_getContextForThread, ksmc_canHaveCPUState, isContextForCurrentThread,
        isSignalContext, ksmc_isCrashedContext, hself]
  · obtain ⟨f1, f2, f3, f4, f5, f6, tail, hlog, htail⟩ := getThreadList_frame env
      { thisThread := thread, allThreads := fun _ => 0, threadCount := 0,
        isCrashedContext := true, isCurrentThread := true,
        isStackOverflow := env.hasGivenUp
          { thisThread := thread, allThreads := fun _ => 0, threadCount := 0,
            isCrashedContext := true, isCurrentThread := true, isStackOverflow := false,
            isSignalContext := false, machineContext := fun _ => 0 },
        isSignalContext := false, machineContext := fun _ => 0 }
      { st with log := st.log ++
          [MachCall.kssc_initWithMachineContext env.KSSC_STACK_OVERFLOW_THRESHOLD] }
    have hrun : ksmc_getContextForThread env thread destinationContext true st =
        (true, (getThreadList env
          { thisThread := thread, allThreads := fun _ => 0, threadCount := 0,
            isCrashedContext := true, isCurrentThread := true,
            isStackOverflow := env.hasGivenUp
              { thisThread := thread, allThreads := fun _ => 0, threadCount := 0,
                isCrashedContext := true, isCurrentThread := true, isStackOverflow := false,
                isSignalContext := false, machineContext := fun _ => 0 },
            isSignalContext := false, machineContext := fun _ => 0 }
          { st with log := st.log ++
              [MachCall.kssc_initWithMachineContext env.KSSC_STACK_OVERFLOW_THRESHOLD] }).2) := by
      simp [ksmc_getContextForThread, ksmc_canHaveCPUState, isContextForCurrentThread,
        isSignalContext, ksmc_isCrashedContext, isStackOverflow, hself]
    have hother : ∀ other : KSMachineContext,
        ksmc_getContextForThread env thread other true st =
          ksmc_getContextForThread env thread destinationContext true st := fun _ => rfl
    rw [hrun]
    refine ⟨rfl, fun other => by rw [hother other, hrun], f1, ?_, f5, f2, ?_, ⟨tail, ?_, htail⟩,
      fun h => absurd h (by decide), hsignal⟩
    · rw [f3]; simp [hself]
    · rw [f6]; simp [hself]
    · rw [hlog]; simp [hself]
  · refine ⟨?_, fun _ => rfl, ?_, ?_, ?_, ?_, ?_,
      ⟨[], ?_, fun c hc => absurd hc (List.not_mem_nil c)⟩, ?_, hsignal⟩ <;>
      simp [ksmc_getContextForThread, ksmc_canHaveCPUState, isContextForCurrentThread,
        isSignalContext, ksmc_isCrashedContext, hself]
  · obtain ⟨f1, f2, f3, f4, f5, f6, tail, hlog, htail⟩ := getThreadList_frame env
      { thisThread := thread, allThreads := fun _ => 0, threadCount := 0,
        isCrashedContext := true, isCurrentThread := false,
        isStackOverflow := env.hasGivenUp
          { thisThread := thread, allThreads := fun _ => 0, threadCount := 0,
            isCrashedContext := true, isCurrentThread := false, isStackOverflow := false,
            isSignalContext := false, machineContext := env.kscpu_getState thread },
        isSignalContext := false, machineContext := env.kscpu_getState thread }
      { st with log := st.log ++ [MachCall.kscpu_getState thread] ++
          [MachCall.kssc_initWithMachineContext env.KSSC_STACK_OVERFLOW_THRESHOLD] }
    have hrun : ksmc_getContextForThread env thread destinationContext true st =
        (true, (getThreadList env
          { thisThread := thread, allThreads := fun _ => 0, threadCount := 0,
            isCrashedContext := true, isCurrentThread := false,
            isStackOverflow := env.hasGivenUp
              { thisThread := thread, allThreads := fun _ => 0, threadCount := 0,
                isCrashedContext := true, isCurrentThread := false, isStackOverflow := false,
                isSignalContext := false, machineContext := env.kscpu_getState thread },
            isSignalContext := false, machineContext := env.kscpu_getState thread }
          { st with log := st.log ++ [MachCall.kscpu_getState thread] ++
              [MachCall.kssc_initWithMachineContext env.KSSC_STACK_OVERFLOW_THRESHOLD] }).2) := by
      simp [ksmc_getContextForThread, ksmc_canHaveCPUState, isContextForCurrentThread,
        isSignalContext, ksmc_isCrashedContext, isStackOverflow, hself]
    have hother : ∀ other : KSMachineContext,
        ksmc_getContextForThread env thread other true st =
          ksmc_getContextForThread env thread destinationContext true st := fun _ => rfl
    rw [hrun]
    refine ⟨rfl, fun other => by rw [hother other, hrun], f1, ?_, f5, f2, ?_, ⟨tail, ?_, htail⟩,
      fun h => absurd h (by decide), hsignal⟩
    · rw [f3]; simp [hself]
    · rw [f6]; simp [hself]
    · rw [hlog]; simp [hself]

/-- Calls and fields of `ksmc_getContextForThread` in `demoThreadEnv`, whose calling thread
is 14: for the calling thread without the crashed flag nothing is called; for thread 11
with the flag the registers are captured, the stack is walked and the threads are listed. -/
theorem ksmc_getContextForThread_examples :
    (ksmc_getContextForThread demoThreadEnv 14 KSMachineContext.zero false
      ThreadState.initial).2.2.log = [] ∧
    (ksmc_getContextForThread demoThreadEnv 14 KSMachineContext.zero false
      ThreadState.initial).2.1.isCurrentThread = true ∧
    ksmc_hasValidExceptionRegisters (ksmc_getContextForThread demoThreadEnv 14
      KSMachineContext.zero true ThreadState.initial).2.1 = false ∧
    (ksmc_getContextForThread demoThreadEnv 11 KSMachineContext.zero true
      ThreadState.initial).2.2.log =
      [MachCall.kscpu_getState 11, MachCall.kssc_initWithMachineContext 150,
       MachCall.task_threads, MachCall.mach_port_deallocate 11,
       MachCall.mach_port_deallocate 12, MachCall.mach_port_deallocate 13,
       MachCall.mach_port_deallocate 14, MachCall.mach_port_deallocate 15,
       MachCall.vm_deallocate 5] ∧
    (ksmc_getContextForThread demoThreadEnv 11 KSMachineContext.zero true
      ThreadState.initial).2.1.threadCount = 3 ∧
    (ksmc_getContextForThread demoThreadEnv 11 KSMachineContext.zero true
      ThreadState.initial).2.1.isStackOverflow = true := by
  decide

/-! ### The annotation of the signal monitor -/

/-- C24 (amended): for every event whose `monitorId` is not `NULL`,
`addContextualInfoToEvent` returns the event as it is when `monitorId` equals `"Signal"`,
or equals the id of the Mach-exception monitor when that id is not `NULL`; otherwise it
returns the event with `signal.signum` set to `SIGABRT` and every other field as it
was. -/
theorem addContextualInfoToEvent_spec (machName : Option CStr)
    (eventContext : KSCrash_MonitorContext) (id : CStr)
    (hid : eventContext.monitorId = some id) :
    ((id = signalMonitorId ∨ machName = some id) →
      addContextualInfoToEvent machName eventContext = some eventContext) ∧
    (¬ (id = signalMonitorId ∨ machName = some id) →
      addContextualInfoToEvent machName eventContext =
        some { eventContext with signal_signum := SIGABRT }) := by
  have hsig : strcmp id.val signalMonitorId.val = 0 ↔ id = signalMonitorId := by
    rw [strcmp_eq_zero_iff _ _ id.2 signalMonitorId.2]
    exact ⟨fun h => Subtype.ext h, fun h => by rw [h]⟩
  have hmach : (match machName with
      | none => false
      | some name => decide (strcmp id.val name.val = 0)) = true ↔ machName = some id := by
    cases machName with
    | none => simp
    | some name =>
      simp only [decide_eq_true_eq, Option.some.injEq]
      rw [strcmp_eq_zero_iff _ _ id.2 name.2]
      exact ⟨fun h => (Subtype.ext h).symm, fun h => by rw [h]⟩
  have hcond := or_congr hsig hmach
  unfold addContextualInfoToEvent
  simp only [hid]
  constructor
  · intro h
    rw [if_neg (not_not.mpr (hcond.mpr h))]
  · intro h
    rw [if_pos (fun hc => h (hcond.mp hc))]

/-- C24 (amended) at concrete inputs: an event of the signal monitor is kept, an event of
the user monitor gets `SIGABRT`. -/
theorem addContextualInfoToEvent_spec_witness :
    addContextualInfoToEvent (some machMonitorId)
        { KSCrash_MonitorContext.zero with monitorId := some signalMonitorId } =
      some { KSCrash_MonitorContext.zero with monitorId := some signalMonitorId } ∧
    addContextualInfoToEvent (some machMonitorId) borrowedEvent =
      some { borrowedEvent with signal_signum := SIGABRT } :=
  ⟨(addContextualInfoToEvent_spec (some machMonitorId)
      { KSCrash_MonitorContext.zero with monitorId := some signalMonitorId } signalMonitorId
      rfl).1 (Or.inl rfl),
    (addContextualInfoToEvent_spec (some machMonitorId) borrowedEvent userMonitorId rfl).2
      (by decide)⟩

/-- C24 fails as stated: the claim is about every event, and an event whose `monitorId` is
`NULL`, such as an event straight after its `memset`, is not one of the signal or the
Mach-exception monitor, yet it does not come back with `signal.signum = SIGABRT`:
`addContextualInfoToEvent` hands `eventContext->monitorId` to `strcmp`, which has no
result for `NULL`.  Only the id of the Mach-exception monitor is tested against `NULL`;
with that id `NULL` an event of another monitor gets `SIGABRT`. -/
theorem addContextualInfoToEvent_spec_counterexample :
    KSCrash_MonitorContext.zero.monitorId = none ∧
    KSCrash_MonitorContext.zero.monitorId ≠ some signalMonitorId ∧
    KSCrash_MonitorContext.zero.monitorId ≠ some machMonitorId ∧
    addContextualInfoToEvent (some machMonitorId) KSCrash_MonitorContext.zero = none ∧
    addContextualInfoToEvent none KSCrash_MonitorContext.zero = none ∧
    addContextualInfoToEvent (some machMonitorId) KSCrash_MonitorContext.zero ≠
      some { KSCrash_MonitorContext.zero with signal_signum := SIGABRT } ∧
    addContextualInfoToEvent none borrowedEvent =
      some { borrowedEvent with signal_signum := SIGABRT } := by
  refine ⟨?_, ?_, ?_, ?_, ?_, ?_, ?_⟩ <;> decide

/-- The annotation on four events: of the signal monitor, of the Mach-exception monitor, of
the user monitor, and of the Mach-exception monitor when its id is `NULL`. -/
theorem addContextualInfoToEvent_examples :
    (addContextualInfoToEvent (some machMonitorId)
      { borrowedEvent with monitorId := some signalMonitorId }).map
        (fun e => e.signal_signum) = some 11 ∧
    (addContextualInfoToEvent (some machMonitorId)
      { borrowedEvent with monitorId := some machMonitorId }).map
        (fun e => e.signal_signum) = some 11 ∧
    (addContextualInfoToEvent (some machMonitorId) borrowedEvent).map
        (fun e => e.signal_signum) = some SIGABRT ∧
    (addContextualInfoToEvent none
      { borrowedEvent with monitorId := some machMonitorId }).map
        (fun e => e.signal_signum) = some SIGABRT := by
  decide

end KSCrash
